import Mathlib

/-!
# header-abi-linker

A shallow embedding of `vndk/tools/header-checker/header-abi-linker/src/header_abi_linker.cpp`
and a verification of its linking, filtering and deduplication behaviour.

Conventions of the embedding.

* A `std::set<std::string>` is held as the list of its elements in iteration order
  (duplicate free, ascending).  The operations below assume, but do not require, that
  their input is of that shape.
* Mutable arguments (`dst`, `link_set`, `regex_matched_link_set`) and the fields of
  `HeaderAbiLinker` are threaded through explicitly: a function returns the new values.
* `RepeatedPtrField::Add` always yields an element, so the branch of `LinkDecl` that
  reports a failed `Add` cannot be taken and the boolean results of `LinkDecl`,
  `LinkTypes`, `LinkFunctions` and `LinkGlobalVars` (always `true`) are not carried around.
* A `std::string` is a Lean `String`; a `Char` stands for one `char` of it.
-/

namespace AbiLinker

/-! ## `std::set<std::string>` -/

/-- A `std::set<std::string>`, as the list of its elements in iteration order. -/
abbrev StrSet := List String

/-- Lexicographic comparison of two character sequences (`std::less<std::string>`). -/
def strLess : List Char → List Char → Bool
  | [], [] => false
  | [], _ :: _ => true
  | _ :: _, [] => false
  | a :: as, b :: bs => decide (a.toNat < b.toNat) || (decide (a = b) && strLess as bs)

/-- The list with a new element put before the first element that is greater. -/
def StrSet.place : StrSet → String → StrSet
  | [], k => [k]
  | x :: xs, k => if strLess k.data x.data then k :: x :: xs else x :: StrSet.place xs k

/-- `std::set::insert`: the new set and whether the element was inserted. -/
def StrSet.insert (s : StrSet) (k : String) : StrSet × Bool :=
  if k ∈ s then (s, false) else (StrSet.place s k, true)

/-- `std::set::erase(key)`: removes the elements equal to the key. -/
def StrSet.erase (s : StrSet) (k : String) : StrSet :=
  s.filter (fun x => decide (x ≠ k))

/-! ## The ABI dump messages (`proto/abi_dump.pb.h`) -/

/-- The `type_info` sub-message of a type declaration. -/
structure BasicTypeAbi where
  linker_set_key : String
  source_file : String
  deriving DecidableEq, Repr

/-- A type declaration of any of the eight type categories; what the linker does not read
is kept in `payload`. -/
structure TypeDecl where
  type_info : BasicTypeAbi
  payload : String
  deriving DecidableEq, Repr

/-- The message `abi_dump::FunctionDecl`. -/
structure FunctionDecl where
  linker_set_key : String
  source_file : String
  payload : String
  deriving DecidableEq, Repr

/-- The message `abi_dump::GlobalVarDecl`. -/
structure GlobalVarDecl where
  linker_set_key : String
  source_file : String
  payload : String
  deriving DecidableEq, Repr

/-- The message `abi_dump::ElfFunction`; the linker sets its name only. -/
structure ElfFunction where
  name : String
  deriving DecidableEq, Repr

/-- The message `abi_dump::ElfObject`; the linker sets its name only. -/
structure ElfObject where
  name : String
  deriving DecidableEq, Repr

/-- The message `abi_dump::TranslationUnit`. -/
structure TranslationUnit where
  record_types : List TypeDecl
  enum_types : List TypeDecl
  builtin_types : List TypeDecl
  pointer_types : List TypeDecl
  rvalue_reference_types : List TypeDecl
  lvalue_reference_types : List TypeDecl
  array_types : List TypeDecl
  qualified_types : List TypeDecl
  functions : List FunctionDecl
  global_vars : List GlobalVarDecl
  elf_functions : List ElfFunction
  elf_objects : List ElfObject
  deriving DecidableEq, Repr

/-- A default constructed `abi_dump::TranslationUnit`. -/
def TranslationUnit.empty : TranslationUnit :=
  ⟨[], [], [], [], [], [], [], [], [], [], [], []⟩

/-- The eight type categories, in the order `LinkTypes` visits them. -/
inductive TypeCategory
  | record | enum | builtin | pointer | rvalue_reference | lvalue_reference | array | qualified
  deriving DecidableEq, Repr

/-- The repeated field of a translation unit that holds a type category. -/
def TranslationUnit.types (tu : TranslationUnit) : TypeCategory → List TypeDecl
  | .record => tu.record_types
  | .enum => tu.enum_types
  | .builtin => tu.builtin_types
  | .pointer => tu.pointer_types
  | .rvalue_reference => tu.rvalue_reference_types
  | .lvalue_reference => tu.lvalue_reference_types
  | .array => tu.array_types
  | .qualified => tu.qualified_types

/-- The accessors `GetLinkageName` and `GetSourceFile`, with their specialisations. -/
class Linkable (T : Type) where
  GetLinkageName : T → String
  GetSourceFile : T → String

export Linkable (GetLinkageName GetSourceFile)

instance : Linkable TypeDecl where
  GetLinkageName element := element.type_info.linker_set_key
  GetSourceFile element := element.type_info.source_file

instance : Linkable FunctionDecl where
  GetLinkageName element := element.linker_set_key
  GetSourceFile element := element.source_file

instance : Linkable GlobalVarDecl where
  GetLinkageName element := element.linker_set_key
  GetSourceFile element := element.source_file

/-! ## `std::regex`

The fragment of the ECMAScript grammar that `CreateRegexMatchExprFromSet` can produce from
patterns without further regular-expression syntax: pattern characters, `.`, the
quantifier `*`, the assertion `\b`, capturing groups and alternation. -/

/-- Syntax tree of a regular expression. -/
inductive RegexNode
  | empty
  | char (c : Char)
  | any
  | wordBoundary
  | star (r : RegexNode)
  | seq (a b : RegexNode)
  | alt (a b : RegexNode)
  | group (r : RegexNode)
  deriving DecidableEq, Repr

/-- A `std::regex`; `none` is the default constructed object, which matches nothing. -/
structure Regex where
  automaton : Option RegexNode
  deriving DecidableEq, Repr

/-- A position in the searched string: the character before it, if any, and what follows. -/
abbrev Cfg := Option Char × List Char

/-- Word characters of `\b`: letters, digits and the underscore. -/
def isWordChar (c : Char) : Bool := c.isAlphanum || c = '_'

/-- Line terminators, which `.` does not match. -/
def isLineTerminator (c : Char) : Bool := c = '\n' || c = '\r'

/-- Whether a character that may be absent is a word character. -/
def isWordAt : Option Char → Bool
  | none => false
  | some c => isWordChar c

/-- The assertion `\b`: exactly one of the two neighbours is a word character. -/
def atWordBoundary (c : Cfg) : Bool := isWordAt c.1 != isWordAt c.2.head?

/-- The positions reached by at most `n` rounds of `step` from the positions `front`. -/
def starClosure (step : Cfg → List Cfg) : Nat → List Cfg → List Cfg
  | 0, front => front
  | n + 1, front => front ++ starClosure step n (front.flatMap step)

/-- All positions at which a match of the node that starts at the given position can end. -/
def RegexNode.run : RegexNode → Cfg → List Cfg
  | .empty, c => [c]
  | .char ch, c =>
    match c.2 with
    | [] => []
    | d :: t => if d = ch then [(some d, t)] else []
  | .any, c =>
    match c.2 with
    | [] => []
    | d :: t => if isLineTerminator d then [] else [(some d, t)]
  | .wordBoundary, c => if atWordBoundary c then [c] else []
  | .star r, c => starClosure r.run (c.2.length + 1) [c]
  | .seq a b, c => (a.run c).flatMap b.run
  | .alt a b, c => a.run c ++ b.run c
  | .group r, c => r.run c

/-- Whether a match starts at the given position or at a later one. -/
def searchFrom (r : RegexNode) : Option Char → List Char → Bool
  | prev, [] => !(r.run (prev, [])).isEmpty
  | prev, c :: t => !(r.run (prev, c :: t)).isEmpty || searchFrom r (some c) t

/-- The call `std::regex_search(symbol, re)`. -/
def regex_search (symbol : String) (re : Regex) : Bool :=
  match re.automaton with
  | none => false
  | some r => searchFrom r none symbol.data

/-- One nesting level of the regular-expression reader. -/
structure Frame where
  /-- Alternatives closed by `|`, the latest first. -/
  alts : List RegexNode
  /-- Terms of the open alternative, the latest first. -/
  terms : List RegexNode
  /-- Whether the latest term is an atom that a quantifier may follow. -/
  quantifiable : Bool
  deriving DecidableEq, Repr

/-- The terms of one alternative, in sequence. -/
def seqOfList : List RegexNode → RegexNode
  | [] => .empty
  | t :: ts => .seq t (seqOfList ts)

/-- The alternation of at least one alternative. -/
def disjunction : List RegexNode → RegexNode
  | [] => .empty
  | [a] => a
  | a :: b :: rest => .alt a (disjunction (b :: rest))

/-- The node of a finished nesting level. -/
def Frame.close (f : Frame) : RegexNode :=
  disjunction ((seqOfList f.terms.reverse :: f.alts).reverse)

/-- Adds a term to the open alternative. -/
def Frame.push (f : Frame) (t : RegexNode) (q : Bool) : Frame :=
  { f with terms := t :: f.terms, quantifiable := q }

/-- Characters with a meaning of their own that the fragment does not cover. -/
def isOtherSpecial (c : Char) : Bool :=
  c = '^' || c = '$' || c = '+' || c = '?' || c = '[' || c = ']' || c = '{' || c = '}'

/-- The state of the regular-expression reader. -/
structure Reader where
  /-- Whether the character before was a backslash. -/
  escaped : Bool
  /-- The innermost open nesting level. -/
  frame : Frame
  /-- The enclosing nesting levels, the innermost first. -/
  stack : List Frame
  deriving DecidableEq, Repr

/-- The reader takes the character `c`, which `next` follows; `none` stands for
`std::regex_error` and for what the fragment does not cover. -/
def Reader.read (st : Reader) (c : Char) (next : Option Char) : Option Reader :=
  if st.escaped = true then
    if c = 'b' then some ⟨false, st.frame.push .wordBoundary false, st.stack⟩ else none
  else if c = '(' then
    if next = some '?' then none
    else some ⟨false, ⟨[], [], false⟩, st.frame :: st.stack⟩
  else if c = ')' then
    match st.stack with
    | [] => none
    | p :: ps => some ⟨false, p.push (.group st.frame.close) true, ps⟩
  else if c = '|' then
    some ⟨false, ⟨seqOfList st.frame.terms.reverse :: st.frame.alts, [], false⟩, st.stack⟩
  else if c = '*' then
    if st.frame.quantifiable = true then
      match st.frame.terms with
      | [] => none
      | t :: ts => some ⟨false, ⟨st.frame.alts, .star t :: ts, false⟩, st.stack⟩
    else none
  else if c = '.' then some ⟨false, st.frame.push .any true, st.stack⟩
  else if c = '\\' then some ⟨true, st.frame, st.stack⟩
  else if isOtherSpecial c then none
  else some ⟨false, st.frame.push (.char c) true, st.stack⟩

/-- Reads a regular expression from the given reader state on. -/
def parseRegex : List Char → Reader → Option RegexNode
  | [], st =>
    if st.escaped = true then none
    else
      match st.stack with
      | [] => some st.frame.close
      | _ :: _ => none
  | c :: cs, st =>
    match st.read c cs.head? with
    | none => none
    | some st' => parseRegex cs st'

/-- The constructor `std::regex(str)`. -/
def Regex.ofString (str : String) : Option Regex :=
  (parseRegex str.data ⟨false, ⟨[], [], false⟩, []⟩).map (fun r => ⟨some r⟩)

/-- Modelled from the spec: `abi_util::FindAndReplace` (header_abi_util.h is not among the
sources).  At its only call site, `FindAndReplace(*it, "\\*", ".*")`, it turns a glob
pattern, whose `*` means zero or more arbitrary characters, into a regular expression:
every occurrence of the character `find_char` is replaced by `replace_str`. -/
def FindAndReplace (candidate_str : String) (find_char : Char) (replace_str : String) :
    String :=
  ⟨candidate_str.data.flatMap (fun c => if c = find_char then replace_str.data else [c])⟩

/-- The `while` loop of `CreateRegexMatchExprFromSet`, from iterator position `it` on. -/
def CreateRegexMatchExprFromSet.loop : List String → String → String
  | [], all_regex_match_str => all_regex_match_str
  | p :: rest, all_regex_match_str =>
    let regex_match_str_find_glob := FindAndReplace p '*' ".*"
    let all_regex_match_str :=
      all_regex_match_str ++ ("(\\b" ++ regex_match_str_find_glob ++ "\\b)")
    if rest ≠ [] then CreateRegexMatchExprFromSet.loop rest (all_regex_match_str ++ "|")
    else CreateRegexMatchExprFromSet.loop rest all_regex_match_str

/-- `CreateRegexMatchExprFromSet`; `none` when the constructor of `std::regex` throws. -/
def CreateRegexMatchExprFromSet (link_set : StrSet) : Option Regex :=
  let all_regex_match_str := CreateRegexMatchExprFromSet.loop link_set ""
  if all_regex_match_str = "" then some ⟨none⟩
  else Regex.ofString all_regex_match_str

/-! ## The linker -/

/-- `QueryRegexMatches`: the result and the new `regex_matched_link_set`. -/
def QueryRegexMatches (regex_matched_link_set : StrSet) (vs_regex : Regex)
    (symbol : String) : Bool × StrSet :=
  if symbol ∈ regex_matched_link_set then (false, regex_matched_link_set)
  else if regex_search symbol vs_regex then
    (true, (StrSet.insert regex_matched_link_set symbol).1)
  else (false, regex_matched_link_set)

/-- `HeaderAbiLinker::LinkDecl`: the new `dst`, `link_set` and `regex_matched_link_set`. -/
def LinkDecl {T : Type} [Linkable T] (exported_headers_ : StrSet) (vs_regex : Regex)
    (use_version_script : Bool) :
    List T → List T → StrSet → StrSet → List T × StrSet × StrSet
  | [], dst, link_set, regex_matched_link_set => (dst, link_set, regex_matched_link_set)
  | element :: src, dst, link_set, regex_matched_link_set =>
    let source_file := GetSourceFile element
    if exported_headers_ ≠ [] ∧ source_file ≠ "" ∧ source_file ∉ exported_headers_ then
      LinkDecl exported_headers_ vs_regex use_version_script src dst link_set
        regex_matched_link_set
    else
      let element_str := GetLinkageName element
      if use_version_script = false then
        if (StrSet.insert link_set element_str).2 = false then
          LinkDecl exported_headers_ vs_regex use_version_script src dst
            (StrSet.insert link_set element_str).1 regex_matched_link_set
        else
          LinkDecl exported_headers_ vs_regex use_version_script src (dst ++ [element])
            (StrSet.insert link_set element_str).1 regex_matched_link_set
      else if element_str ∉ link_set then
        if (QueryRegexMatches regex_matched_link_set vs_regex element_str).1 = false then
          LinkDecl exported_headers_ vs_regex use_version_script src dst link_set
            (QueryRegexMatches regex_matched_link_set vs_regex element_str).2
        else
          LinkDecl exported_headers_ vs_regex use_version_script src (dst ++ [element])
            link_set (QueryRegexMatches regex_matched_link_set vs_regex element_str).2
      else
        LinkDecl exported_headers_ vs_regex use_version_script src (dst ++ [element])
          (StrSet.erase link_set element_str) regex_matched_link_set

/-- The command line options, which the source keeps in global variables. -/
structure CommandLine where
  dump_files : List String
  linked_dump : String
  exported_header_dirs : List String
  version_script : String
  api : String
  arch : String
  no_filter : Bool
  use_version_script : Bool
  so_file : String

/-- The data members of `HeaderAbiLinker`. -/
structure HeaderAbiLinker where
  dump_files_ : List String
  exported_header_dirs_ : List String
  version_script_ : String
  so_file_ : String
  out_dump_name_ : String
  arch_ : String
  api_ : String
  exported_headers_ : StrSet
  types_set_ : StrSet
  function_decl_set_ : StrSet
  globvar_decl_set_ : StrSet
  functions_regex_matched_set : StrSet
  functions_vs_regex_ : Regex
  globvars_regex_matched_set : StrSet
  globvars_vs_regex_ : Regex

/-- The constructor of `HeaderAbiLinker`: the sets start empty, the regexes default. -/
def HeaderAbiLinker.new (dump_files exported_header_dirs : List String)
    (version_script so_file linked_dump arch api : String) : HeaderAbiLinker :=
  { dump_files_ := dump_files, exported_header_dirs_ := exported_header_dirs,
    version_script_ := version_script, so_file_ := so_file, out_dump_name_ := linked_dump,
    arch_ := arch, api_ := api, exported_headers_ := [], types_set_ := [],
    function_decl_set_ := [], globvar_decl_set_ := [], functions_regex_matched_set := [],
    functions_vs_regex_ := ⟨none⟩, globvars_regex_matched_set := [],
    globvars_vs_regex_ := ⟨none⟩ }

/-- One call of `LinkDecl` by `LinkTypes`.  The two null pointers it passes are never
dereferenced, since `use_version_script` is `false`; an empty set and a default regex
stand for them and the returned matched set is dropped. -/
def LinkTypeDecl (exported_headers_ : StrSet) (src : List TypeDecl)
    (acc : List TypeDecl × StrSet) : List TypeDecl × StrSet :=
  ((LinkDecl exported_headers_ ⟨none⟩ false src acc.1 acc.2 []).1,
   (LinkDecl exported_headers_ ⟨none⟩ false src acc.1 acc.2 []).2.1)

/-- `HeaderAbiLinker::LinkTypes`. -/
def LinkTypes (self : HeaderAbiLinker) (dump_tu linked_tu : TranslationUnit) :
    HeaderAbiLinker × TranslationUnit :=
  let r1 := LinkTypeDecl self.exported_headers_ dump_tu.record_types
    (linked_tu.record_types, self.types_set_)
  let r2 := LinkTypeDecl self.exported_headers_ dump_tu.enum_types
    (linked_tu.enum_types, r1.2)
  let r3 := LinkTypeDecl self.exported_headers_ dump_tu.builtin_types
    (linked_tu.builtin_types, r2.2)
  let r4 := LinkTypeDecl self.exported_headers_ dump_tu.pointer_types
    (linked_tu.pointer_types, r3.2)
  let r5 := LinkTypeDecl self.exported_headers_ dump_tu.rvalue_reference_types
    (linked_tu.rvalue_reference_types, r4.2)
  let r6 := LinkTypeDecl self.exported_headers_ dump_tu.lvalue_reference_types
    (linked_tu.lvalue_reference_types, r5.2)
  let r7 := LinkTypeDecl self.exported_headers_ dump_tu.array_types
    (linked_tu.array_types, r6.2)
  let r8 := LinkTypeDecl self.exported_headers_ dump_tu.qualified_types
    (linked_tu.qualified_types, r7.2)
  ({ self with types_set_ := r8.2 },
   { linked_tu with
     record_types := r1.1, enum_types := r2.1, builtin_types := r3.1,
     pointer_types := r4.1, rvalue_reference_types := r5.1,
     lvalue_reference_types := r6.1, array_types := r7.1, qualified_types := r8.1 })

/-- `HeaderAbiLinker::LinkFunctions`. -/
def LinkFunctions (self : HeaderAbiLinker) (dump_tu linked_tu : TranslationUnit) :
    HeaderAbiLinker × TranslationUnit :=
  let r := LinkDecl self.exported_headers_ self.functions_vs_regex_
    (decide (self.version_script_ ≠ "") || decide (self.so_file_ ≠ ""))
    dump_tu.functions linked_tu.functions self.function_decl_set_
    self.functions_regex_matched_set
  ({ self with function_decl_set_ := r.2.1, functions_regex_matched_set := r.2.2 },
   { linked_tu with functions := r.1 })

/-- `HeaderAbiLinker::LinkGlobalVars`; it reads the global option `version_script`. -/
def LinkGlobalVars (cl : CommandLine) (self : HeaderAbiLinker)
    (dump_tu linked_tu : TranslationUnit) : HeaderAbiLinker × TranslationUnit :=
  let r := LinkDecl self.exported_headers_ self.globvars_vs_regex_
    (decide (cl.version_script ≠ "") || decide (self.so_file_ ≠ ""))
    dump_tu.global_vars linked_tu.global_vars self.globvar_decl_set_
    self.globvars_regex_matched_set
  ({ self with globvar_decl_set_ := r.2.1, globvars_regex_matched_set := r.2.2 },
   { linked_tu with global_vars := r.1 })

/-- `HeaderAbiLinker::AddElfSymbols`: one named entry for each symbol of the two sets. -/
def AddElfSymbols (self : HeaderAbiLinker) (linked_tu : TranslationUnit) :
    TranslationUnit :=
  { linked_tu with
    elf_functions := linked_tu.elf_functions ++ self.function_decl_set_.map ElfFunction.mk,
    elf_objects := linked_tu.elf_objects ++ self.globvar_decl_set_.map ElfObject.mk }

/-- What the collaborators of the linker answer; their code is not part of the linker. -/
structure Collaborators where
  /-- `abi_util::CollectAllExportedHeaders`. -/
  CollectAllExportedHeaders : List String → StrSet
  /-- The functions and global variables of a shared object, if it can be read. -/
  SoFileParser : String → Option (StrSet × StrSet)
  /-- The functions, global variables, function patterns and global variable patterns of
  a version script for an architecture and an API level, if it can be parsed. -/
  VersionScriptParser :
    String → String → String → Option (StrSet × StrSet × StrSet × StrSet)
  /-- `TextFormat::Parse` of a dump file. -/
  ParseDump : String → Option TranslationUnit
  /-- Whether `TextFormat::Print` of the linked dump succeeds. -/
  Print : TranslationUnit → Bool

/-- How a run of the linker can fail. -/
inductive Failure
  /-- "Couldn't parse so file". -/
  | soFile
  /-- "Failed to parse stub files for exported symbols". -/
  | versionScript
  /-- The constructor of `std::regex` threw; nothing catches the exception. -/
  | regexError
  /-- "Failed to link elements". -/
  | linkElements
  /-- "Serialization to ostream failed". -/
  | serialization
  deriving DecidableEq, Repr

/-- `HeaderAbiLinker::ParseVersionScriptFiles`. -/
def ParseVersionScriptFiles (ext : Collaborators) (self : HeaderAbiLinker) :
    Except Failure HeaderAbiLinker :=
  match ext.VersionScriptParser self.version_script_ self.arch_ self.api_ with
  | none => .error .versionScript
  | some (functions, globvars, function_regexs, globvar_regexs) =>
    match CreateRegexMatchExprFromSet function_regexs,
          CreateRegexMatchExprFromSet globvar_regexs with
    | some fre, some gre =>
      .ok { self with function_decl_set_ := functions, globvar_decl_set_ := globvars,
                      functions_vs_regex_ := fre, globvars_vs_regex_ := gre }
    | _, _ => .error .regexError

/-- `HeaderAbiLinker::ParseSoFile`. -/
def ParseSoFile (ext : Collaborators) (self : HeaderAbiLinker) :
    Except Failure HeaderAbiLinker :=
  match ext.SoFileParser self.so_file_ with
  | none => .error .soFile
  | some (functions, globvars) =>
    .ok { self with function_decl_set_ := functions, globvar_decl_set_ := globvars }

/-- The body of the loop of `LinkAndDump` for a dump file that was parsed. -/
def LinkDump (cl : CommandLine) (s : HeaderAbiLinker × TranslationUnit)
    (dump_tu : TranslationUnit) : HeaderAbiLinker × TranslationUnit :=
  let s1 := LinkTypes s.1 dump_tu s.2
  let s2 := LinkFunctions s1.1 dump_tu s1.2
  LinkGlobalVars cl s2.1 dump_tu s2.2

/-- The loop of `LinkAndDump` over the dump files, given what parsing each one yields. -/
def LinkDumps (cl : CommandLine) :
    List (Option TranslationUnit) → HeaderAbiLinker × TranslationUnit →
      Except Failure (HeaderAbiLinker × TranslationUnit)
  | [], s => .ok s
  | none :: _, _ => .error .linkElements
  | some dump_tu :: rest, s => LinkDumps cl rest (LinkDump cl s dump_tu)

/-- The first part of `LinkAndDump`: the sets and patterns that decide visibility. -/
def ResolveVisibility (ext : Collaborators) (cl : CommandLine) (self : HeaderAbiLinker) :
    Except Failure HeaderAbiLinker :=
  if cl.use_version_script = false then
    ParseSoFile ext
      { self with
        exported_headers_ := ext.CollectAllExportedHeaders self.exported_header_dirs_ }
  else ParseVersionScriptFiles ext self

/-- `HeaderAbiLinker::LinkAndDump`: the linked dump that is written, or the failure. -/
def LinkAndDump (ext : Collaborators) (cl : CommandLine) (self : HeaderAbiLinker) :
    Except Failure TranslationUnit :=
  match ResolveVisibility ext cl self with
  | .error e => .error e
  | .ok self =>
    let linked_tu := AddElfSymbols self TranslationUnit.empty
    match LinkDumps cl (self.dump_files_.map ext.ParseDump) (self, linked_tu) with
    | .error e => .error e
    | .ok s => if ext.Print s.2 = false then .error .serialization else .ok s.2

/-- The linker that `main` constructs from the command line. -/
def mainLinker (cl : CommandLine) : HeaderAbiLinker :=
  HeaderAbiLinker.new cl.dump_files
    (if cl.no_filter then [] else cl.exported_header_dirs)
    cl.version_script cl.so_file cl.linked_dump cl.arch cl.api

/-- The function `main`: the exit status; `none` when an exception ends the process. -/
def main (ext : Collaborators) (cl : CommandLine) : Option Int :=
  match LinkAndDump ext cl (mainLinker cl) with
  | .ok _ => some 0
  | .error .regexError => none
  | .error _ => some (-1)

/-! ## Notions used to state and prove the properties -/

/-- The header filter of `LinkDecl` rejects the element. -/
def headerRejects {T : Type} [Linkable T] (exported_headers_ : StrSet) (element : T) : Prop :=
  exported_headers_ ≠ [] ∧ GetSourceFile element ≠ "" ∧
    GetSourceFile element ∉ exported_headers_

instance {T : Type} [Linkable T] (H : StrSet) (e : T) : Decidable (headerRejects H e) := by
  unfold headerRejects; infer_instance

/-- The elements of a list at the positions that a mask marks. -/
def select {α : Type} : List Bool → List α → List α
  | b :: m, x :: xs => if b then x :: select m xs else select m xs
  | _, _ => []

/-- The body of the loop of `LinkDecl` for one element: whether the element is added, and
the new `link_set` and `regex_matched_link_set`. -/
def linkStep {T : Type} [Linkable T] (H : StrSet) (re : Regex) (b : Bool) (e : T)
    (ls ms : StrSet) : Bool × StrSet × StrSet :=
  if headerRejects H e then (false, ls, ms)
  else if b = false then
    ((StrSet.insert ls (GetLinkageName e)).2, (StrSet.insert ls (GetLinkageName e)).1, ms)
  else if GetLinkageName e ∉ ls then
    ((QueryRegexMatches ms re (GetLinkageName e)).1, ls,
      (QueryRegexMatches ms re (GetLinkageName e)).2)
  else (true, StrSet.erase ls (GetLinkageName e), ms)

/-- Two elements on which `LinkDecl` decides alike. -/
def sameDecision {T U : Type} [Linkable T] [Linkable U] (H : StrSet) (a : T) (b : U) : Prop :=
  GetLinkageName a = GetLinkageName b ∧ (headerRejects H a ↔ headerRejects H b)

/-- The linker state that `LinkFunctions` reads and writes. -/
def fnState (s : HeaderAbiLinker × TranslationUnit) : List FunctionDecl × StrSet × StrSet :=
  (s.2.functions, s.1.function_decl_set_, s.1.functions_regex_matched_set)

/-- The mode in which `LinkFunctions` calls `LinkDecl`. -/
def fnMode (self : HeaderAbiLinker) : Bool :=
  decide (self.version_script_ ≠ "") || decide (self.so_file_ ≠ "")

/-- The number of entities of a sequence that have a given linkage key. -/
def keyCount {T : Type} [Linkable T] (k : String) (xs : List T) : Nat :=
  (xs.map GetLinkageName).count k

/-- The mask-selected parts `select m xs` and `select m ys`, for one mask `m` as long as
`xs`, are what `r1` adds to `d1` and what `r2` adds to `d2`. -/
def SelectedAlike {α β : Type} (xs : List α) (ys : List β) (d1 r1 : List α)
    (d2 r2 : List β) : Prop :=
  ∃ m : List Bool, m.length = xs.length ∧ r1 = d1 ++ select m xs ∧ r2 = d2 ++ select m ys

/-- Two translation units whose entities, position by position, `LinkDecl` decides alike. -/
def SimilarTU (H : StrSet) (tu1 tu2 : TranslationUnit) : Prop :=
  (∀ c, List.Forall₂ (sameDecision H) (tu1.types c) (tu2.types c)) ∧
  List.Forall₂ (sameDecision H) tu1.functions tu2.functions ∧
  List.Forall₂ (sameDecision H) tu1.global_vars tu2.global_vars

/-- One if the name is in the set, zero otherwise. -/
def inSet (k : String) (s : StrSet) : Nat := if k ∈ s then 1 else 0

/-- The number of type entities, of all eight categories, that have a given linkage key. -/
def typeKeyCount (k : String) (tu : TranslationUnit) : Nat :=
  keyCount k tu.record_types + keyCount k tu.enum_types + keyCount k tu.builtin_types +
  keyCount k tu.pointer_types + keyCount k tu.rvalue_reference_types +
  keyCount k tu.lvalue_reference_types + keyCount k tu.array_types +
  keyCount k tu.qualified_types

/-- No entity of the translation unit is one that the header filter rejects. -/
def AllPass (H : StrSet) (tu : TranslationUnit) : Prop :=
  (∀ c, ∀ e ∈ tu.types c, ¬ headerRejects H e) ∧
  (∀ e ∈ tu.functions, ¬ headerRejects H e) ∧
  (∀ e ∈ tu.global_vars, ¬ headerRejects H e)

/-- The entity with its source file name removed. -/
def TypeDecl.eraseSourceFile (e : TypeDecl) : TypeDecl :=
  { e with type_info := { e.type_info with source_file := "" } }

/-- The entity with its source file name removed. -/
def FunctionDecl.eraseSourceFile (e : FunctionDecl) : FunctionDecl :=
  { e with source_file := "" }

/-- The entity with its source file name removed. -/
def GlobalVarDecl.eraseSourceFile (e : GlobalVarDecl) : GlobalVarDecl :=
  { e with source_file := "" }

/-- The translation unit with the source file name of every entity removed. -/
def TranslationUnit.eraseSourceFiles (tu : TranslationUnit) : TranslationUnit :=
  { tu with
    record_types := tu.record_types.map TypeDecl.eraseSourceFile,
    enum_types := tu.enum_types.map TypeDecl.eraseSourceFile,
    builtin_types := tu.builtin_types.map TypeDecl.eraseSourceFile,
    pointer_types := tu.pointer_types.map TypeDecl.eraseSourceFile,
    rvalue_reference_types := tu.rvalue_reference_types.map TypeDecl.eraseSourceFile,
    lvalue_reference_types := tu.lvalue_reference_types.map TypeDecl.eraseSourceFile,
    array_types := tu.array_types.map TypeDecl.eraseSourceFile,
    qualified_types := tu.qualified_types.map TypeDecl.eraseSourceFile,
    functions := tu.functions.map FunctionDecl.eraseSourceFile,
    global_vars := tu.global_vars.map GlobalVarDecl.eraseSourceFile }

/-- The sequences `r1` and `r2` consist of the same positions of `xs` and of `ys`. -/
def SamePositions {α β : Type} (xs : List α) (ys : List β) (r1 : List α) (r2 : List β) :
    Prop :=
  ∃ m : List Bool, m.length = xs.length ∧ r1 = select m xs ∧ r2 = select m ys

/-- The mode in which `LinkGlobalVars` calls `LinkDecl`. -/
def gvMode (cl : CommandLine) (self : HeaderAbiLinker) : Bool :=
  decide (cl.version_script ≠ "") || decide (self.so_file_ ≠ "")

/-- The linker state that `LinkGlobalVars` reads and writes. -/
def gvState (s : HeaderAbiLinker × TranslationUnit) : List GlobalVarDecl × StrSet × StrSet :=
  (s.2.global_vars, s.1.globvar_decl_set_, s.1.globvars_regex_matched_set)

/-! ## Concrete runs -/

/-- A command line for a run in version script mode over the given dump files. -/
def versionScriptRun (dump_files exported_header_dirs : List String) : CommandLine :=
  { dump_files := dump_files, linked_dump := "out.lsdump",
    exported_header_dirs := exported_header_dirs, version_script := "lib.map.txt",
    api := "current", arch := "arm64", no_filter := false, use_version_script := true,
    so_file := "lib.so" }

/-- A command line for a run in shared object mode over the given dump files. -/
def sharedObjectRun (dump_files exported_header_dirs : List String) : CommandLine :=
  { dump_files := dump_files, linked_dump := "out.lsdump",
    exported_header_dirs := exported_header_dirs, version_script := "",
    api := "", arch := "", no_filter := false, use_version_script := false,
    so_file := "lib.so" }

/-- The linker state after visibility is resolved, for a run that gets that far. -/
def resolvedLinker (ext : Collaborators) (cl : CommandLine) : HeaderAbiLinker :=
  match ResolveVisibility ext cl (mainLinker cl) with
  | .ok self => self
  | .error _ => mainLinker cl

/-- A function `bar` declared in `bar.h`. -/
def barDecl : FunctionDecl := ⟨"bar", "bar.h", "void bar()"⟩

/-- A dump that declares the function `bar`. -/
def barDump : TranslationUnit := { TranslationUnit.empty with functions := [barDecl] }

/-- A version script that exports `bar` by name and also by the pattern `b*`; every dump
file holds `barDump`. -/
def overlapExt : Collaborators :=
  { CollectAllExportedHeaders := fun _ => [],
    SoFileParser := fun _ => none,
    VersionScriptParser := fun _ _ _ => some (["bar"], [], ["b*"], []),
    ParseDump := fun _ => some barDump,
    Print := fun _ => true }

/-- A version script that exports `bar` by name only; every dump file holds `barDump`. -/
def exactExt : Collaborators :=
  { CollectAllExportedHeaders := fun _ => [],
    SoFileParser := fun _ => none,
    VersionScriptParser := fun _ _ _ => some (["bar"], [], [], []),
    ParseDump := fun _ => some barDump,
    Print := fun _ => true }

/-- A dump that declares the functions `qux_init` and `other`. -/
def quxDump : TranslationUnit :=
  { TranslationUnit.empty with
    functions :=
      [⟨"qux_init", "qux.h", "void qux_init()"⟩, ⟨"other", "qux.h", "int other()"⟩] }

/-- A version script that exports the pattern `qux_*`; every dump file holds `quxDump`. -/
def quxExt : Collaborators :=
  { CollectAllExportedHeaders := fun _ => [],
    SoFileParser := fun _ => none,
    VersionScriptParser := fun _ _ _ => some ([], [], ["qux_*"], []),
    ParseDump := fun _ => some quxDump,
    Print := fun _ => true }

/-- A dump whose function `baz` and record type `Baz` are declared in `b.h`. -/
def bazDump : TranslationUnit :=
  { TranslationUnit.empty with
    record_types := [⟨⟨"Baz", "b.h"⟩, "struct Baz"⟩],
    functions := [⟨"baz", "b.h", "void baz()"⟩] }

/-- The export directories hold `a.h` only, and the version script exports `baz`. -/
def bazVersionScriptExt : Collaborators :=
  { CollectAllExportedHeaders := fun dirs => if dirs = [] then [] else ["a.h"],
    SoFileParser := fun _ => none,
    VersionScriptParser := fun _ _ _ => some (["baz"], [], [], []),
    ParseDump := fun _ => some bazDump,
    Print := fun _ => true }

/-- The export directories hold no header at all, and the shared object exports `baz`. -/
def bazNoHeaderExt : Collaborators :=
  { CollectAllExportedHeaders := fun _ => [],
    SoFileParser := fun _ => some (["baz"], []),
    VersionScriptParser := fun _ _ _ => none,
    ParseDump := fun _ => some bazDump,
    Print := fun _ => true }

/-- A dump whose function `foo` is declared in `a.h` and whose function `baz` in `b.h`. -/
def fooBazDump : TranslationUnit :=
  { TranslationUnit.empty with
    functions := [⟨"foo", "a.h", "void foo()"⟩, ⟨"baz", "b.h", "void baz()"⟩] }

/-- The export directories hold `a.h` only, and the shared object exports `foo`. -/
def fooExt : Collaborators :=
  { CollectAllExportedHeaders := fun dirs => if dirs = [] then [] else ["a.h"],
    SoFileParser := fun _ => some (["foo"], []),
    VersionScriptParser := fun _ _ _ => none,
    ParseDump := fun _ => some fooBazDump,
    Print := fun _ => true }

/-- A dump that declares the record type `Rec`. -/
def recDump : TranslationUnit :=
  { TranslationUnit.empty with record_types := [⟨⟨"Rec", "rec.h"⟩, "struct Rec"⟩] }

/-- The same dump as `recDump`, with the record type declared in another header. -/
def recDumpMoved : TranslationUnit :=
  { TranslationUnit.empty with record_types := [⟨⟨"Rec", "moved/rec.h"⟩, "struct Rec"⟩] }

/-! ## Glob patterns, as the specification reads them -/

/-- The reading of a glob pattern in the specification, to compare the compiled matcher
with: the pattern matches a whole symbol when its characters match those of the symbol
one by one, each `*` standing for zero or more arbitrary characters. -/
def globMatch : List Char → List Char → Bool
  | [], s => s.isEmpty
  | p :: ps, s =>
    if p = '*' then s.tails.any (globMatch ps)
    else
      match s with
      | [] => false
      | c :: t => decide (p = c) && globMatch ps t

/-- The matcher of the specification: some pattern of the set matches the whole symbol. -/
def specMatches (patterns : StrSet) (symbol : String) : Bool :=
  patterns.any (fun p => globMatch p.data symbol.data)

/-- A character that stands for itself in a regular expression. -/
def isLiteral (c : Char) : Bool :=
  !(c = '(' || c = ')' || c = '|' || c = '*' || c = '.' || c = '\\' || isOtherSpecial c)

/-- The terms that the reader makes of a glob pattern after `*` was replaced by `.*`. -/
def patTerms (p : List Char) : List RegexNode :=
  p.map (fun c => if c = '*' then RegexNode.star RegexNode.any else RegexNode.char c)

/-- The group `(\b...\b)` that the reader makes of a glob pattern. -/
def patGroup (p : List Char) : RegexNode :=
  .group (seqOfList (.wordBoundary :: (patTerms p ++ [.wordBoundary])))

/-- The frame after the reader went over a glob pattern in which `*` was replaced. -/
def readPattern : List Char → Frame → Frame
  | [], f => f
  | c :: p, f =>
    if c = '*' then readPattern p ⟨f.alts, .star .any :: f.terms, false⟩
    else readPattern p (f.push (.char c) true)

/-- The character before the position reached after reading `u`. -/
def lastOr (prev : Option Char) : List Char → Option Char
  | [] => prev
  | c :: u => lastOr (some c) u

/-- The characters of `(\b...\b)` around a glob pattern in which `*` was replaced. -/
def wrapped (p : String) : List Char :=
  ['(', '\\', 'b'] ++ ((FindAndReplace p '*' ".*").data ++ ['\\', 'b', ')'])

/-- The characters of the regular expression for a list of glob patterns. -/
def joined : List String → List Char
  | [] => []
  | [p] => wrapped p
  | p :: q :: rest => wrapped p ++ '|' :: joined (q :: rest)

/-- The syntax tree that the reader makes of the regular expression for the patterns. -/
def patternsNode (patterns : List String) : RegexNode :=
  disjunction (patterns.map (fun p => seqOfList [patGroup p.data]))

/-- A glob pattern without regular-expression syntax: every character is `*` or stands
for itself. -/
def plainPattern (p : String) : Prop := ∀ c ∈ p.data, c = '*' ∨ isLiteral c = true

instance (p : String) : Decidable (plainPattern p) := by
  unfold plainPattern; infer_instance

/-! ## First occurrences and the stream of types -/

/-- Whether the header filter of `LinkDecl` lets the element pass: the exported-header
set is empty, or the source file is empty, or the source file is in the set. -/
def headerPasses {T : Type} [Linkable T] (exported_headers_ : StrSet) (element : T) : Bool :=
  decide (exported_headers_ = [] ∨ GetSourceFile element = "" ∨
    GetSourceFile element ∈ exported_headers_)

/-- The entities of a sequence, in order, whose linkage key is neither in `seen` nor the
key of an earlier entity of the sequence: the first occurrence of each new key. -/
def firstOccurrences {T : Type} [Linkable T] : List String → List T → List T
  | _, [] => []
  | seen, e :: xs =>
    if GetLinkageName e ∈ seen then firstOccurrences seen xs
    else e :: firstOccurrences (GetLinkageName e :: seen) xs

instance : Linkable (TypeCategory × TypeDecl) where
  GetLinkageName element := GetLinkageName element.2
  GetSourceFile element := GetSourceFile element.2

/-- The entities of a sequence, each with the type category it belongs to. -/
def tagged (c : TypeCategory) (xs : List TypeDecl) : List (TypeCategory × TypeDecl) :=
  xs.map (fun e => (c, e))

/-- The type entities of a translation unit in the order in which `LinkTypes` visits
them, each with its category. -/
def typeStream (tu : TranslationUnit) : List (TypeCategory × TypeDecl) :=
  tagged .record tu.record_types ++ (tagged .enum tu.enum_types ++
  (tagged .builtin tu.builtin_types ++ (tagged .pointer tu.pointer_types ++
  (tagged .rvalue_reference tu.rvalue_reference_types ++
  (tagged .lvalue_reference tu.lvalue_reference_types ++
  (tagged .array tu.array_types ++ tagged .qualified tu.qualified_types))))))

/-- The entities of one category in a sequence of entities with categories. -/
def ofCategory (c : TypeCategory) (s : List (TypeCategory × TypeDecl)) : List TypeDecl :=
  (s.filter (fun p => decide (p.1 = c))).map (fun p => p.2)

/-- A function `baz` declared in the header `b.h`, which is not exported. -/
def bazHidden : FunctionDecl := ⟨"baz", "b.h", "void baz()"⟩

/-- The function `baz` declared in the exported header `a.h`. -/
def bazExported : FunctionDecl := ⟨"baz", "a.h", "void baz()"⟩

/-- An implicit function without a source file. -/
def implicitDecl : FunctionDecl := ⟨"__builtin_trap", "", "void __builtin_trap()"⟩

/-- Collaborators that can read neither the shared object nor the version script. -/
def unreadableExt : Collaborators :=
  { CollectAllExportedHeaders := fun _ => [],
    SoFileParser := fun _ => none,
    VersionScriptParser := fun _ _ _ => none,
    ParseDump := fun _ => some fooBazDump,
    Print := fun _ => true }

/-- A dump in which the record type and the enum type have the same linkage key `T`. -/
def clashDump : TranslationUnit :=
  { TranslationUnit.empty with
    record_types := [⟨⟨"T", "t.h"⟩, "struct T"⟩],
    enum_types := [⟨⟨"T", "t.h"⟩, "enum T"⟩] }

/-- A command line without version script and without shared object. -/
def plainRun (dump_files : List String) : CommandLine :=
  { dump_files := dump_files, linked_dump := "out.lsdump", exported_header_dirs := [],
    version_script := "", api := "", arch := "", no_filter := false,
    use_version_script := false, so_file := "" }

/-! ## Lemmas -/

theorem StrSet.mem_place (s : StrSet) (k x : String) :
    x ∈ StrSet.place s k ↔ x = k ∨ x ∈ s := by
  induction s with
  | nil => simp [StrSet.place]
  | cons y ys ih =>
    unfold StrSet.place
    split_ifs with h1
    · simp
    · simp [ih]; tauto

theorem StrSet.mem_insert (s : StrSet) (k x : String) :
    x ∈ (StrSet.insert s k).1 ↔ x = k ∨ x ∈ s := by
  unfold StrSet.insert
  split_ifs with h
  · constructor
    · intro hx; exact Or.inr hx
    · rintro (rfl | hx)
      · exact h
      · exact hx
  · exact StrSet.mem_place s k x

theorem StrSet.insert_snd (s : StrSet) (k : String) :
    (StrSet.insert s k).2 = decide (k ∉ s) := by
  unfold StrSet.insert
  split_ifs with h <;> simp [h]

theorem StrSet.mem_erase (s : StrSet) (k x : String) :
    x ∈ StrSet.erase s k ↔ x ∈ s ∧ x ≠ k := by
  simp [StrSet.erase]

theorem LinkDecl_cons {T : Type} [Linkable T] (H : StrSet) (re : Regex) (b : Bool) (e : T)
    (src dst : List T) (ls ms : StrSet) :
    LinkDecl H re b (e :: src) dst ls ms =
      LinkDecl H re b src (if (linkStep H re b e ls ms).1 then dst ++ [e] else dst)
        (linkStep H re b e ls ms).2.1 (linkStep H re b e ls ms).2.2 := by
  rw [LinkDecl]
  unfold linkStep headerRejects
  simp only []
  split_ifs <;> simp_all

theorem select_append {α : Type} (m1 m2 : List Bool) (xs ys : List α)
    (h : m1.length = xs.length) :
    select (m1 ++ m2) (xs ++ ys) = select m1 xs ++ select m2 ys := by
  induction m1 generalizing xs with
  | nil =>
    cases xs with
    | nil => simp [select]
    | cons x xs => simp at h
  | cons b m ih =>
    cases xs with
    | nil => simp at h
    | cons x xs =>
      simp only [List.length_cons, Nat.add_right_cancel_iff] at h
      have ih' := ih xs h
      cases b <;> simp [select, ih']

theorem select_sublist {α : Type} (m : List Bool) (xs : List α) :
    List.Sublist (select m xs) xs := by
  induction m generalizing xs with
  | nil => cases xs <;> simp [select]
  | cons b m ih =>
    cases xs with
    | nil => simp [select]
    | cons x xs =>
      simp only [select]
      split_ifs
      · exact (ih xs).cons₂ x
      · exact (ih xs).cons x

theorem linkStep_congr {T U : Type} [Linkable T] [Linkable U] (H : StrSet) (re : Regex)
    (b : Bool) (x : T) (y : U) (h : sameDecision H x y) (ls ms : StrSet) :
    linkStep H re b x ls ms = linkStep H re b y ls ms := by
  unfold linkStep
  rw [h.1]
  by_cases hx : headerRejects H x
  · rw [if_pos hx, if_pos (h.2.1 hx)]
  · rw [if_neg hx, if_neg (fun hy => hx (h.2.2 hy))]

theorem LinkDecl_rel {T U : Type} [Linkable T] [Linkable U] (H : StrSet) (re : Regex)
    (b : Bool) (src1 : List T) (src2 : List U)
    (h : List.Forall₂ (sameDecision H) src1 src2) :
    ∀ (dst1 : List T) (dst2 : List U) (ls ms : StrSet),
      ∃ m : List Bool, m.length = src1.length ∧
        (LinkDecl H re b src1 dst1 ls ms).1 = dst1 ++ select m src1 ∧
        (LinkDecl H re b src2 dst2 ls ms).1 = dst2 ++ select m src2 ∧
        (LinkDecl H re b src1 dst1 ls ms).2 = (LinkDecl H re b src2 dst2 ls ms).2 := by
  induction h with
  | nil =>
    intro dst1 dst2 ls ms
    exact ⟨[], rfl, by simp [LinkDecl, select], by simp [LinkDecl, select], by simp [LinkDecl]⟩
  | @cons x y xs ys hxy _ ih =>
    intro dst1 dst2 ls ms
    rw [LinkDecl_cons, LinkDecl_cons, ← linkStep_congr H re b x y hxy ls ms]
    obtain ⟨m, hm, h1, h2, h3⟩ := ih
      (if (linkStep H re b x ls ms).1 then dst1 ++ [x] else dst1)
      (if (linkStep H re b x ls ms).1 then dst2 ++ [y] else dst2)
      (linkStep H re b x ls ms).2.1 (linkStep H re b x ls ms).2.2
    refine ⟨(linkStep H re b x ls ms).1 :: m, by simp [hm], ?_, ?_, h3⟩
    · rw [h1]; cases (linkStep H re b x ls ms).1 <;> simp [select]
    · rw [h2]; cases (linkStep H re b x ls ms).1 <;> simp [select]

theorem sameDecision_refl {T : Type} [Linkable T] (H : StrSet) (xs : List T) :
    List.Forall₂ (sameDecision H) xs xs := by
  induction xs with
  | nil => exact List.Forall₂.nil
  | cons x xs ih => exact List.Forall₂.cons ⟨rfl, Iff.rfl⟩ ih

theorem LinkDecl_append {T : Type} [Linkable T] (H : StrSet) (re : Regex) (b : Bool)
    (src1 src2 : List T) :
    ∀ (dst : List T) (ls ms : StrSet),
      LinkDecl H re b (src1 ++ src2) dst ls ms =
        LinkDecl H re b src2 (LinkDecl H re b src1 dst ls ms).1
          (LinkDecl H re b src1 dst ls ms).2.1 (LinkDecl H re b src1 dst ls ms).2.2 := by
  induction src1 with
  | nil => intro dst ls ms; simp [LinkDecl]
  | cons e src1 ih =>
    intro dst ls ms
    rw [List.cons_append, LinkDecl_cons, LinkDecl_cons, ih]

theorem LinkDump_frame (cl : CommandLine) (s : HeaderAbiLinker × TranslationUnit)
    (tu : TranslationUnit) :
    (LinkDump cl s tu).1.exported_headers_ = s.1.exported_headers_ ∧
    (LinkDump cl s tu).1.version_script_ = s.1.version_script_ ∧
    (LinkDump cl s tu).1.so_file_ = s.1.so_file_ ∧
    (LinkDump cl s tu).1.functions_vs_regex_ = s.1.functions_vs_regex_ ∧
    (LinkDump cl s tu).1.globvars_vs_regex_ = s.1.globvars_vs_regex_ ∧
    (LinkDump cl s tu).2.elf_functions = s.2.elf_functions ∧
    (LinkDump cl s tu).2.elf_objects = s.2.elf_objects := by
  simp [LinkDump, LinkTypes, LinkFunctions, LinkGlobalVars]

theorem LinkDump_fnState (cl : CommandLine) (s : HeaderAbiLinker × TranslationUnit)
    (tu : TranslationUnit) :
    fnState (LinkDump cl s tu) =
      LinkDecl s.1.exported_headers_ s.1.functions_vs_regex_ (fnMode s.1) tu.functions
        (fnState s).1 (fnState s).2.1 (fnState s).2.2 := by
  simp [LinkDump, LinkTypes, LinkFunctions, LinkGlobalVars, fnState, fnMode]

theorem LinkDumps_ok (cl : CommandLine) (tus : List TranslationUnit) :
    ∀ s, LinkDumps cl (tus.map some) s = .ok (tus.foldl (LinkDump cl) s) := by
  induction tus with
  | nil => intro s; rfl
  | cons tu tus ih => intro s; simp [LinkDumps, ih]

theorem foldl_LinkDump_frame (cl : CommandLine) (tus : List TranslationUnit) :
    ∀ s : HeaderAbiLinker × TranslationUnit,
    (tus.foldl (LinkDump cl) s).1.exported_headers_ = s.1.exported_headers_ ∧
    (tus.foldl (LinkDump cl) s).1.version_script_ = s.1.version_script_ ∧
    (tus.foldl (LinkDump cl) s).1.so_file_ = s.1.so_file_ ∧
    (tus.foldl (LinkDump cl) s).1.functions_vs_regex_ = s.1.functions_vs_regex_ ∧
    (tus.foldl (LinkDump cl) s).1.globvars_vs_regex_ = s.1.globvars_vs_regex_ ∧
    (tus.foldl (LinkDump cl) s).2.elf_functions = s.2.elf_functions ∧
    (tus.foldl (LinkDump cl) s).2.elf_objects = s.2.elf_objects := by
  induction tus with
  | nil => intro s; simp
  | cons tu tus ih =>
    intro s
    have h := LinkDump_frame cl s tu
    have h2 := ih (LinkDump cl s tu)
    simp only [List.foldl_cons]
    obtain ⟨a1, a2, a3, a4, a5, a6, a7⟩ := h
    obtain ⟨b1, b2, b3, b4, b5, b6, b7⟩ := h2
    exact ⟨b1.trans a1, b2.trans a2, b3.trans a3, b4.trans a4, b5.trans a5, b6.trans a6,
      b7.trans a7⟩

theorem foldl_LinkDump_fnState (cl : CommandLine) (tus : List TranslationUnit) :
    ∀ s : HeaderAbiLinker × TranslationUnit,
    fnState (tus.foldl (LinkDump cl) s) =
      LinkDecl s.1.exported_headers_ s.1.functions_vs_regex_ (fnMode s.1)
        (tus.flatMap (fun tu => tu.functions)) (fnState s).1 (fnState s).2.1 (fnState s).2.2 := by
  induction tus with
  | nil => intro s; simp [LinkDecl, fnState]
  | cons tu tus ih =>
    intro s
    have h := LinkDump_frame cl s tu
    simp only [List.foldl_cons, List.flatMap_cons]
    rw [ih, LinkDecl_append, LinkDump_fnState]
    simp only [fnMode, h.1, h.2.1, h.2.2.1, h.2.2.2.1]

theorem keyCount_append {T : Type} [Linkable T] (k : String) (xs ys : List T) :
    keyCount k (xs ++ ys) = keyCount k xs + keyCount k ys := by
  simp [keyCount]

theorem keyCount_single {T : Type} [Linkable T] (k : String) (e : T) :
    keyCount k [e] = if GetLinkageName e = k then 1 else 0 := by
  simp [keyCount, List.count_singleton]

theorem linkStep_symbol_count {T : Type} [Linkable T] (H : StrSet) (re : Regex) (k : String)
    (e : T) (dst : List T) (ls ms : StrSet) (hk : k ∉ ls) :
    keyCount k (if (linkStep H re true e ls ms).1 then dst ++ [e] else dst) +
        (if k ∈ ms then 1 else 0) =
      keyCount k dst + (if k ∈ (linkStep H re true e ls ms).2.2 then 1 else 0) ∧
    (k ∈ ms → k ∈ (linkStep H re true e ls ms).2.2) ∧
    (k ∈ (linkStep H re true e ls ms).2.2 → k ∈ ms ∨ regex_search k re = true) ∧
    k ∉ (linkStep H re true e ls ms).2.1 := by
  unfold linkStep
  by_cases hr : headerRejects H e
  · simp [hr, hk]
    exact Or.inl
  · simp only [hr, if_false, Bool.true_eq_false]
    by_cases hke : GetLinkageName e = k
    · subst hke
      simp only [hk, not_false_eq_true, if_true]
      unfold QueryRegexMatches
      by_cases hm : GetLinkageName e ∈ ms
      · simp [hm, hk]
      · by_cases hre : regex_search (GetLinkageName e) re = true
        · simp [hm, hre, hk, StrSet.mem_insert, keyCount_append, keyCount_single]
        · simp [hm, hre, hk]
    · have hne : ¬ k = GetLinkageName e := fun h => hke h.symm
      by_cases hl : GetLinkageName e ∈ ls
      · simp [hl, hk, keyCount_append, keyCount_single, hke, StrSet.mem_erase]
        exact Or.inl
      · simp only [hl, not_false_eq_true, if_true]
        unfold QueryRegexMatches
        by_cases hm : GetLinkageName e ∈ ms
        · simp [hm, hk]
          exact Or.inl
        · by_cases hre : regex_search (GetLinkageName e) re = true
          · simp [hm, hre, hk, StrSet.mem_insert, keyCount_append, keyCount_single, hke, hne]
            exact Or.inl
          · simp [hm, hre, hk]
            exact Or.inl

theorem LinkDecl_symbol_count {T : Type} [Linkable T] (H : StrSet) (re : Regex) (k : String)
    (src : List T) :
    ∀ (dst : List T) (ls ms : StrSet), k ∉ ls →
      keyCount k (LinkDecl H re true src dst ls ms).1 + (if k ∈ ms then 1 else 0) =
        keyCount k dst + (if k ∈ (LinkDecl H re true src dst ls ms).2.2 then 1 else 0) ∧
      (k ∈ ms → k ∈ (LinkDecl H re true src dst ls ms).2.2) ∧
      (k ∈ (LinkDecl H re true src dst ls ms).2.2 → k ∈ ms ∨ regex_search k re = true) ∧
      k ∉ (LinkDecl H re true src dst ls ms).2.1 := by
  induction src with
  | nil => intro dst ls ms hk; simp [LinkDecl, hk]; exact Or.inl
  | cons e src ih =>
    intro dst ls ms hk
    rw [LinkDecl_cons]
    obtain ⟨a1, a2, a3, a4⟩ := linkStep_symbol_count H re k e dst ls ms hk
    obtain ⟨b1, b2, b3, b4⟩ := ih (if (linkStep H re true e ls ms).1 then dst ++ [e] else dst)
      (linkStep H re true e ls ms).2.1 (linkStep H re true e ls ms).2.2 a4
    refine ⟨by omega, fun h => b2 (a2 h), fun h => ?_, b4⟩
    rcases b3 h with h' | h'
    · exact a3 h'
    · exact Or.inr h'

theorem SelectedAlike.nil {α β : Type} (d1 : List α) (d2 : List β) :
    SelectedAlike [] [] d1 d1 d2 d2 :=
  ⟨[], rfl, by simp [select], by simp [select]⟩

theorem SelectedAlike.trans {α β : Type} {xs xs' : List α} {ys ys' : List β}
    {d1 r1 r1' : List α} {d2 r2 r2' : List β}
    (hlen : xs.length = ys.length)
    (h : SelectedAlike xs ys d1 r1 d2 r2) (h' : SelectedAlike xs' ys' r1 r1' r2 r2') :
    SelectedAlike (xs ++ xs') (ys ++ ys') d1 r1' d2 r2' := by
  obtain ⟨m, hm, e1, e2⟩ := h
  obtain ⟨m', hm', e1', e2'⟩ := h'
  refine ⟨m ++ m', by simp [hm, hm'], ?_, ?_⟩
  · rw [select_append m m' xs xs' hm, e1', e1, List.append_assoc]
  · rw [select_append m m' ys ys' (hm.trans hlen), e2', e2, List.append_assoc]

theorem LinkTypeDecl_rel (H : StrSet) (src1 src2 : List TypeDecl)
    (h : List.Forall₂ (sameDecision H) src1 src2) (a1 a2 : List TypeDecl × StrSet)
    (hs : a1.2 = a2.2) :
    (LinkTypeDecl H src1 a1).2 = (LinkTypeDecl H src2 a2).2 ∧
    SelectedAlike src1 src2 a1.1 (LinkTypeDecl H src1 a1).1 a2.1 (LinkTypeDecl H src2 a2).1 := by
  obtain ⟨m, hm, h1, h2, h3⟩ := LinkDecl_rel H ⟨none⟩ false src1 src2 h a1.1 a2.1 a1.2 []
  unfold LinkTypeDecl
  rw [← hs]
  exact ⟨by rw [h3], m, hm, h1, h2⟩

theorem LinkTypes_rel (self : HeaderAbiLinker) (tu1 tu2 acc1 acc2 : TranslationUnit)
    (h : ∀ c, List.Forall₂ (sameDecision self.exported_headers_) (tu1.types c) (tu2.types c)) :
    (LinkTypes self tu1 acc1).1 = (LinkTypes self tu2 acc2).1 ∧
    ∀ c, SelectedAlike (tu1.types c) (tu2.types c) (acc1.types c)
      ((LinkTypes self tu1 acc1).2.types c) (acc2.types c)
      ((LinkTypes self tu2 acc2).2.types c) := by
  have e1 := LinkTypeDecl_rel self.exported_headers_ _ _ (h .record)
    (acc1.record_types, self.types_set_) (acc2.record_types, self.types_set_) rfl
  have e2 := LinkTypeDecl_rel self.exported_headers_ _ _ (h .enum)
    (acc1.enum_types, _) (acc2.enum_types, _) e1.1
  have e3 := LinkTypeDecl_rel self.exported_headers_ _ _ (h .builtin)
    (acc1.builtin_types, _) (acc2.builtin_types, _) e2.1
  have e4 := LinkTypeDecl_rel self.exported_headers_ _ _ (h .pointer)
    (acc1.pointer_types, _) (acc2.pointer_types, _) e3.1
  have e5 := LinkTypeDecl_rel self.exported_headers_ _ _ (h .rvalue_reference)
    (acc1.rvalue_reference_types, _) (acc2.rvalue_reference_types, _) e4.1
  have e6 := LinkTypeDecl_rel self.exported_headers_ _ _ (h .lvalue_reference)
    (acc1.lvalue_reference_types, _) (acc2.lvalue_reference_types, _) e5.1
  have e7 := LinkTypeDecl_rel self.exported_headers_ _ _ (h .array)
    (acc1.array_types, _) (acc2.array_types, _) e6.1
  have e8 := LinkTypeDecl_rel self.exported_headers_ _ _ (h .qualified)
    (acc1.qualified_types, _) (acc2.qualified_types, _) e7.1
  refine ⟨?_, ?_⟩
  · simp only [LinkTypes]
    have := e8.1
    simp only [TranslationUnit.types] at this
    rw [this]
  · intro c
    cases c
    · exact e1.2
    · exact e2.2
    · exact e3.2
    · exact e4.2
    · exact e5.2
    · exact e6.2
    · exact e7.2
    · exact e8.2

theorem LinkFunctions_rel (self : HeaderAbiLinker) (tu1 tu2 acc1 acc2 : TranslationUnit)
    (h : List.Forall₂ (sameDecision self.exported_headers_) tu1.functions tu2.functions) :
    (LinkFunctions self tu1 acc1).1 = (LinkFunctions self tu2 acc2).1 ∧
    SelectedAlike tu1.functions tu2.functions acc1.functions
      (LinkFunctions self tu1 acc1).2.functions acc2.functions
      (LinkFunctions self tu2 acc2).2.functions := by
  obtain ⟨m, hm, h1, h2, h3⟩ := LinkDecl_rel self.exported_headers_ self.functions_vs_regex_
    (decide (self.version_script_ ≠ "") || decide (self.so_file_ ≠ "")) _ _ h
    acc1.functions acc2.functions self.function_decl_set_ self.functions_regex_matched_set
  refine ⟨?_, m, hm, h1, h2⟩
  simp only [LinkFunctions]
  rw [h3]

theorem LinkGlobalVars_rel (cl : CommandLine) (self : HeaderAbiLinker)
    (tu1 tu2 acc1 acc2 : TranslationUnit)
    (h : List.Forall₂ (sameDecision self.exported_headers_) tu1.global_vars tu2.global_vars) :
    (LinkGlobalVars cl self tu1 acc1).1 = (LinkGlobalVars cl self tu2 acc2).1 ∧
    SelectedAlike tu1.global_vars tu2.global_vars acc1.global_vars
      (LinkGlobalVars cl self tu1 acc1).2.global_vars acc2.global_vars
      (LinkGlobalVars cl self tu2 acc2).2.global_vars := by
  obtain ⟨m, hm, h1, h2, h3⟩ := LinkDecl_rel self.exported_headers_ self.globvars_vs_regex_
    (decide (cl.version_script ≠ "") || decide (self.so_file_ ≠ "")) _ _ h
    acc1.global_vars acc2.global_vars self.globvar_decl_set_ self.globvars_regex_matched_set
  refine ⟨?_, m, hm, h1, h2⟩
  simp only [LinkGlobalVars]
  rw [h3]

theorem LinkDump_rel (cl : CommandLine) (self : HeaderAbiLinker)
    (tu1 tu2 acc1 acc2 : TranslationUnit) (h : SimilarTU self.exported_headers_ tu1 tu2) :
    (LinkDump cl (self, acc1) tu1).1 = (LinkDump cl (self, acc2) tu2).1 ∧
    (∀ c, SelectedAlike (tu1.types c) (tu2.types c) (acc1.types c)
      ((LinkDump cl (self, acc1) tu1).2.types c) (acc2.types c)
      ((LinkDump cl (self, acc2) tu2).2.types c)) ∧
    SelectedAlike tu1.functions tu2.functions acc1.functions
      (LinkDump cl (self, acc1) tu1).2.functions acc2.functions
      (LinkDump cl (self, acc2) tu2).2.functions ∧
    SelectedAlike tu1.global_vars tu2.global_vars acc1.global_vars
      (LinkDump cl (self, acc1) tu1).2.global_vars acc2.global_vars
      (LinkDump cl (self, acc2) tu2).2.global_vars := by
  obtain ⟨t1, t2⟩ := LinkTypes_rel self tu1 tu2 acc1 acc2 h.1
  have hH : (LinkTypes self tu1 acc1).1.exported_headers_ = self.exported_headers_ := by
    simp [LinkTypes]
  obtain ⟨f1, f2⟩ := LinkFunctions_rel (LinkTypes self tu1 acc1).1 tu1 tu2
    (LinkTypes self tu1 acc1).2 (LinkTypes self tu2 acc2).2 (by rw [hH]; exact h.2.1)
  have hH2 : (LinkFunctions (LinkTypes self tu1 acc1).1 tu1
      (LinkTypes self tu1 acc1).2).1.exported_headers_ = self.exported_headers_ := by
    simp [LinkTypes, LinkFunctions]
  obtain ⟨g1, g2⟩ := LinkGlobalVars_rel cl
    (LinkFunctions (LinkTypes self tu1 acc1).1 tu1 (LinkTypes self tu1 acc1).2).1 tu1 tu2
    (LinkFunctions (LinkTypes self tu1 acc1).1 tu1 (LinkTypes self tu1 acc1).2).2
    (LinkFunctions (LinkTypes self tu2 acc2).1 tu2 (LinkTypes self tu2 acc2).2).2
    (by rw [hH2]; exact h.2.2)
  rw [t1] at f1 f2 g1 g2
  rw [f1] at g1 g2
  refine ⟨?_, ?_, ?_, ?_⟩
  · simp only [LinkDump]
    rw [t1, f1] at *
    exact g1
  · intro c
    have := t2 c
    simpa [LinkDump, LinkFunctions, LinkGlobalVars, TranslationUnit.types] using this
  · simpa [LinkDump, LinkGlobalVars] using f2
  · simpa [LinkDump] using g2

theorem foldl_LinkDump_rel (cl : CommandLine) (H : StrSet) (tus1 tus2 : List TranslationUnit)
    (h : List.Forall₂ (SimilarTU H) tus1 tus2) :
    ∀ (self : HeaderAbiLinker) (acc1 acc2 : TranslationUnit), self.exported_headers_ = H →
      (tus1.foldl (LinkDump cl) (self, acc1)).1 = (tus2.foldl (LinkDump cl) (self, acc2)).1 ∧
      (∀ c, SelectedAlike (tus1.flatMap (fun tu => tu.types c))
        (tus2.flatMap (fun tu => tu.types c)) (acc1.types c)
        ((tus1.foldl (LinkDump cl) (self, acc1)).2.types c) (acc2.types c)
        ((tus2.foldl (LinkDump cl) (self, acc2)).2.types c)) ∧
      SelectedAlike (tus1.flatMap (fun tu => tu.functions))
        (tus2.flatMap (fun tu => tu.functions)) acc1.functions
        (tus1.foldl (LinkDump cl) (self, acc1)).2.functions acc2.functions
        (tus2.foldl (LinkDump cl) (self, acc2)).2.functions ∧
      SelectedAlike (tus1.flatMap (fun tu => tu.global_vars))
        (tus2.flatMap (fun tu => tu.global_vars)) acc1.global_vars
        (tus1.foldl (LinkDump cl) (self, acc1)).2.global_vars acc2.global_vars
        (tus2.foldl (LinkDump cl) (self, acc2)).2.global_vars := by
  induction h with
  | nil =>
    intro self acc1 acc2 _
    exact ⟨rfl, fun c => SelectedAlike.nil _ _, SelectedAlike.nil _ _, SelectedAlike.nil _ _⟩
  | @cons tu1 tu2 l1 l2 hsim _ ih =>
    intro self acc1 acc2 hH
    subst hH
    obtain ⟨d1, d2, d3, d4⟩ := LinkDump_rel cl self tu1 tu2 acc1 acc2 hsim
    have hH' := (LinkDump_frame cl (self, acc1) tu1).1
    simp only [List.foldl_cons, List.flatMap_cons]
    have e1 : LinkDump cl (self, acc1) tu1 =
        ((LinkDump cl (self, acc1) tu1).1, (LinkDump cl (self, acc1) tu1).2) := rfl
    have e2 : LinkDump cl (self, acc2) tu2 =
        ((LinkDump cl (self, acc1) tu1).1, (LinkDump cl (self, acc2) tu2).2) := by
      rw [d1]
    rw [e1, e2]
    obtain ⟨i1, i2, i3, i4⟩ := ih (LinkDump cl (self, acc1) tu1).1
      (LinkDump cl (self, acc1) tu1).2 (LinkDump cl (self, acc2) tu2).2 hH'
    refine ⟨i1, fun c => ?_, ?_, ?_⟩
    · exact SelectedAlike.trans (hsim.1 c).length_eq (d2 c) (i2 c)
    · exact SelectedAlike.trans hsim.2.1.length_eq d3 i3
    · exact SelectedAlike.trans hsim.2.2.length_eq d4 i4

theorem SimilarTU_refl (H : StrSet) (tus : List TranslationUnit) :
    List.Forall₂ (SimilarTU H) tus tus := by
  induction tus with
  | nil => exact List.Forall₂.nil
  | cons tu tus ih =>
    exact List.Forall₂.cons
      ⟨fun c => sameDecision_refl H _, sameDecision_refl H _, sameDecision_refl H _⟩ ih

theorem LinkDecl_pass {T : Type} [Linkable T] (H : StrSet) (re : Regex) (b : Bool)
    (src : List T) :
    ∀ (dst : List T) (ls ms : StrSet), ∀ e ∈ (LinkDecl H re b src dst ls ms).1,
      e ∈ dst ∨ ¬ headerRejects H e := by
  induction src with
  | nil => intro dst ls ms e he; exact Or.inl (by simpa [LinkDecl] using he)
  | cons x src ih =>
    intro dst ls ms e he
    rw [LinkDecl_cons] at he
    rcases ih _ _ _ e he with h | h
    · by_cases hx : headerRejects H x
      · have : (linkStep H re b x ls ms).1 = false := by simp [linkStep, hx]
        rw [this] at h
        exact Or.inl (by simpa using h)
      · by_cases hs : (linkStep H re b x ls ms).1 = true
        · rw [hs] at h
          simp only [if_true, List.mem_append, List.mem_singleton] at h
          rcases h with h | h
          · exact Or.inl h
          · subst h; exact Or.inr hx
        · have : (linkStep H re b x ls ms).1 = false := by simpa using hs
          rw [this] at h
          exact Or.inl (by simpa using h)
    · exact Or.inr h

theorem inSet_le (k : String) (s : StrSet) : inSet k s ≤ 1 := by
  unfold inSet; split_ifs <;> omega

theorem inSet_eq_one (k : String) (s : StrSet) : inSet k s = 1 ↔ k ∈ s := by
  unfold inSet; split_ifs with h <;> simp [h]

theorem inSet_nil (k : String) : inSet k [] = 0 := by simp [inSet]

theorem linkStep_plain_count {T : Type} [Linkable T] (H : StrSet) (re : Regex) (k : String)
    (e : T) (dst : List T) (ls ms : StrSet) :
    keyCount k (if (linkStep H re false e ls ms).1 then dst ++ [e] else dst) +
        (if k ∈ ls then 1 else 0) =
      keyCount k dst + (if k ∈ (linkStep H re false e ls ms).2.1 then 1 else 0) ∧
    (k ∈ (linkStep H re false e ls ms).2.1 ↔
      k ∈ ls ∨ (¬ headerRejects H e ∧ GetLinkageName e = k)) := by
  unfold linkStep
  by_cases hr : headerRejects H e
  · simp [hr]
  · simp only [hr, if_false, if_true, StrSet.insert_snd, StrSet.mem_insert]
    by_cases hke : GetLinkageName e = k
    · subst hke
      by_cases hl : GetLinkageName e ∈ ls
      · simp [hl]
      · simp [hl, keyCount_append, keyCount_single]
    · have hne : ¬ k = GetLinkageName e := fun h => hke h.symm
      by_cases hl : GetLinkageName e ∈ ls
      · simp [hl, hke, hne]
      · simp [hl, hke, hne, keyCount_append, keyCount_single]

theorem LinkDecl_plain_count {T : Type} [Linkable T] (H : StrSet) (re : Regex) (k : String)
    (src : List T) :
    ∀ (dst : List T) (ls ms : StrSet),
      keyCount k (LinkDecl H re false src dst ls ms).1 + inSet k ls =
        keyCount k dst + inSet k (LinkDecl H re false src dst ls ms).2.1 ∧
      (k ∈ (LinkDecl H re false src dst ls ms).2.1 ↔
        k ∈ ls ∨ ∃ e ∈ src, ¬ headerRejects H e ∧ GetLinkageName e = k) := by
  induction src with
  | nil => intro dst ls ms; simp [LinkDecl]
  | cons x src ih =>
    intro dst ls ms
    rw [LinkDecl_cons]
    obtain ⟨a1, a2⟩ := linkStep_plain_count H re k x dst ls ms
    obtain ⟨b1, b2⟩ := ih (if (linkStep H re false x ls ms).1 then dst ++ [x] else dst)
      (linkStep H re false x ls ms).2.1 (linkStep H re false x ls ms).2.2
    refine ⟨?_, ?_⟩
    · unfold inSet at b1 ⊢
      omega
    · rw [b2, a2]
      simp only [List.mem_cons, exists_eq_or_imp]
      tauto

theorem LinkTypeDecl_count (H : StrSet) (k : String) (src : List TypeDecl)
    (a : List TypeDecl × StrSet) :
    keyCount k (LinkTypeDecl H src a).1 + inSet k a.2 =
      keyCount k a.1 + inSet k (LinkTypeDecl H src a).2 ∧
    (k ∈ (LinkTypeDecl H src a).2 ↔
      k ∈ a.2 ∨ ∃ e ∈ src, ¬ headerRejects H e ∧ GetLinkageName e = k) :=
  LinkDecl_plain_count H ⟨none⟩ k src a.1 a.2 []

theorem LinkTypes_count (self : HeaderAbiLinker) (tu acc : TranslationUnit) (k : String) :
    typeKeyCount k (LinkTypes self tu acc).2 + inSet k self.types_set_ =
      typeKeyCount k acc + inSet k (LinkTypes self tu acc).1.types_set_ ∧
    (k ∈ (LinkTypes self tu acc).1.types_set_ ↔
      k ∈ self.types_set_ ∨
        ∃ c, ∃ e ∈ tu.types c, ¬ headerRejects self.exported_headers_ e ∧
          GetLinkageName e = k) := by
  have hex : (∃ c, ∃ e ∈ tu.types c, ¬ headerRejects self.exported_headers_ e ∧
      GetLinkageName e = k) ↔
      ((((((((∃ e ∈ tu.record_types, ¬ headerRejects self.exported_headers_ e ∧
          GetLinkageName e = k) ∨
        (∃ e ∈ tu.enum_types, ¬ headerRejects self.exported_headers_ e ∧
          GetLinkageName e = k)) ∨
        (∃ e ∈ tu.builtin_types, ¬ headerRejects self.exported_headers_ e ∧
          GetLinkageName e = k)) ∨
        (∃ e ∈ tu.pointer_types, ¬ headerRejects self.exported_headers_ e ∧
          GetLinkageName e = k)) ∨
        (∃ e ∈ tu.rvalue_reference_types, ¬ headerRejects self.exported_headers_ e ∧
          GetLinkageName e = k)) ∨
        (∃ e ∈ tu.lvalue_reference_types, ¬ headerRejects self.exported_headers_ e ∧
          GetLinkageName e = k)) ∨
        (∃ e ∈ tu.array_types, ¬ headerRejects self.exported_headers_ e ∧
          GetLinkageName e = k)) ∨
        (∃ e ∈ tu.qualified_types, ¬ headerRejects self.exported_headers_ e ∧
          GetLinkageName e = k)) := by
    constructor
    · rintro ⟨c, h⟩
      cases c <;> simp only [TranslationUnit.types] at h <;> simp only [h, true_or, or_true]
    · rintro (((((((h | h) | h) | h) | h) | h) | h) | h)
      · exact ⟨.record, h⟩
      · exact ⟨.enum, h⟩
      · exact ⟨.builtin, h⟩
      · exact ⟨.pointer, h⟩
      · exact ⟨.rvalue_reference, h⟩
      · exact ⟨.lvalue_reference, h⟩
      · exact ⟨.array, h⟩
      · exact ⟨.qualified, h⟩
  rw [hex]
  simp only [LinkTypes, typeKeyCount]
  have e1 := LinkTypeDecl_count self.exported_headers_ k tu.record_types
    (acc.record_types, self.types_set_)
  generalize LinkTypeDecl self.exported_headers_ tu.record_types
    (acc.record_types, self.types_set_) = s1 at e1 ⊢
  have e2 := LinkTypeDecl_count self.exported_headers_ k tu.enum_types (acc.enum_types, s1.2)
  generalize LinkTypeDecl self.exported_headers_ tu.enum_types (acc.enum_types, s1.2) = s2
    at e2 ⊢
  have e3 := LinkTypeDecl_count self.exported_headers_ k tu.builtin_types
    (acc.builtin_types, s2.2)
  generalize LinkTypeDecl self.exported_headers_ tu.builtin_types (acc.builtin_types, s2.2) = s3
    at e3 ⊢
  have e4 := LinkTypeDecl_count self.exported_headers_ k tu.pointer_types
    (acc.pointer_types, s3.2)
  generalize LinkTypeDecl self.exported_headers_ tu.pointer_types (acc.pointer_types, s3.2) = s4
    at e4 ⊢
  have e5 := LinkTypeDecl_count self.exported_headers_ k tu.rvalue_reference_types
    (acc.rvalue_reference_types, s4.2)
  generalize LinkTypeDecl self.exported_headers_ tu.rvalue_reference_types
    (acc.rvalue_reference_types, s4.2) = s5 at e5 ⊢
  have e6 := LinkTypeDecl_count self.exported_headers_ k tu.lvalue_reference_types
    (acc.lvalue_reference_types, s5.2)
  generalize LinkTypeDecl self.exported_headers_ tu.lvalue_reference_types
    (acc.lvalue_reference_types, s5.2) = s6 at e6 ⊢
  have e7 := LinkTypeDecl_count self.exported_headers_ k tu.array_types (acc.array_types, s6.2)
  generalize LinkTypeDecl self.exported_headers_ tu.array_types (acc.array_types, s6.2) = s7
    at e7 ⊢
  have e8 := LinkTypeDecl_count self.exported_headers_ k tu.qualified_types
    (acc.qualified_types, s7.2)
  generalize LinkTypeDecl self.exported_headers_ tu.qualified_types
    (acc.qualified_types, s7.2) = s8 at e8 ⊢
  obtain ⟨c1, m1⟩ := e1
  obtain ⟨c2, m2⟩ := e2
  obtain ⟨c3, m3⟩ := e3
  obtain ⟨c4, m4⟩ := e4
  obtain ⟨c5, m5⟩ := e5
  obtain ⟨c6, m6⟩ := e6
  obtain ⟨c7, m7⟩ := e7
  obtain ⟨c8, m8⟩ := e8
  simp only [] at c1 c2 c3 c4 c5 c6 c7 c8 m1 m2 m3 m4 m5 m6 m7 m8
  refine ⟨by omega, ?_⟩
  rw [m8, m7, m6, m5, m4, m3, m2, m1]
  simp only [or_assoc]

theorem LinkDump_types (cl : CommandLine) (s : HeaderAbiLinker × TranslationUnit)
    (tu : TranslationUnit) :
    (LinkDump cl s tu).1.types_set_ = (LinkTypes s.1 tu s.2).1.types_set_ ∧
    typeKeyCount k (LinkDump cl s tu).2 = typeKeyCount k (LinkTypes s.1 tu s.2).2 ∧
    ∀ c, (LinkDump cl s tu).2.types c = (LinkTypes s.1 tu s.2).2.types c := by
  refine ⟨by simp [LinkDump, LinkFunctions, LinkGlobalVars],
    by simp [LinkDump, LinkFunctions, LinkGlobalVars, typeKeyCount], fun c => ?_⟩
  cases c <;> simp [LinkDump, LinkFunctions, LinkGlobalVars, TranslationUnit.types]

theorem foldl_LinkDump_count (cl : CommandLine) (k : String) (tus : List TranslationUnit) :
    ∀ s : HeaderAbiLinker × TranslationUnit,
      typeKeyCount k (tus.foldl (LinkDump cl) s).2 + inSet k s.1.types_set_ =
        typeKeyCount k s.2 + inSet k (tus.foldl (LinkDump cl) s).1.types_set_ ∧
      (k ∈ (tus.foldl (LinkDump cl) s).1.types_set_ ↔
        k ∈ s.1.types_set_ ∨
          ∃ tu ∈ tus, ∃ c, ∃ e ∈ tu.types c, ¬ headerRejects s.1.exported_headers_ e ∧
            GetLinkageName e = k) := by
  induction tus with
  | nil => intro s; simp
  | cons tu tus ih =>
    intro s
    obtain ⟨a1, a2⟩ := LinkTypes_count s.1 tu s.2 k
    obtain ⟨t1, t2, _⟩ := LinkDump_types (k := k) cl s tu
    obtain ⟨b1, b2⟩ := ih (LinkDump cl s tu)
    have hH := (LinkDump_frame cl s tu).1
    simp only [List.foldl_cons]
    rw [t1, t2] at b1
    rw [t1, hH] at b2
    refine ⟨by omega, ?_⟩
    rw [b2, a2]
    simp only [List.mem_cons, exists_eq_or_imp]
    exact or_assoc

theorem LinkTypes_congr (self1 self2 : HeaderAbiLinker) (tu acc1 acc2 : TranslationUnit)
    (hH : self1.exported_headers_ = self2.exported_headers_)
    (hs : self1.types_set_ = self2.types_set_) (hacc : ∀ c, acc1.types c = acc2.types c) :
    (LinkTypes self1 tu acc1).1.types_set_ = (LinkTypes self2 tu acc2).1.types_set_ ∧
    ∀ c, (LinkTypes self1 tu acc1).2.types c = (LinkTypes self2 tu acc2).2.types c := by
  have h1 := hacc .record
  have h2 := hacc .enum
  have h3 := hacc .builtin
  have h4 := hacc .pointer
  have h5 := hacc .rvalue_reference
  have h6 := hacc .lvalue_reference
  have h7 := hacc .array
  have h8 := hacc .qualified
  simp only [TranslationUnit.types] at h1 h2 h3 h4 h5 h6 h7 h8
  refine ⟨?_, fun c => ?_⟩
  · simp only [LinkTypes, hH, hs, h1, h2, h3, h4, h5, h6, h7, h8]
  · cases c <;>
      simp only [LinkTypes, TranslationUnit.types, hH, hs, h1, h2, h3, h4, h5, h6, h7, h8]

theorem foldl_LinkDump_types_congr (cl1 cl2 : CommandLine) (tus : List TranslationUnit) :
    ∀ s1 s2 : HeaderAbiLinker × TranslationUnit,
      s1.1.exported_headers_ = s2.1.exported_headers_ →
      s1.1.types_set_ = s2.1.types_set_ → (∀ c, s1.2.types c = s2.2.types c) →
      ∀ c, (tus.foldl (LinkDump cl1) s1).2.types c = (tus.foldl (LinkDump cl2) s2).2.types c := by
  induction tus with
  | nil => intro s1 s2 _ _ h c; simpa using h c
  | cons tu tus ih =>
    intro s1 s2 hH hs hacc c
    simp only [List.foldl_cons]
    obtain ⟨a1, a2⟩ := LinkTypes_congr s1.1 s2.1 tu s1.2 s2.2 hH hs hacc
    obtain ⟨t1, _, t3⟩ := LinkDump_types (k := "") cl1 s1 tu
    obtain ⟨u1, _, u3⟩ := LinkDump_types (k := "") cl2 s2 tu
    refine ih _ _ ?_ ?_ ?_ c
    · rw [(LinkDump_frame cl1 s1 tu).1, (LinkDump_frame cl2 s2 tu).1, hH]
    · rw [t1, u1, a1]
    · intro c'; rw [t3, u3, a2]

theorem LinkTypes_pass (self : HeaderAbiLinker) (tu acc : TranslationUnit) :
    ∀ c, ∀ e ∈ (LinkTypes self tu acc).2.types c,
      e ∈ acc.types c ∨ ¬ headerRejects self.exported_headers_ e := by
  intro c
  cases c <;>
    (simp only [LinkTypes, TranslationUnit.types, LinkTypeDecl]
     exact fun e he => LinkDecl_pass _ _ _ _ _ _ _ e he)

theorem LinkDump_pass (cl : CommandLine) (s : HeaderAbiLinker × TranslationUnit)
    (tu : TranslationUnit) (h : AllPass s.1.exported_headers_ s.2) :
    AllPass s.1.exported_headers_ (LinkDump cl s tu).2 := by
  obtain ⟨h1, h2, h3⟩ := h
  refine ⟨fun c e he => ?_, fun e he => ?_, fun e he => ?_⟩
  · rw [(LinkDump_types (k := "") cl s tu).2.2 c] at he
    rcases LinkTypes_pass s.1 tu s.2 c e he with h | h
    · exact h1 c e h
    · exact h
  · have he' : e ∈ (LinkDecl s.1.exported_headers_ s.1.functions_vs_regex_
        (decide (s.1.version_script_ ≠ "") || decide (s.1.so_file_ ≠ "")) tu.functions
        s.2.functions s.1.function_decl_set_ s.1.functions_regex_matched_set).1 := by
      simpa [LinkDump, LinkTypes, LinkFunctions, LinkGlobalVars] using he
    rcases LinkDecl_pass _ _ _ _ _ _ _ e he' with h | h
    · exact h2 e h
    · exact h
  · have he' : e ∈ (LinkDecl s.1.exported_headers_ s.1.globvars_vs_regex_
        (decide (cl.version_script ≠ "") || decide (s.1.so_file_ ≠ "")) tu.global_vars
        s.2.global_vars s.1.globvar_decl_set_ s.1.globvars_regex_matched_set).1 := by
      simpa [LinkDump, LinkTypes, LinkFunctions, LinkGlobalVars] using he
    rcases LinkDecl_pass _ _ _ _ _ _ _ e he' with h | h
    · exact h3 e h
    · exact h

theorem foldl_LinkDump_pass (cl : CommandLine) (tus : List TranslationUnit) :
    ∀ s : HeaderAbiLinker × TranslationUnit, AllPass s.1.exported_headers_ s.2 →
      AllPass s.1.exported_headers_ (tus.foldl (LinkDump cl) s).2 := by
  induction tus with
  | nil => intro s h; exact h
  | cons tu tus ih =>
    intro s h
    have h' := LinkDump_pass cl s tu h
    rw [← (LinkDump_frame cl s tu).1] at h' ⊢
    exact ih _ h'

theorem LinkDumps_eq_ok (cl : CommandLine) (l : List (Option TranslationUnit)) :
    ∀ (s r : HeaderAbiLinker × TranslationUnit), LinkDumps cl l s = .ok r →
      ∃ tus : List TranslationUnit, l = tus.map some ∧ r = tus.foldl (LinkDump cl) s := by
  induction l with
  | nil =>
    intro s r h
    refine ⟨[], rfl, ?_⟩
    simp only [LinkDumps, Except.ok.injEq] at h
    simpa using h.symm
  | cons o l ih =>
    intro s r h
    cases o with
    | none => simp [LinkDumps] at h
    | some tu =>
      simp only [LinkDumps] at h
      obtain ⟨tus, h1, h2⟩ := ih _ _ h
      exact ⟨tu :: tus, by simp [h1], by simpa using h2⟩

theorem LinkDump_gvState (cl : CommandLine) (s : HeaderAbiLinker × TranslationUnit)
    (tu : TranslationUnit) :
    gvState (LinkDump cl s tu) =
      LinkDecl s.1.exported_headers_ s.1.globvars_vs_regex_ (gvMode cl s.1) tu.global_vars
        (gvState s).1 (gvState s).2.1 (gvState s).2.2 := by
  simp [LinkDump, LinkTypes, LinkFunctions, LinkGlobalVars, gvState, gvMode]

theorem foldl_LinkDump_gvState (cl : CommandLine) (tus : List TranslationUnit) :
    ∀ s : HeaderAbiLinker × TranslationUnit,
    gvState (tus.foldl (LinkDump cl) s) =
      LinkDecl s.1.exported_headers_ s.1.globvars_vs_regex_ (gvMode cl s.1)
        (tus.flatMap (fun tu => tu.global_vars)) (gvState s).1 (gvState s).2.1
        (gvState s).2.2 := by
  induction tus with
  | nil => intro s; simp [LinkDecl, gvState]
  | cons tu tus ih =>
    intro s
    have h := LinkDump_frame cl s tu
    simp only [List.foldl_cons, List.flatMap_cons]
    rw [ih, LinkDecl_append, LinkDump_gvState]
    simp only [gvMode, h.1, h.2.1, h.2.2.1, h.2.2.2.1, h.2.2.2.2.1]

theorem sameDecision_of_key {T : Type} [Linkable T] (xs ys : List T)
    (h : List.Forall₂ (fun a b => GetLinkageName a = GetLinkageName b) xs ys) :
    List.Forall₂ (sameDecision ([] : StrSet)) xs ys := by
  induction h with
  | nil => exact List.Forall₂.nil
  | cons hab _ ih =>
    refine List.Forall₂.cons ⟨hab, ?_⟩ ih
    simp [headerRejects]

theorem forall2_of_map_eq {α β : Type} (f : α → β) (xs ys : List α)
    (h : xs.map f = ys.map f) : List.Forall₂ (fun a b => f a = f b) xs ys := by
  induction xs generalizing ys with
  | nil =>
    cases ys with
    | nil => exact List.Forall₂.nil
    | cons y ys => simp at h
  | cons x xs ih =>
    cases ys with
    | nil => simp at h
    | cons y ys =>
      simp only [List.map_cons, List.cons.injEq] at h
      exact List.Forall₂.cons h.1 (ih ys h.2)

theorem sameDecision_of_erase_types (xs ys : List TypeDecl)
    (h : xs.map TypeDecl.eraseSourceFile = ys.map TypeDecl.eraseSourceFile) :
    List.Forall₂ (sameDecision ([] : StrSet)) xs ys := by
  refine sameDecision_of_key xs ys ((forall2_of_map_eq _ xs ys h).imp ?_)
  intro a b hab
  have := congrArg (fun e : TypeDecl => e.type_info.linker_set_key) hab
  simpa [TypeDecl.eraseSourceFile] using this

theorem sameDecision_of_erase_functions (xs ys : List FunctionDecl)
    (h : xs.map FunctionDecl.eraseSourceFile = ys.map FunctionDecl.eraseSourceFile) :
    List.Forall₂ (sameDecision ([] : StrSet)) xs ys := by
  refine sameDecision_of_key xs ys ((forall2_of_map_eq _ xs ys h).imp ?_)
  intro a b hab
  have := congrArg (fun e : FunctionDecl => e.linker_set_key) hab
  simpa [FunctionDecl.eraseSourceFile] using this

theorem sameDecision_of_erase_global_vars (xs ys : List GlobalVarDecl)
    (h : xs.map GlobalVarDecl.eraseSourceFile = ys.map GlobalVarDecl.eraseSourceFile) :
    List.Forall₂ (sameDecision ([] : StrSet)) xs ys := by
  refine sameDecision_of_key xs ys ((forall2_of_map_eq _ xs ys h).imp ?_)
  intro a b hab
  have := congrArg (fun e : GlobalVarDecl => e.linker_set_key) hab
  simpa [GlobalVarDecl.eraseSourceFile] using this

theorem SimilarTU_of_erase (tu1 tu2 : TranslationUnit)
    (h : tu1.eraseSourceFiles = tu2.eraseSourceFiles) : SimilarTU [] tu1 tu2 := by
  simp only [TranslationUnit.eraseSourceFiles, TranslationUnit.mk.injEq] at h
  obtain ⟨h1, h2, h3, h4, h5, h6, h7, h8, h9, h10, _, _⟩ := h
  refine ⟨fun c => ?_, sameDecision_of_erase_functions _ _ h9,
    sameDecision_of_erase_global_vars _ _ h10⟩
  cases c
  · exact sameDecision_of_erase_types _ _ h1
  · exact sameDecision_of_erase_types _ _ h2
  · exact sameDecision_of_erase_types _ _ h3
  · exact sameDecision_of_erase_types _ _ h4
  · exact sameDecision_of_erase_types _ _ h5
  · exact sameDecision_of_erase_types _ _ h6
  · exact sameDecision_of_erase_types _ _ h7
  · exact sameDecision_of_erase_types _ _ h8

theorem SimilarTU_of_erase_list (tus1 tus2 : List TranslationUnit)
    (h : tus1.map TranslationUnit.eraseSourceFiles = tus2.map TranslationUnit.eraseSourceFiles) :
    List.Forall₂ (SimilarTU []) tus1 tus2 :=
  (forall2_of_map_eq _ tus1 tus2 h).imp SimilarTU_of_erase

theorem SamePositions_of_SelectedAlike {α β : Type} {xs : List α} {ys : List β}
    {r1 : List α} {r2 : List β} (h : SelectedAlike xs ys [] r1 [] r2) :
    SamePositions xs ys r1 r2 := by
  obtain ⟨m, hm, h1, h2⟩ := h
  exact ⟨m, hm, by simpa using h1, by simpa using h2⟩

theorem LinkAndDump_ok (ext : Collaborators) (cl : CommandLine) (self : HeaderAbiLinker)
    (out : TranslationUnit) (hrun : LinkAndDump ext cl self = .ok out) :
    ∃ (resolved : HeaderAbiLinker) (tus : List TranslationUnit),
      ResolveVisibility ext cl self = .ok resolved ∧
      resolved.dump_files_.map ext.ParseDump = tus.map some ∧
      out = (tus.foldl (LinkDump cl)
        (resolved, AddElfSymbols resolved TranslationUnit.empty)).2 ∧
      ext.Print out = true := by
  unfold LinkAndDump at hrun
  cases hres : ResolveVisibility ext cl self with
  | error e => rw [hres] at hrun; simp at hrun
  | ok resolved =>
    rw [hres] at hrun
    simp only at hrun
    cases hl : LinkDumps cl (resolved.dump_files_.map ext.ParseDump)
        (resolved, AddElfSymbols resolved TranslationUnit.empty) with
    | error e => rw [hl] at hrun; simp at hrun
    | ok s =>
      rw [hl] at hrun
      simp only at hrun
      by_cases hp : ext.Print s.2 = false
      · rw [if_pos hp] at hrun
        exact Except.noConfusion hrun
      · rw [if_neg hp] at hrun
        have hout : s.2 = out := by injection hrun
        obtain ⟨tus, h1, h2⟩ := LinkDumps_eq_ok cl _ _ _ hl
        refine ⟨resolved, tus, rfl, h1, ?_, ?_⟩
        · rw [← hout, h2]
        · rw [← hout]; simpa using hp

theorem ResolveVisibility_shared_object (ext : Collaborators) (cl : CommandLine)
    (self resolved : HeaderAbiLinker) (hmode : cl.use_version_script = false)
    (hres : ResolveVisibility ext cl self = .ok resolved) :
    resolved.exported_headers_ = ext.CollectAllExportedHeaders self.exported_header_dirs_ := by
  simp only [ResolveVisibility, hmode, if_true, ParseSoFile] at hres
  cases hso : ext.SoFileParser self.so_file_ with
  | none => rw [hso] at hres; simp at hres
  | some p =>
    rw [hso] at hres
    simp only [Except.ok.injEq] at hres
    rw [← hres]

theorem AllPass_fresh (H : StrSet) (self : HeaderAbiLinker) :
    AllPass H (AddElfSymbols self TranslationUnit.empty) :=
  ⟨fun c e he => by
      cases c <;> simp [AddElfSymbols, TranslationUnit.empty, TranslationUnit.types] at he,
    fun e he => by simp [AddElfSymbols, TranslationUnit.empty] at he,
    fun e he => by simp [AddElfSymbols, TranslationUnit.empty] at he⟩

theorem FindAndReplace_data_cons_star (p : List Char) :
    (FindAndReplace ⟨'*' :: p⟩ '*' ".*").data =
      '.' :: '*' :: (FindAndReplace ⟨p⟩ '*' ".*").data := by
  simp [FindAndReplace]

theorem FindAndReplace_data_cons (c : Char) (p : List Char) (hc : c ≠ '*') :
    (FindAndReplace ⟨c :: p⟩ '*' ".*").data = c :: (FindAndReplace ⟨p⟩ '*' ".*").data := by
  simp [FindAndReplace, hc]

theorem FindAndReplace_data_nil : (FindAndReplace ⟨[]⟩ '*' ".*").data = [] := by
  simp [FindAndReplace]

theorem parseRegex_literal (c : Char) (cs : List Char) (f : Frame) (stack : List Frame)
    (hc : isLiteral c = true) :
    parseRegex (c :: cs) ⟨false, f, stack⟩ =
      parseRegex cs ⟨false, f.push (.char c) true, stack⟩ := by
  simp only [isLiteral, Bool.not_eq_true', Bool.or_eq_false_iff, decide_eq_false_iff_not] at hc
  obtain ⟨⟨⟨⟨⟨⟨h1, h2⟩, h3⟩, h4⟩, h5⟩, h6⟩, h7⟩ := hc
  rw [parseRegex]
  simp [Reader.read, h1, h2, h3, h4, h5, h6, h7]

theorem parseRegex_dot_star (cs : List Char) (f : Frame) (stack : List Frame) :
    parseRegex ('.' :: '*' :: cs) ⟨false, f, stack⟩ =
      parseRegex cs ⟨false, ⟨f.alts, .star .any :: f.terms, false⟩, stack⟩ := by
  rw [parseRegex]
  simp only [Reader.read, Char.reduceEq, if_false, if_true, Bool.false_eq_true]
  rw [parseRegex]
  simp [Reader.read, Frame.push]

theorem parseRegex_pattern (p : List Char) (hp : ∀ c ∈ p, c = '*' ∨ isLiteral c = true) :
    ∀ (rest : List Char) (f : Frame) (stack : List Frame),
      parseRegex ((FindAndReplace ⟨p⟩ '*' ".*").data ++ rest) ⟨false, f, stack⟩ =
        parseRegex rest ⟨false, readPattern p f, stack⟩ := by
  induction p with
  | nil => intro rest f stack; rfl
  | cons c p ih =>
    intro rest f stack
    have hp' : ∀ c ∈ p, c = '*' ∨ isLiteral c = true :=
      fun d hd => hp d (List.mem_cons_of_mem _ hd)
    by_cases hc : c = '*'
    · subst hc
      rw [FindAndReplace_data_cons_star, List.cons_append, List.cons_append,
        parseRegex_dot_star, ih hp']
      simp [readPattern]
    · have hl : isLiteral c = true := (hp c (List.mem_cons_self _ _)).resolve_left hc
      rw [FindAndReplace_data_cons c p hc, List.cons_append, parseRegex_literal c _ f stack hl,
        ih hp']
      simp [readPattern, hc]

theorem readPattern_spec (p : List Char) :
    ∀ f : Frame, (readPattern p f).alts = f.alts ∧
      (readPattern p f).terms = (patTerms p).reverse ++ f.terms := by
  induction p with
  | nil => intro f; simp [readPattern, patTerms]
  | cons c p ih =>
    intro f
    by_cases hc : c = '*'
    · subst hc
      obtain ⟨h1, h2⟩ := ih ⟨f.alts, .star .any :: f.terms, false⟩
      simp only [readPattern, if_true]
      exact ⟨h1, by rw [h2]; simp [patTerms]⟩
    · obtain ⟨h1, h2⟩ := ih (f.push (.char c) true)
      simp only [readPattern, hc, if_false]
      exact ⟨h1, by rw [h2]; simp [patTerms, Frame.push, hc]⟩

theorem parseRegex_wrapped (p : String) (hp : plainPattern p) (rest : List Char) (f : Frame)
    (stack : List Frame) :
    parseRegex (wrapped p ++ rest) ⟨false, f, stack⟩ =
      parseRegex rest ⟨false, f.push (patGroup p.data) true, stack⟩ := by
  have h1 : parseRegex (wrapped p ++ rest) ⟨false, f, stack⟩ =
      parseRegex ((FindAndReplace ⟨p.data⟩ '*' ".*").data ++ ('\\' :: 'b' :: ')' :: rest))
        ⟨false, ⟨[], [.wordBoundary], false⟩, f :: stack⟩ := by
    simp only [wrapped, List.cons_append, List.nil_append, List.append_assoc]
    rw [parseRegex]
    simp only [Reader.read, Bool.false_eq_true, if_false, if_true, List.head?_cons]
    simp only [Option.some.injEq, Char.reduceEq, if_false]
    rw [parseRegex]
    simp only [Reader.read, Bool.false_eq_true, if_false, Char.reduceEq, if_true]
    rw [parseRegex]
    simp only [Reader.read, if_true, Frame.push]
  rw [h1, parseRegex_pattern p.data hp]
  obtain ⟨ha, ht⟩ := readPattern_spec p.data ⟨[], [.wordBoundary], false⟩
  rw [parseRegex]
  simp only [Reader.read, Bool.false_eq_true, if_false, Char.reduceEq, if_true]
  rw [parseRegex]
  simp only [Reader.read, if_true]
  rw [parseRegex]
  simp only [Reader.read, Bool.false_eq_true, if_false, Char.reduceEq, if_true]
  simp only [Frame.push, Frame.close, ha, ht, patGroup, disjunction, List.reverse_cons,
    List.reverse_append, List.reverse_reverse, List.reverse_nil, List.nil_append,
    List.singleton_append, List.cons_append]

theorem loop_data (patterns : List String) :
    ∀ acc : String,
      (CreateRegexMatchExprFromSet.loop patterns acc).data = acc.data ++ joined patterns := by
  induction patterns with
  | nil => intro acc; simp [CreateRegexMatchExprFromSet.loop, joined]
  | cons p rest ih =>
    intro acc
    cases rest with
    | nil =>
      simp only [CreateRegexMatchExprFromSet.loop, ne_eq, not_true_eq_false, if_false, joined,
        String.data_append, wrapped]
      rfl
    | cons q rest =>
      simp only [CreateRegexMatchExprFromSet.loop, ne_eq, reduceCtorEq, not_false_eq_true,
        if_true] at ih ⊢
      rw [ih]
      simp only [String.data_append, joined, wrapped, List.append_assoc]
      rfl

theorem parseRegex_joined (rest : List String) :
    ∀ (p : String) (alts : List RegexNode), (∀ q ∈ p :: rest, plainPattern q) →
      parseRegex (joined (p :: rest)) ⟨false, ⟨alts, [], false⟩, []⟩ =
        some (disjunction (alts.reverse ++
          (p :: rest).map (fun p => seqOfList [patGroup p.data]))) := by
  induction rest with
  | nil =>
    intro p alts hp
    have h := parseRegex_wrapped p (hp p (List.mem_cons_self _ _)) [] ⟨alts, [], false⟩ []
    rw [List.append_nil] at h
    simp only [joined, h]
    rw [parseRegex]
    simp [Frame.push, Frame.close]
  | cons q rest ih =>
    intro p alts hp
    have h := parseRegex_wrapped p (hp p (List.mem_cons_self _ _)) ('|' :: joined (q :: rest))
      ⟨alts, [], false⟩ []
    simp only [joined]
    rw [h, parseRegex]
    simp only [Reader.read, Bool.false_eq_true, if_false, Char.reduceEq, if_true, Frame.push,
      List.reverse_cons, List.reverse_nil, List.nil_append]
    rw [ih q _ (fun x hx => hp x (List.mem_cons_of_mem _ hx))]
    simp

theorem CreateRegexMatchExprFromSet_plain (patterns : StrSet)
    (hp : ∀ p ∈ patterns, plainPattern p) :
    CreateRegexMatchExprFromSet patterns =
      some ⟨if patterns = [] then none else some (patternsNode patterns)⟩ := by
  cases patterns with
  | nil => simp [CreateRegexMatchExprFromSet, CreateRegexMatchExprFromSet.loop]
  | cons p rest =>
    have hd := loop_data (p :: rest) ""
    have hne : CreateRegexMatchExprFromSet.loop (p :: rest) "" ≠ "" := by
      intro h
      rw [h] at hd
      cases rest <;> simp [joined, wrapped] at hd
    simp only [CreateRegexMatchExprFromSet, hne, if_false, Regex.ofString, hd]
    rw [List.nil_append, parseRegex_joined rest p [] hp]
    simp [patternsNode]

theorem starClosure_nil (step : Cfg → List Cfg) (n : Nat) : starClosure step n [] = [] := by
  induction n with
  | zero => rfl
  | succ n ih => simp [starClosure, ih]

theorem lastOr_append (prev : Option Char) (u v : List Char) :
    lastOr prev (u ++ v) = lastOr (lastOr prev u) v := by
  induction u generalizing prev with
  | nil => rfl
  | cons c u ih => simp [lastOr, ih]

theorem any_run_nil (prev : Option Char) : RegexNode.any.run (prev, []) = [] := by
  simp [RegexNode.run]

theorem any_run_cons (prev : Option Char) (d : Char) (t : List Char)
    (hd : isLineTerminator d = false) : RegexNode.any.run (prev, d :: t) = [(some d, t)] := by
  simp [RegexNode.run, hd]

theorem star_run (r : RegexNode) (c : Cfg) :
    (RegexNode.star r).run c = starClosure r.run (c.2.length + 1) [c] := by
  rw [RegexNode.run]

theorem starClosure_any_mem (n : Nat) :
    ∀ (prev : Option Char) (rest : List Char) (q : Option Char) (mid : List Char),
      (∀ c ∈ rest, isLineTerminator c = false) →
      ((q, mid) ∈ starClosure RegexNode.any.run n [(prev, rest)] ↔
        ∃ u, rest = u ++ mid ∧ u.length ≤ n ∧ q = lastOr prev u) := by
  induction n with
  | zero =>
    intro prev rest q mid _
    simp only [starClosure, List.mem_singleton, Prod.mk.injEq, Nat.le_zero_eq,
      List.length_eq_zero]
    constructor
    · rintro ⟨rfl, rfl⟩
      exact ⟨[], rfl, rfl, rfl⟩
    · rintro ⟨u, h1, rfl, h3⟩
      exact ⟨h3, h1.symm⟩
  | succ n ih =>
    intro prev rest q mid hlt
    cases rest with
    | nil =>
      simp only [starClosure, List.flatMap_cons, List.flatMap_nil, List.append_nil,
        any_run_nil, starClosure_nil, List.mem_singleton, Prod.mk.injEq]
      constructor
      · rintro ⟨rfl, rfl⟩
        exact ⟨[], rfl, by simp, rfl⟩
      · rintro ⟨u, h1, _, h3⟩
        have hu : u = [] := (List.append_eq_nil.1 h1.symm).1
        have hm : mid = [] := (List.append_eq_nil.1 h1.symm).2
        subst hu
        exact ⟨h3, hm⟩
    | cons d t =>
      have hd : isLineTerminator d = false := hlt d (List.mem_cons_self _ _)
      have ht : ∀ c ∈ t, isLineTerminator c = false :=
        fun c hc => hlt c (List.mem_cons_of_mem _ hc)
      simp only [starClosure, List.flatMap_cons, List.flatMap_nil, List.append_nil,
        any_run_cons prev d t hd, List.singleton_append, List.mem_cons, Prod.mk.injEq]
      rw [ih (some d) t q mid ht]
      constructor
      · rintro (⟨rfl, rfl⟩ | ⟨u, h1, h2, h3⟩)
        · exact ⟨[], rfl, by simp, rfl⟩
        · exact ⟨d :: u, by simp [h1], by simpa using h2, by simpa [lastOr] using h3⟩
      · rintro ⟨u, h1, h2, h3⟩
        cases u with
        | nil => exact Or.inl ⟨h3, by simpa using h1.symm⟩
        | cons x u =>
          simp only [List.cons_append, List.cons.injEq] at h1
          obtain ⟨rfl, h1⟩ := h1
          exact Or.inr ⟨u, h1, by simpa using h2, by simpa [lastOr] using h3⟩

theorem star_any_mem (prev : Option Char) (rest : List Char) (q : Option Char)
    (mid : List Char) (hlt : ∀ c ∈ rest, isLineTerminator c = false) :
    ((q, mid) ∈ (RegexNode.star RegexNode.any).run (prev, rest) ↔
      ∃ u, rest = u ++ mid ∧ q = lastOr prev u) := by
  rw [star_run, starClosure_any_mem _ prev rest q mid hlt]
  constructor
  · rintro ⟨u, h1, _, h3⟩
    exact ⟨u, h1, h3⟩
  · rintro ⟨u, h1, h3⟩
    refine ⟨u, h1, ?_, h3⟩
    rw [h1, List.length_append]
    omega

theorem globMatch_star (p u : List Char) :
    globMatch ('*' :: p) u = true ↔ ∃ u1 u2, u = u1 ++ u2 ∧ globMatch p u2 = true := by
  simp only [globMatch, if_true, List.any_eq_true, List.mem_tails]
  constructor
  · rintro ⟨t, ⟨u1, rfl⟩, h⟩
    exact ⟨u1, t, rfl, h⟩
  · rintro ⟨u1, u2, rfl, h⟩
    exact ⟨u2, ⟨u1, rfl⟩, h⟩

theorem globMatch_literal (c : Char) (hc : c ≠ '*') (p u : List Char) :
    globMatch (c :: p) u = true ↔ ∃ u', u = c :: u' ∧ globMatch p u' = true := by
  cases u with
  | nil => simp [globMatch, hc]
  | cons d u =>
    simp only [globMatch, hc, if_false, Bool.and_eq_true, decide_eq_true_eq, List.cons.injEq]
    constructor
    · rintro ⟨rfl, h⟩
      exact ⟨u, ⟨rfl, rfl⟩, h⟩
    · rintro ⟨u', ⟨rfl, rfl⟩, h⟩
      exact ⟨rfl, h⟩

theorem patTerms_run (p : List Char) (ts : List RegexNode) :
    ∀ (prev : Option Char) (rest : List Char) (r : Cfg),
      (∀ c ∈ rest, isLineTerminator c = false) →
      (r ∈ (seqOfList (patTerms p ++ ts)).run (prev, rest) ↔
        ∃ u mid, rest = u ++ mid ∧ globMatch p u = true ∧
          r ∈ (seqOfList ts).run (lastOr prev u, mid)) := by
  induction p with
  | nil =>
    intro prev rest r _
    simp only [patTerms, List.map_nil, List.nil_append, globMatch, List.isEmpty_iff]
    constructor
    · intro h
      exact ⟨[], rest, rfl, rfl, h⟩
    · rintro ⟨u, mid, h1, rfl, h3⟩
      simpa [h1, lastOr] using h3
  | cons c p ih =>
    intro prev rest r hlt
    by_cases hc : c = '*'
    · subst hc
      have e : patTerms ('*' :: p) ++ ts = RegexNode.star RegexNode.any :: (patTerms p ++ ts) := by
        simp [patTerms]
      rw [e]
      simp only [seqOfList]
      rw [RegexNode.run, List.mem_flatMap]
      constructor
      · rintro ⟨⟨q, mid1⟩, h1, h2⟩
        obtain ⟨u1, hu1, hq⟩ := (star_any_mem prev rest q mid1 hlt).1 h1
        have hlt' : ∀ c ∈ mid1, isLineTerminator c = false :=
          fun c hc => hlt c (by rw [hu1]; exact List.mem_append_right _ hc)
        obtain ⟨u2, mid, hm, hg, hr⟩ := (ih q mid1 r hlt').1 h2
        refine ⟨u1 ++ u2, mid, by rw [hu1, hm, List.append_assoc],
          (globMatch_star p _).2 ⟨u1, u2, rfl, hg⟩, ?_⟩
        rw [lastOr_append, ← hq]
        exact hr
      · rintro ⟨u, mid, hu, hg, hr⟩
        obtain ⟨u1, u2, rfl, hg2⟩ := (globMatch_star p u).1 hg
        refine ⟨(lastOr prev u1, u2 ++ mid), ?_, ?_⟩
        · exact (star_any_mem prev rest _ _ hlt).2 ⟨u1, by rw [hu, List.append_assoc], rfl⟩
        · have hlt' : ∀ c ∈ u2 ++ mid, isLineTerminator c = false :=
            fun c hc => hlt c (by
              rw [hu, List.append_assoc]; exact List.mem_append_right _ hc)
          refine (ih (lastOr prev u1) (u2 ++ mid) r hlt').2 ⟨u2, mid, rfl, hg2, ?_⟩
          rw [← lastOr_append]
          exact hr
    · have e : patTerms (c :: p) ++ ts = RegexNode.char c :: (patTerms p ++ ts) := by
        simp [patTerms, hc]
      rw [e]
      simp only [seqOfList]
      rw [RegexNode.run, List.mem_flatMap]
      constructor
      · rintro ⟨⟨q, mid1⟩, h1, h2⟩
        cases rest with
        | nil => simp [RegexNode.run] at h1
        | cons d t =>
          by_cases hd : d = c
          · subst hd
            simp only [RegexNode.run, if_true, List.mem_singleton, Prod.mk.injEq] at h1
            obtain ⟨rfl, rfl⟩ := h1
            have hlt' : ∀ c ∈ mid1, isLineTerminator c = false :=
              fun c hc => hlt c (List.mem_cons_of_mem _ hc)
            obtain ⟨u2, mid, hm, hg, hr⟩ := (ih (some d) mid1 r hlt').1 h2
            exact ⟨d :: u2, mid, by rw [hm]; rfl,
              (globMatch_literal d hc p _).2 ⟨u2, rfl, hg⟩, by simpa [lastOr] using hr⟩
          · simp [RegexNode.run, hd] at h1
      · rintro ⟨u, mid, hu, hg, hr⟩
        obtain ⟨u', rfl, hg'⟩ := (globMatch_literal c hc p u).1 hg
        subst hu
        refine ⟨(some c, u' ++ mid), by simp [RegexNode.run], ?_⟩
        have hlt' : ∀ d ∈ u' ++ mid, isLineTerminator d = false :=
          fun d hd => hlt d (List.mem_cons_of_mem _ hd)
        exact (ih (some c) (u' ++ mid) r hlt').2 ⟨u', mid, rfl, hg', by simpa [lastOr] using hr⟩

theorem wordBoundary_run (c : Cfg) :
    RegexNode.wordBoundary.run c = if atWordBoundary c = true then [c] else [] := by
  rw [RegexNode.run]

theorem seqOfList_single_run (t : RegexNode) (c r : Cfg) :
    r ∈ (seqOfList [t]).run c ↔ r ∈ t.run c := by
  simp only [seqOfList]
  rw [RegexNode.run, List.mem_flatMap]
  constructor
  · rintro ⟨x, hx, hr⟩
    rw [RegexNode.run, List.mem_singleton] at hr
    rw [hr]; exact hx
  · intro h
    exact ⟨r, h, by rw [RegexNode.run]; exact List.mem_singleton_self r⟩

theorem patGroup_run (p : List Char) (prev : Option Char) (rest : List Char) (r : Cfg)
    (hlt : ∀ c ∈ rest, isLineTerminator c = false) :
    r ∈ (seqOfList [patGroup p]).run (prev, rest) ↔
      atWordBoundary (prev, rest) = true ∧
        ∃ u mid, rest = u ++ mid ∧ globMatch p u = true ∧
          atWordBoundary (lastOr prev u, mid) = true ∧ r = (lastOr prev u, mid) := by
  rw [seqOfList_single_run]
  simp only [patGroup]
  rw [RegexNode.run]
  simp only [seqOfList]
  rw [RegexNode.run, List.mem_flatMap]
  have hseq : ∀ x, RegexNode.seq RegexNode.wordBoundary RegexNode.empty = seqOfList [x] →
      True := fun _ _ => trivial
  constructor
  · rintro ⟨x, hx, hr⟩
    rw [wordBoundary_run] at hx
    by_cases hb : atWordBoundary (prev, rest) = true
    · rw [if_pos hb, List.mem_singleton] at hx
      subst hx
      obtain ⟨u, mid, h1, h2, h3⟩ := (patTerms_run p [.wordBoundary] prev rest r hlt).1 hr
      rw [seqOfList_single_run, wordBoundary_run] at h3
      by_cases hb2 : atWordBoundary (lastOr prev u, mid) = true
      · rw [if_pos hb2, List.mem_singleton] at h3
        exact ⟨hb, u, mid, h1, h2, hb2, h3⟩
      · rw [if_neg hb2] at h3
        exact absurd h3 (List.not_mem_nil _)
    · rw [if_neg hb] at hx
      exact absurd hx (List.not_mem_nil _)
  · rintro ⟨hb, u, mid, h1, h2, hb2, h3⟩
    refine ⟨(prev, rest), by rw [wordBoundary_run, if_pos hb]; exact List.mem_singleton_self _,
      ?_⟩
    refine (patTerms_run p [.wordBoundary] prev rest r hlt).2 ⟨u, mid, h1, h2, ?_⟩
    rw [seqOfList_single_run, wordBoundary_run, if_pos hb2, h3]
    exact List.mem_singleton_self _

theorem disjunction_run (l : List RegexNode) (hl : l ≠ []) (c r : Cfg) :
    r ∈ (disjunction l).run c ↔ ∃ n ∈ l, r ∈ n.run c := by
  induction l with
  | nil => exact absurd rfl hl
  | cons a l ih =>
    cases l with
    | nil => simp [disjunction]
    | cons b l =>
      simp only [disjunction]
      rw [RegexNode.run, List.mem_append, ih (by simp)]
      simp only [List.mem_cons, exists_eq_or_imp]

theorem searchFrom_iff (r : RegexNode) (rest : List Char) :
    ∀ prev : Option Char, searchFrom r prev rest = true ↔
      ∃ a b, rest = a ++ b ∧ r.run (lastOr prev a, b) ≠ [] := by
  induction rest with
  | nil =>
    intro prev
    simp only [searchFrom, Bool.not_eq_true', List.isEmpty_eq_false]
    constructor
    · intro h
      exact ⟨[], [], rfl, h⟩
    · rintro ⟨a, b, h1, h2⟩
      have ha : a = [] := (List.append_eq_nil.1 h1.symm).1
      have hb : b = [] := (List.append_eq_nil.1 h1.symm).2
      subst ha; subst hb
      exact h2
  | cons c t ih =>
    intro prev
    simp only [searchFrom, Bool.or_eq_true, Bool.not_eq_true', List.isEmpty_eq_false]
    rw [ih (some c)]
    constructor
    · rintro (h | ⟨a, b, h1, h2⟩)
      · exact ⟨[], c :: t, rfl, h⟩
      · exact ⟨c :: a, b, by rw [h1]; rfl, h2⟩
    · rintro ⟨a, b, h1, h2⟩
      cases a with
      | nil =>
        simp only [List.nil_append] at h1
        subst h1
        exact Or.inl h2
      | cons x a =>
        simp only [List.cons_append, List.cons.injEq] at h1
        obtain ⟨rfl, h1⟩ := h1
        exact Or.inr ⟨a, b, h1, h2⟩

theorem isWordChar_not_lineTerminator (c : Char) (h : isWordChar c = true) :
    isLineTerminator c = false := by
  by_contra hlt
  simp only [isLineTerminator, Bool.or_eq_false_iff, decide_eq_false_iff_not, not_and_or,
    not_not] at hlt
  rcases hlt with rfl | rfl
  · exact absurd h (by decide)
  · exact absurd h (by decide)

theorem isWordAt_lastOr (a : List Char) :
    ∀ prev : Option Char, a ≠ [] → (∀ c ∈ a, isWordChar c = true) →
      isWordAt (lastOr prev a) = true := by
  induction a with
  | nil => intro prev h; exact absurd rfl h
  | cons c a ih =>
    intro prev _ hw
    cases a with
    | nil => simpa [lastOr, isWordAt] using hw c (List.mem_cons_self _ _)
    | cons d a =>
      simp only [lastOr]
      exact ih (some c) (by simp) (fun x hx => hw x (List.mem_cons_of_mem _ hx))

theorem globMatch_of_nil (p s : List Char) (hp : p ≠ []) (h : globMatch p [] = true) :
    globMatch p s = true := by
  cases p with
  | nil => exact absurd rfl hp
  | cons c p =>
    by_cases hc : c = '*'
    · subst hc
      obtain ⟨u1, u2, hu, hg⟩ := (globMatch_star p []).1 h
      have h2 : u2 = [] := (List.append_eq_nil.1 hu.symm).2
      subst h2
      exact (globMatch_star p s).2 ⟨s, [], by simp, hg⟩
    · obtain ⟨u', hu, _⟩ := (globMatch_literal c hc p []).1 h
      exact absurd hu (by simp)

theorem atWordBoundary_cons (q : Option Char) (x : Char) (t : List Char) :
    atWordBoundary (q, x :: t) = (isWordAt q != isWordChar x) := rfl

theorem atWordBoundary_nil (q : Option Char) :
    atWordBoundary (q, []) = (isWordAt q != false) := rfl

theorem bounded_match_iff (p s : List Char) (hp : p ≠ []) (hs : s ≠ [])
    (hw : ∀ c ∈ s, isWordChar c = true) :
    (∃ a b, s = a ++ b ∧ atWordBoundary (lastOr none a, b) = true ∧
      ∃ u mid, b = u ++ mid ∧ globMatch p u = true ∧
        atWordBoundary (lastOr (lastOr none a) u, mid) = true) ↔
    globMatch p s = true := by
  constructor
  · rintro ⟨a, b, hab, hb1, u, mid, hum, hg, hb2⟩
    cases u with
    | nil => exact globMatch_of_nil p s hp hg
    | cons x u =>
      have hxs : x ∈ s := by rw [hab, hum]; simp
      have ha : a = [] := by
        by_contra hne
        have h1 := isWordAt_lastOr a none hne
          (fun c hc => hw c (by rw [hab]; exact List.mem_append_left _ hc))
        rw [hum, List.cons_append, atWordBoundary_cons, h1, hw x hxs] at hb1
        exact absurd hb1 (by decide)
      have hm : mid = [] := by
        cases mid with
        | nil => rfl
        | cons y mid =>
          have hys : y ∈ s := by rw [hab, hum]; simp
          have h1 := isWordAt_lastOr (x :: u) (lastOr none a) (by simp)
            (fun c hc => hw c (by
              rw [hab, hum]
              exact List.mem_append_right _ (List.mem_append_left _ hc)))
          rw [atWordBoundary_cons, h1, hw y hys] at hb2
          exact absurd hb2 (by decide)
      subst ha; subst hm
      rw [hab, hum]
      simpa using hg
  · intro hg
    cases s with
    | nil => exact absurd rfl hs
    | cons x s =>
      refine ⟨[], x :: s, rfl, ?_, x :: s, [], by simp, hg, ?_⟩
      · rw [atWordBoundary_cons, hw x (List.mem_cons_self _ _)]
        rfl
      · have h1 := isWordAt_lastOr (x :: s) (lastOr none []) (by simp) hw
        rw [atWordBoundary_nil, h1]
        rfl

theorem patternsNode_search (patterns : StrSet) (symbol : List Char) (hne : patterns ≠ [])
    (hp : ∀ p ∈ patterns, p.data ≠ []) (hs : symbol ≠ [])
    (hw : ∀ c ∈ symbol, isWordChar c = true) :
    searchFrom (patternsNode patterns) none symbol = true ↔
      ∃ p ∈ patterns, globMatch p.data symbol = true := by
  rw [searchFrom_iff]
  have hmap : patterns.map (fun p => seqOfList [patGroup p.data]) ≠ [] := by
    simpa using hne
  constructor
  · rintro ⟨a, b, hab, hrun⟩
    obtain ⟨r, hr⟩ := List.exists_mem_of_ne_nil _ hrun
    rw [patternsNode, disjunction_run _ hmap] at hr
    obtain ⟨n, hn, hr⟩ := hr
    obtain ⟨p, hpm, rfl⟩ := List.mem_map.1 hn
    have hlt : ∀ c ∈ b, isLineTerminator c = false := fun c hc =>
      isWordChar_not_lineTerminator c (hw c (by rw [hab]; exact List.mem_append_right _ hc))
    obtain ⟨hb1, u, mid, hum, hg, hb2, _⟩ := (patGroup_run p.data _ b r hlt).1 hr
    exact ⟨p, hpm, (bounded_match_iff p.data symbol (hp p hpm) hs hw).1
      ⟨a, b, hab, hb1, u, mid, hum, hg, hb2⟩⟩
  · rintro ⟨p, hpm, hg⟩
    obtain ⟨a, b, hab, hb1, u, mid, hum, hg', hb2⟩ :=
      (bounded_match_iff p.data symbol (hp p hpm) hs hw).2 hg
    have hlt : ∀ c ∈ b, isLineTerminator c = false := fun c hc =>
      isWordChar_not_lineTerminator c (hw c (by rw [hab]; exact List.mem_append_right _ hc))
    refine ⟨a, b, hab, List.ne_nil_of_mem (a := (lastOr (lastOr none a) u, mid)) ?_⟩
    rw [patternsNode, disjunction_run _ hmap]
    refine ⟨_, List.mem_map.2 ⟨p, hpm, rfl⟩, ?_⟩
    exact (patGroup_run p.data _ b _ hlt).2 ⟨hb1, u, mid, hum, hg', hb2, rfl⟩

theorem linkStep_rejected {T : Type} [Linkable T] (H : StrSet) (re : Regex) (b : Bool) (e : T)
    (ls ms : StrSet) (h : headerRejects H e) : linkStep H re b e ls ms = (false, ls, ms) := by
  simp [linkStep, h]

theorem LinkDecl_rejected {T : Type} [Linkable T] (H : StrSet) (re : Regex) (b : Bool) (e : T)
    (pre post dst : List T) (ls ms : StrSet) (h : headerRejects H e) :
    LinkDecl H re b (pre ++ e :: post) dst ls ms = LinkDecl H re b (pre ++ post) dst ls ms := by
  rw [LinkDecl_append, LinkDecl_append, LinkDecl_cons, linkStep_rejected H re b e _ _ h]
  simp

theorem headerPasses_iff {T : Type} [Linkable T] (H : StrSet) (e : T) :
    headerPasses H e = true ↔ ¬ headerRejects H e := by
  simp only [headerPasses, headerRejects, decide_eq_true_eq]
  tauto

theorem QueryRegexMatches_spec (ms : StrSet) (re : Regex) (k : String) :
    (QueryRegexMatches ms re k).1 = (decide (k ∉ ms) && regex_search k re) ∧
    ∀ x, x ∈ (QueryRegexMatches ms re k).2 ↔
      x ∈ ms ∨ (x = k ∧ k ∉ ms ∧ regex_search k re = true) := by
  unfold QueryRegexMatches
  by_cases hm : k ∈ ms
  · simp [hm]
  · by_cases hre : regex_search k re = true
    · simp [hm, hre, StrSet.mem_insert]
      intro x; tauto
    · simp [hm, hre]

theorem linkStep_symbol_balance {T : Type} [Linkable T] (H : StrSet) (re : Regex) (k : String)
    (e : T) (dst : List T) (ls ms : StrSet) :
    keyCount k (if (linkStep H re true e ls ms).1 then dst ++ [e] else dst) +
        inSet k (linkStep H re true e ls ms).2.1 + inSet k ms =
      keyCount k dst + inSet k ls + inSet k (linkStep H re true e ls ms).2.2 ∧
    (k ∈ (linkStep H re true e ls ms).2.1 → k ∈ ls) ∧
    (k ∈ ms → k ∈ (linkStep H re true e ls ms).2.2) ∧
    (k ∈ (linkStep H re true e ls ms).2.2 → k ∈ ms ∨ k ∉ ls) := by
  unfold linkStep
  by_cases hr : headerRejects H e
  · simp only [hr, if_true, Bool.false_eq_true, if_false]
    exact ⟨trivial, id, id, Or.inl⟩
  · simp only [hr, if_false, Bool.true_eq_false]
    obtain ⟨q1, q2⟩ := QueryRegexMatches_spec ms re (GetLinkageName e)
    by_cases hl : GetLinkageName e ∈ ls
    · simp only [hl, not_true_eq_false, if_false, if_true]
      refine ⟨?_, fun h => ((StrSet.mem_erase _ _ _).1 h).1, id, Or.inl⟩
      by_cases hke : GetLinkageName e = k
      · subst hke
        have h1 : inSet (GetLinkageName e) (StrSet.erase ls (GetLinkageName e)) = 0 := by
          simp [inSet, StrSet.mem_erase]
        have h2 : inSet (GetLinkageName e) ls = 1 := (inSet_eq_one _ _).2 hl
        rw [h1, h2, keyCount_append, keyCount_single, if_pos rfl]
      · have hne : ¬ k = GetLinkageName e := fun h => hke h.symm
        have h1 : inSet k (StrSet.erase ls (GetLinkageName e)) = inSet k ls := by
          simp [inSet, StrSet.mem_erase, hne]
        rw [h1, keyCount_append, keyCount_single, if_neg hke]
        omega
    · simp only [hl, not_false_eq_true, if_true]
      refine ⟨?_, id, fun h => (q2 k).2 (Or.inl h), fun h => ?_⟩
      · by_cases hacc : (QueryRegexMatches ms re (GetLinkageName e)).1 = true
        · rw [hacc]
          rw [q1] at hacc
          simp only [Bool.and_eq_true, decide_eq_true_eq] at hacc
          by_cases hke : GetLinkageName e = k
          · subst hke
            have h1 : inSet (GetLinkageName e) ms = 0 := by simp [inSet, hacc.1]
            have h2 : inSet (GetLinkageName e)
                (QueryRegexMatches ms re (GetLinkageName e)).2 = 1 :=
              (inSet_eq_one _ _).2 ((q2 _).2 (Or.inr ⟨rfl, hacc.1, hacc.2⟩))
            rw [h1, h2, if_pos rfl, keyCount_append, keyCount_single, if_pos rfl]
            omega
          · have hne : ¬ k = GetLinkageName e := fun h => hke h.symm
            have h1 : inSet k (QueryRegexMatches ms re (GetLinkageName e)).2 = inSet k ms := by
              unfold inSet
              simp only [q2 k, hne, false_and, or_false]
            rw [h1, if_pos rfl, keyCount_append, keyCount_single, if_neg hke]
            omega
        · have hacc' : (QueryRegexMatches ms re (GetLinkageName e)).1 = false := by
            simpa using hacc
          have h1 : inSet k (QueryRegexMatches ms re (GetLinkageName e)).2 = inSet k ms := by
            unfold inSet
            rw [q1] at hacc'
            have : ¬ (GetLinkageName e ∉ ms ∧ regex_search (GetLinkageName e) re = true) := by
              intro h
              simp [h.1, h.2] at hacc'
            have hiff : k ∈ (QueryRegexMatches ms re (GetLinkageName e)).2 ↔ k ∈ ms := by
              rw [q2 k]
              constructor
              · rintro (h | ⟨_, h2, h3⟩)
                · exact h
                · exact absurd ⟨h2, h3⟩ this
              · exact Or.inl
            simp only [hiff]
          rw [h1, hacc']
          simp
      · rcases (q2 k).1 h with h | ⟨rfl, _, _⟩
        · exact Or.inl h
        · exact Or.inr hl

theorem LinkDecl_symbol_balance {T : Type} [Linkable T] (H : StrSet) (re : Regex) (k : String)
    (src : List T) :
    ∀ (dst : List T) (ls ms : StrSet),
      keyCount k (LinkDecl H re true src dst ls ms).1 +
          inSet k (LinkDecl H re true src dst ls ms).2.1 + inSet k ms =
        keyCount k dst + inSet k ls + inSet k (LinkDecl H re true src dst ls ms).2.2 ∧
      (k ∈ (LinkDecl H re true src dst ls ms).2.1 → k ∈ ls) ∧
      (k ∈ ms → k ∈ (LinkDecl H re true src dst ls ms).2.2) ∧
      (k ∈ (LinkDecl H re true src dst ls ms).2.2 →
        k ∈ ms ∨ k ∉ (LinkDecl H re true src dst ls ms).2.1) := by
  induction src with
  | nil =>
    intro dst ls ms
    simp only [LinkDecl]
    exact ⟨trivial, id, id, Or.inl⟩
  | cons e src ih =>
    intro dst ls ms
    rw [LinkDecl_cons]
    obtain ⟨a1, a2, a3, a4⟩ := linkStep_symbol_balance H re k e dst ls ms
    obtain ⟨b1, b2, b3, b4⟩ := ih (if (linkStep H re true e ls ms).1 then dst ++ [e] else dst)
      (linkStep H re true e ls ms).2.1 (linkStep H re true e ls ms).2.2
    refine ⟨by omega, fun h => a2 (b2 h), fun h => b3 (a3 h), fun h => ?_⟩
    rcases b4 h with h' | h'
    · rcases a4 h' with h'' | h''
      · exact Or.inl h''
      · exact Or.inr (fun hc => h'' (a2 (b2 hc)))
    · exact Or.inr h'

theorem LinkDecl_symbol_twice {T : Type} [Linkable T] (H : StrSet) (re : Regex)
    (src : List T) (ls : StrSet) :
    (∀ k, k ∈ (LinkDecl H re true src [] ls []).2.1 → k ∈ ls) ∧
    (∀ k, k ∈ (LinkDecl H re true src [] ls []).2.2 →
      k ∉ (LinkDecl H re true src [] ls []).2.1) ∧
    (∀ k, keyCount k (LinkDecl H re true src [] ls []).1 ≤ 2) := by
  refine ⟨fun k => (LinkDecl_symbol_balance H re k src [] ls []).2.1, fun k hk => ?_,
    fun k => ?_⟩
  · rcases (LinkDecl_symbol_balance H re k src [] ls []).2.2.2 hk with h | h
    · exact absurd h (List.not_mem_nil _)
    · exact h
  · have h := (LinkDecl_symbol_balance H re k src [] ls []).1
    have h0 : keyCount k ([] : List T) = 0 := by simp [keyCount]
    have h1 := inSet_le k ls
    have h2 := inSet_le k (LinkDecl H re true src [] ls []).2.2
    rw [h0, inSet_nil] at h
    omega

theorem ResolveVisibility_paths (ext : Collaborators) (cl : CommandLine)
    (self resolved : HeaderAbiLinker) (h : ResolveVisibility ext cl self = .ok resolved) :
    resolved.version_script_ = self.version_script_ ∧ resolved.so_file_ = self.so_file_ ∧
    resolved.dump_files_ = self.dump_files_ ∧
    resolved.types_set_ = self.types_set_ ∧
    resolved.functions_regex_matched_set = self.functions_regex_matched_set ∧
    resolved.globvars_regex_matched_set = self.globvars_regex_matched_set := by
  unfold ResolveVisibility at h
  by_cases hm : cl.use_version_script = false
  · rw [if_pos hm] at h
    unfold ParseSoFile at h
    cases hso : ext.SoFileParser self.so_file_ with
    | none => simp [hso] at h
    | some p =>
      simp only [hso, Except.ok.injEq] at h
      subst h
      exact ⟨rfl, rfl, rfl, rfl, rfl, rfl⟩
  · rw [if_neg hm] at h
    unfold ParseVersionScriptFiles at h
    cases hvs : ext.VersionScriptParser self.version_script_ self.arch_ self.api_ with
    | none => simp [hvs] at h
    | some p =>
      obtain ⟨fs, gs, fr, gr⟩ := p
      simp only [hvs] at h
      cases hf : CreateRegexMatchExprFromSet fr with
      | none => simp [hf] at h
      | some fre =>
        cases hg : CreateRegexMatchExprFromSet gr with
        | none => simp [hf, hg] at h
        | some gre =>
          simp only [hf, hg, Except.ok.injEq] at h
          subst h
          exact ⟨rfl, rfl, rfl, rfl, rfl, rfl⟩

theorem LinkDumps_parse_failure (cl : CommandLine) (pre : List TranslationUnit)
    (rest : List (Option TranslationUnit)) :
    ∀ s, LinkDumps cl (pre.map some ++ none :: rest) s = .error .linkElements := by
  induction pre with
  | nil => intro s; rfl
  | cons tu pre ih =>
    intro s
    exact ih (LinkDump cl s tu)

theorem LinkAndDump_of_stages (ext : Collaborators) (cl : CommandLine)
    (self resolved : HeaderAbiLinker) (tus : List TranslationUnit)
    (hres : ResolveVisibility ext cl self = .ok resolved)
    (hparse : resolved.dump_files_.map ext.ParseDump = tus.map some)
    (hprint : ext.Print (tus.foldl (LinkDump cl)
      (resolved, AddElfSymbols resolved TranslationUnit.empty)).2 = true) :
    LinkAndDump ext cl self = .ok (tus.foldl (LinkDump cl)
      (resolved, AddElfSymbols resolved TranslationUnit.empty)).2 := by
  unfold LinkAndDump
  rw [hres]
  simp only [hparse, LinkDumps_ok, hprint, Bool.true_eq_false, if_false]

theorem firstOccurrences_congr {T : Type} [Linkable T] (xs : List T) :
    ∀ s1 s2 : List String, (∀ k, k ∈ s1 ↔ k ∈ s2) →
      firstOccurrences s1 xs = firstOccurrences s2 xs := by
  induction xs with
  | nil => intro s1 s2 _; rfl
  | cons e xs ih =>
    intro s1 s2 h
    simp only [firstOccurrences]
    by_cases h1 : GetLinkageName e ∈ s1
    · rw [if_pos h1, if_pos ((h _).1 h1)]
      exact ih s1 s2 h
    · rw [if_neg h1, if_neg (fun h2 => h1 ((h _).2 h2))]
      rw [ih (GetLinkageName e :: s1) (GetLinkageName e :: s2)
        (fun k => by simp only [List.mem_cons, h k])]

theorem firstOccurrences_mem {T : Type} [Linkable T] (xs : List T) :
    ∀ (seen : List String) (e : T), e ∈ firstOccurrences seen xs → e ∈ xs := by
  induction xs with
  | nil => intro seen e h; simp [firstOccurrences] at h
  | cons x xs ih =>
    intro seen e h
    simp only [firstOccurrences] at h
    by_cases h1 : GetLinkageName x ∈ seen
    · rw [if_pos h1] at h
      exact List.mem_cons_of_mem _ (ih _ _ h)
    · rw [if_neg h1] at h
      rcases List.mem_cons.1 h with h | h
      · rw [h]; exact List.mem_cons_self _ _
      · exact List.mem_cons_of_mem _ (ih _ _ h)

theorem LinkDecl_plain_first {T : Type} [Linkable T] (H : StrSet) (re : Regex)
    (xs : List T) :
    ∀ (dst : List T) (ls ms : StrSet) (seen : List String), (∀ k, k ∈ ls ↔ k ∈ seen) →
      (LinkDecl H re false xs dst ls ms).1 =
        dst ++ firstOccurrences seen (xs.filter (fun e => headerPasses H e)) := by
  induction xs with
  | nil => intro dst ls ms seen _; simp [LinkDecl, firstOccurrences]
  | cons e xs ih =>
    intro dst ls ms seen h
    rw [LinkDecl_cons]
    by_cases hr : headerRejects H e
    · have hp : headerPasses H e = false := by
        rw [← Bool.not_eq_true, headerPasses_iff]; exact fun hn => hn hr
      rw [linkStep_rejected H re false e ls ms hr, List.filter_cons_of_neg (by simp [hp])]
      exact ih dst ls ms seen h
    · have hp : headerPasses H e = true := (headerPasses_iff H e).2 hr
      rw [List.filter_cons_of_pos (by simp [hp])]
      simp only [linkStep, hr, if_false, if_true, StrSet.insert_snd, firstOccurrences]
      by_cases hl : GetLinkageName e ∈ ls
      · rw [if_pos ((h _).1 hl)]
        simp only [hl, not_true_eq_false, decide_False, Bool.false_eq_true, if_false]
        refine ih dst _ ms seen (fun k => ?_)
        rw [StrSet.mem_insert, ← h k]
        constructor
        · rintro (rfl | hk)
          · exact hl
          · exact hk
        · exact Or.inr
      · rw [if_neg (fun h2 => hl ((h _).2 h2))]
        simp only [hl, not_false_eq_true, decide_True, if_true]
        rw [ih (dst ++ [e]) _ ms (GetLinkageName e :: seen) (fun k => by
          rw [StrSet.mem_insert, List.mem_cons, h k])]
        simp

theorem LinkDecl_exact_first {T : Type} [Linkable T] (H : StrSet) (re : Regex)
    (hre : ∀ k, regex_search k re = false) (E : StrSet) (xs : List T) :
    ∀ (dst : List T) (ls ms : StrSet) (seen : List String),
      (∀ k, k ∈ ls ↔ k ∈ E ∧ k ∉ seen) →
      (LinkDecl H re true xs dst ls ms).1 =
        dst ++ firstOccurrences seen
          (xs.filter (fun e => headerPasses H e && decide (GetLinkageName e ∈ E))) := by
  induction xs with
  | nil => intro dst ls ms seen _; simp [LinkDecl, firstOccurrences]
  | cons e xs ih =>
    intro dst ls ms seen h
    rw [LinkDecl_cons]
    have hq : QueryRegexMatches ms re (GetLinkageName e) = (false, ms) := by
      unfold QueryRegexMatches
      split_ifs with h1 h2
      · rfl
      · rw [hre] at h2; exact Bool.noConfusion h2
      · rfl
    by_cases hr : headerRejects H e
    · have hp : headerPasses H e = false := by
        rw [← Bool.not_eq_true, headerPasses_iff]; exact fun hn => hn hr
      rw [linkStep_rejected H re true e ls ms hr, List.filter_cons_of_neg (by simp [hp])]
      exact ih dst ls ms seen h
    · have hp : headerPasses H e = true := (headerPasses_iff H e).2 hr
      simp only [linkStep, hr, if_false, Bool.true_eq_false, hq]
      by_cases hE : GetLinkageName e ∈ E
      · rw [List.filter_cons_of_pos (by simp [hp, hE])]
        simp only [firstOccurrences]
        by_cases hs : GetLinkageName e ∈ seen
        · have hl : GetLinkageName e ∉ ls := fun hl => ((h _).1 hl).2 hs
          rw [if_pos hs]
          simp only [hl, not_false_eq_true, if_true, Bool.false_eq_true, if_false]
          exact ih dst ls ms seen h
        · have hl : GetLinkageName e ∈ ls := (h _).2 ⟨hE, hs⟩
          rw [if_neg hs]
          simp only [hl, not_true_eq_false, if_false, if_true]
          rw [ih (dst ++ [e]) _ ms (GetLinkageName e :: seen) (fun k => by
            rw [StrSet.mem_erase, h k, List.mem_cons]
            tauto)]
          simp
      · have hl : GetLinkageName e ∉ ls := fun hl => hE ((h _).1 hl).1
        rw [List.filter_cons_of_neg (by simp [hE])]
        simp only [hl, not_false_eq_true, if_true, Bool.false_eq_true, if_false]
        exact ih dst ls ms seen h

theorem ResolveVisibility_so (ext : Collaborators) (cl : CommandLine)
    (self resolved : HeaderAbiLinker) (hmode : cl.use_version_script = false)
    (hres : ResolveVisibility ext cl self = .ok resolved) :
    ∃ E G, ext.SoFileParser self.so_file_ = some (E, G) ∧
      resolved.function_decl_set_ = E ∧ resolved.globvar_decl_set_ = G ∧
      resolved.functions_vs_regex_ = self.functions_vs_regex_ ∧
      resolved.globvars_vs_regex_ = self.globvars_vs_regex_ ∧
      resolved.exported_headers_ =
        ext.CollectAllExportedHeaders self.exported_header_dirs_ := by
  simp only [ResolveVisibility, hmode, if_true, ParseSoFile] at hres
  cases hso : ext.SoFileParser self.so_file_ with
  | none => rw [hso] at hres; simp at hres
  | some p =>
    rw [hso] at hres
    simp only [Except.ok.injEq] at hres
    subst hres
    exact ⟨p.1, p.2, rfl, rfl, rfl, rfl, rfl, rfl⟩

theorem firstOccurrences_cons {T : Type} [Linkable T] (seen : List String) (e : T)
    (xs : List T) :
    firstOccurrences seen (e :: xs) =
      if GetLinkageName e ∈ seen then firstOccurrences seen xs
      else e :: firstOccurrences (GetLinkageName e :: seen) xs := rfl

theorem firstOccurrences_append {T : Type} [Linkable T] (a b : List T) :
    ∀ seen : List String,
      firstOccurrences seen (a ++ b) =
        firstOccurrences seen a ++ firstOccurrences (a.map GetLinkageName ++ seen) b := by
  induction a with
  | nil => intro seen; rfl
  | cons e a ih =>
    intro seen
    rw [List.cons_append, firstOccurrences_cons, firstOccurrences_cons, List.map_cons]
    by_cases h : GetLinkageName e ∈ seen
    · rw [if_pos h, if_pos h, ih seen]
      congr 1
      apply firstOccurrences_congr
      intro k
      simp only [List.mem_append, List.mem_cons, List.mem_map]
      constructor
      · rintro (h1 | h1)
        · exact Or.inl (Or.inr h1)
        · exact Or.inr h1
      · rintro ((rfl | h1) | h1)
        · exact Or.inr h
        · exact Or.inl h1
        · exact Or.inr h1
    · rw [if_neg h, if_neg h, ih (GetLinkageName e :: seen), List.cons_append]
      congr 2
      apply firstOccurrences_congr
      intro k
      simp only [List.mem_append, List.mem_cons]
      tauto

theorem firstOccurrences_tagged (c : TypeCategory) (xs : List TypeDecl) :
    ∀ seen : List String,
      firstOccurrences seen (tagged c xs) = tagged c (firstOccurrences seen xs) := by
  induction xs with
  | nil => intro seen; rfl
  | cons e xs ih =>
    intro seen
    have hk : GetLinkageName ((c, e) : TypeCategory × TypeDecl) = GetLinkageName e := rfl
    simp only [tagged, List.map_cons, firstOccurrences, hk]
    by_cases h : GetLinkageName e ∈ seen
    · rw [if_pos h, if_pos h]
      exact ih seen
    · rw [if_neg h, if_neg h, List.map_cons]
      congr 1
      exact ih _

theorem filter_tagged (H : StrSet) (c : TypeCategory) (xs : List TypeDecl) :
    (tagged c xs).filter (fun e => headerPasses H e) =
      tagged c (xs.filter (fun e => headerPasses H e)) := by
  induction xs with
  | nil => rfl
  | cons e xs ih =>
    have hk : headerPasses H ((c, e) : TypeCategory × TypeDecl) = headerPasses H e := rfl
    simp only [tagged, List.map_cons, List.filter_cons, hk] at ih ⊢
    by_cases h : headerPasses H e = true
    · rw [if_pos h, if_pos h, List.map_cons, ih]
    · rw [if_neg h, if_neg h, ih]

theorem keys_tagged (c : TypeCategory) (xs : List TypeDecl) :
    (tagged c xs).map GetLinkageName = xs.map GetLinkageName := by
  simp only [tagged, List.map_map]
  rfl

theorem ofCategory_append (c : TypeCategory) (a b : List (TypeCategory × TypeDecl)) :
    ofCategory c (a ++ b) = ofCategory c a ++ ofCategory c b := by
  simp [ofCategory]

theorem ofCategory_tagged_self (c : TypeCategory) (xs : List TypeDecl) :
    ofCategory c (tagged c xs) = xs := by
  induction xs with
  | nil => rfl
  | cons e xs ih =>
    simp only [ofCategory, tagged, List.map_cons, List.filter_cons, decide_True, if_true] at ih ⊢
    rw [ih]

theorem ofCategory_tagged_other (c c' : TypeCategory) (h : c' ≠ c) (xs : List TypeDecl) :
    ofCategory c (tagged c' xs) = [] := by
  induction xs with
  | nil => rfl
  | cons e xs ih =>
    simp only [ofCategory, tagged, List.map_cons, List.filter_cons, h, decide_False,
      Bool.false_eq_true, if_false] at ih ⊢
    exact ih

theorem LinkTypeDecl_first (H : StrSet) (xs : List TypeDecl) (a : List TypeDecl × StrSet)
    (seen : List String) (h : ∀ k, k ∈ a.2 ↔ k ∈ seen) :
    (LinkTypeDecl H xs a).1 =
      a.1 ++ firstOccurrences seen (xs.filter (fun e => headerPasses H e)) ∧
    ∀ k, k ∈ (LinkTypeDecl H xs a).2 ↔
      k ∈ (xs.filter (fun e => headerPasses H e)).map GetLinkageName ++ seen := by
  refine ⟨LinkDecl_plain_first H ⟨none⟩ xs a.1 a.2 [] seen h, fun k => ?_⟩
  have := (LinkDecl_plain_count H ⟨none⟩ k xs a.1 a.2 []).2
  simp only [LinkTypeDecl]
  rw [this, h k]
  simp only [List.mem_append, List.mem_map, List.mem_filter, headerPasses_iff]
  constructor
  · rintro (h1 | ⟨e, he, hp, hk⟩)
    · exact Or.inr h1
    · exact Or.inl ⟨e, ⟨he, hp⟩, hk⟩
  · rintro (⟨e, ⟨he, hp⟩, hk⟩ | h1)
    · exact Or.inr ⟨e, he, hp, hk⟩
    · exact Or.inl h1

theorem LinkTypes_first (self : HeaderAbiLinker) (tu acc : TranslationUnit)
    (seen : List String) (h : ∀ k, k ∈ self.types_set_ ↔ k ∈ seen) :
    (∀ c, (LinkTypes self tu acc).2.types c =
      acc.types c ++ ofCategory c (firstOccurrences seen
        ((typeStream tu).filter (fun e => headerPasses self.exported_headers_ e)))) ∧
    ∀ k, k ∈ (LinkTypes self tu acc).1.types_set_ ↔
      k ∈ ((typeStream tu).filter
        (fun e => headerPasses self.exported_headers_ e)).map GetLinkageName ++ seen := by
  simp only [typeStream, List.filter_append, filter_tagged, firstOccurrences_append,
    firstOccurrences_tagged, keys_tagged, List.map_append]
  simp only [LinkTypes]
  have e1 := LinkTypeDecl_first self.exported_headers_ tu.record_types
    (acc.record_types, self.types_set_) seen h
  generalize LinkTypeDecl self.exported_headers_ tu.record_types
    (acc.record_types, self.types_set_) = s1 at e1 ⊢
  have e2 := LinkTypeDecl_first self.exported_headers_ tu.enum_types (acc.enum_types, s1.2) _
    e1.2
  generalize LinkTypeDecl self.exported_headers_ tu.enum_types (acc.enum_types, s1.2) = s2
    at e2 ⊢
  have e3 := LinkTypeDecl_first self.exported_headers_ tu.builtin_types
    (acc.builtin_types, s2.2) _ e2.2
  generalize LinkTypeDecl self.exported_headers_ tu.builtin_types (acc.builtin_types, s2.2) = s3
    at e3 ⊢
  have e4 := LinkTypeDecl_first self.exported_headers_ tu.pointer_types
    (acc.pointer_types, s3.2) _ e3.2
  generalize LinkTypeDecl self.exported_headers_ tu.pointer_types (acc.pointer_types, s3.2) = s4
    at e4 ⊢
  have e5 := LinkTypeDecl_first self.exported_headers_ tu.rvalue_reference_types
    (acc.rvalue_reference_types, s4.2) _ e4.2
  generalize LinkTypeDecl self.exported_headers_ tu.rvalue_reference_types
    (acc.rvalue_reference_types, s4.2) = s5 at e5 ⊢
  have e6 := LinkTypeDecl_first self.exported_headers_ tu.lvalue_reference_types
    (acc.lvalue_reference_types, s5.2) _ e5.2
  generalize LinkTypeDecl self.exported_headers_ tu.lvalue_reference_types
    (acc.lvalue_reference_types, s5.2) = s6 at e6 ⊢
  have e7 := LinkTypeDecl_first self.exported_headers_ tu.array_types (acc.array_types, s6.2) _
    e6.2
  generalize LinkTypeDecl self.exported_headers_ tu.array_types (acc.array_types, s6.2) = s7
    at e7 ⊢
  have e8 := LinkTypeDecl_first self.exported_headers_ tu.qualified_types
    (acc.qualified_types, s7.2) _ e7.2
  generalize LinkTypeDecl self.exported_headers_ tu.qualified_types
    (acc.qualified_types, s7.2) = s8 at e8 ⊢
  refine ⟨fun c => ?_, fun k => ?_⟩
  · cases c <;>
      simp only [TranslationUnit.types, ofCategory_append, ofCategory_tagged_self,
        ofCategory_tagged_other, ne_eq, reduceCtorEq, not_false_eq_true, List.nil_append,
        List.append_nil, e1.1, e2.1, e3.1, e4.1, e5.1, e6.1, e7.1, e8.1]
  · rw [e8.2 k]
    simp only [List.mem_append]
    tauto

theorem foldl_LinkDump_types_first (cl : CommandLine) (tus : List TranslationUnit) :
    ∀ (s : HeaderAbiLinker × TranslationUnit) (seen : List String),
      (∀ k, k ∈ s.1.types_set_ ↔ k ∈ seen) →
      ∀ c, (tus.foldl (LinkDump cl) s).2.types c =
        s.2.types c ++ ofCategory c (firstOccurrences seen
          ((tus.flatMap typeStream).filter
            (fun e => headerPasses s.1.exported_headers_ e))) := by
  induction tus with
  | nil =>
    intro s seen _ c
    simp [firstOccurrences, ofCategory]
  | cons tu tus ih =>
    intro s seen h c
    obtain ⟨a1, a2⟩ := LinkTypes_first s.1 tu s.2 seen h
    obtain ⟨t1, _, t3⟩ := LinkDump_types (k := "") cl s tu
    have hH := (LinkDump_frame cl s tu).1
    simp only [List.foldl_cons, List.flatMap_cons, List.filter_append]
    rw [ih (LinkDump cl s tu)
      (((typeStream tu).filter
        (fun e => headerPasses s.1.exported_headers_ e)).map GetLinkageName ++ seen)
      (fun k => by rw [t1]; exact a2 k) c, t3 c, a1 c, hH,
      firstOccurrences_append, ofCategory_append, List.append_assoc]

/-! ## The claims -/

/-- C1, at the failing input: a version script exports `bar` by name and by the pattern
`b*`, two dump files declare `bar`; the run succeeds and its merged functions hold two
entities with the linkage key `bar`. -/
theorem C1_duplicate_key_in_functions :
    ∃ out, LinkAndDump overlapExt (versionScriptRun ["a.sdump", "b.sdump"] [])
        (mainLinker (versionScriptRun ["a.sdump", "b.sdump"] [])) = .ok out ∧
      out.functions = [barDecl, barDecl] ∧
      ¬ (out.functions.map GetLinkageName).Nodup :=
  ⟨_, rfl, rfl, by decide⟩

/-- C2, at the failing input: the name `bar` of the exact symbol set is the linkage key
of two retained functions when the wildcard pattern `b*` matches it too, and of one when
no pattern does. -/
theorem C2_exact_name_retained_twice :
    "bar" ∈ (resolvedLinker overlapExt
      (versionScriptRun ["a.sdump", "b.sdump"] [])).function_decl_set_ ∧
    (∃ out, LinkAndDump overlapExt (versionScriptRun ["a.sdump", "b.sdump"] [])
        (mainLinker (versionScriptRun ["a.sdump", "b.sdump"] [])) = .ok out ∧
      keyCount "bar" out.functions = 2) ∧
    (∃ out, LinkAndDump exactExt (versionScriptRun ["a.sdump", "b.sdump"] [])
        (mainLinker (versionScriptRun ["a.sdump", "b.sdump"] [])) = .ok out ∧
      keyCount "bar" out.functions = 1) :=
  ⟨by decide, ⟨_, rfl, by decide⟩, ⟨_, rfl, by decide⟩⟩

/-- C3: under symbol-matching mode, a linkage key that is not in the initial exact
function set is retained in the merged functions at most once, and only if the compiled
wildcard matcher matches it: a key that matches neither the exact set nor a pattern is
absent. -/
theorem C3_wildcard_key_retained_at_most_once (cl : CommandLine) (self : HeaderAbiLinker)
    (tus : List TranslationUnit) (k : String)
    (hmode : self.version_script_ ≠ "" ∨ self.so_file_ ≠ "")
    (hk : k ∉ self.function_decl_set_) :
    ∃ r, LinkDumps cl (tus.map some) (self, AddElfSymbols self TranslationUnit.empty) = .ok r ∧
      keyCount k r.2.functions ≤ 1 ∧
      (1 ≤ keyCount k r.2.functions → regex_search k self.functions_vs_regex_ = true) ∧
      (regex_search k self.functions_vs_regex_ = false → ∀ e ∈ r.2.functions,
        GetLinkageName e ≠ k) := by
  have hmode' : fnMode self = true := by
    simp only [fnMode, Bool.or_eq_true, decide_eq_true_eq]
    exact hmode
  have hst := foldl_LinkDump_fnState cl tus (self, AddElfSymbols self TranslationUnit.empty)
  have hfn : (tus.foldl (LinkDump cl)
      (self, AddElfSymbols self TranslationUnit.empty)).2.functions =
      (fnState (tus.foldl (LinkDump cl)
        (self, AddElfSymbols self TranslationUnit.empty))).1 := rfl
  obtain ⟨c1, c2, c3, _⟩ := LinkDecl_symbol_count self.exported_headers_
    self.functions_vs_regex_ k (tus.flatMap (fun tu => tu.functions)) []
    self.function_decl_set_ self.functions_regex_matched_set hk
  have h0 : keyCount k ([] : List FunctionDecl) = 0 := by simp [keyCount]
  rw [h0] at c1
  have key : keyCount k (tus.foldl (LinkDump cl)
      (self, AddElfSymbols self TranslationUnit.empty)).2.functions ≤ 1 ∧
      (1 ≤ keyCount k (tus.foldl (LinkDump cl)
        (self, AddElfSymbols self TranslationUnit.empty)).2.functions →
        regex_search k self.functions_vs_regex_ = true) := by
    rw [hfn, hst]
    simp only [fnState, AddElfSymbols, TranslationUnit.empty, hmode']
    constructor
    · split_ifs at c1 <;> omega
    · intro hpos
      by_cases hm : k ∈ self.functions_regex_matched_set
      · rw [if_pos hm, if_pos (c2 hm)] at c1
        omega
      · by_cases hm' : k ∈ (LinkDecl self.exported_headers_ self.functions_vs_regex_ true
            (tus.flatMap (fun tu => tu.functions)) [] self.function_decl_set_
            self.functions_regex_matched_set).2.2
        · rcases c3 hm' with h | h
          · exact absurd h hm
          · exact h
        · rw [if_neg hm, if_neg hm'] at c1
          omega
  refine ⟨_, LinkDumps_ok cl tus _, key.1, key.2, ?_⟩
  intro hno e he hek
  have hpos : 1 ≤ keyCount k (tus.foldl (LinkDump cl)
      (self, AddElfSymbols self TranslationUnit.empty)).2.functions := by
    unfold keyCount
    exact List.count_pos_iff.2 (List.mem_map.2 ⟨e, he, hek⟩)
  rw [key.2 hpos] at hno
  exact Bool.noConfusion hno

/-- C3 at the pattern `qux_*` and two dumps that each declare `qux_init` and `other`. -/
theorem C3_wildcard_key_retained_at_most_once_witness :
    ((resolvedLinker quxExt (versionScriptRun ["a.sdump", "b.sdump"] [])).version_script_ ≠ "" ∨
      (resolvedLinker quxExt (versionScriptRun ["a.sdump", "b.sdump"] [])).so_file_ ≠ "") ∧
    "qux_init" ∉
      (resolvedLinker quxExt (versionScriptRun ["a.sdump", "b.sdump"] [])).function_decl_set_ ∧
    ∃ r, LinkDumps (versionScriptRun ["a.sdump", "b.sdump"] []) ([quxDump, quxDump].map some)
        (resolvedLinker quxExt (versionScriptRun ["a.sdump", "b.sdump"] []),
         AddElfSymbols (resolvedLinker quxExt (versionScriptRun ["a.sdump", "b.sdump"] []))
           TranslationUnit.empty) = .ok r ∧
      keyCount "qux_init" r.2.functions ≤ 1 ∧
      (1 ≤ keyCount "qux_init" r.2.functions →
        regex_search "qux_init"
          (resolvedLinker quxExt
            (versionScriptRun ["a.sdump", "b.sdump"] [])).functions_vs_regex_ = true) ∧
      (regex_search "qux_init"
          (resolvedLinker quxExt
            (versionScriptRun ["a.sdump", "b.sdump"] [])).functions_vs_regex_ = false →
        ∀ e ∈ r.2.functions, GetLinkageName e ≠ "qux_init") :=
  ⟨by decide, by decide,
    C3_wildcard_key_retained_at_most_once (versionScriptRun ["a.sdump", "b.sdump"] [])
      (resolvedLinker quxExt (versionScriptRun ["a.sdump", "b.sdump"] []))
      [quxDump, quxDump] "qux_init" (by decide) (by decide)⟩

/-- The run of the example of C3: exactly one `qux_init` and no `other` in the output. -/
theorem qux_run_output :
    ∃ out, LinkAndDump quxExt (versionScriptRun ["a.sdump", "b.sdump"] [])
        (mainLinker (versionScriptRun ["a.sdump", "b.sdump"] [])) = .ok out ∧
      out.functions.map GetLinkageName = ["qux_init"] :=
  ⟨_, rfl, by decide⟩

/-- C4, at the failing input: with `bar` exported by name and by the pattern `b*`,
linking the dump that declares `bar` twice yields two functions, linking it once yields
one. -/
theorem C4_relinking_changes_output :
    ∃ once twice,
      LinkDumps (versionScriptRun ["a.sdump"] []) [some barDump]
        (resolvedLinker overlapExt (versionScriptRun ["a.sdump"] []),
         AddElfSymbols (resolvedLinker overlapExt (versionScriptRun ["a.sdump"] []))
           TranslationUnit.empty) = .ok once ∧
      LinkDumps (versionScriptRun ["a.sdump"] []) [some barDump, some barDump]
        (resolvedLinker overlapExt (versionScriptRun ["a.sdump"] []),
         AddElfSymbols (resolvedLinker overlapExt (versionScriptRun ["a.sdump"] []))
           TranslationUnit.empty) = .ok twice ∧
      once.2.functions = [barDecl] ∧ twice.2.functions = [barDecl, barDecl] ∧
      once.2 ≠ twice.2 :=
  ⟨_, _, rfl, rfl, rfl, rfl, by decide⟩

/-- C5 fails as stated: in version-script mode the headers of the export directories are
never collected, so the function `baz` and the record type `Baz` of `b.h` are retained
although the directories hold `a.h` only; and in shared-object mode directories that hold
no header switch the filter off. -/
theorem C5_counterexample :
    (∃ out, LinkAndDump bazVersionScriptExt (versionScriptRun ["a.sdump"] ["include"])
        (mainLinker (versionScriptRun ["a.sdump"] ["include"])) = .ok out ∧
      bazVersionScriptExt.CollectAllExportedHeaders ["include"] = ["a.h"] ∧
      out.functions = [⟨"baz", "b.h", "void baz()"⟩] ∧
      out.record_types = [⟨⟨"Baz", "b.h"⟩, "struct Baz"⟩]) ∧
    (∃ out, LinkAndDump bazNoHeaderExt (sharedObjectRun ["a.sdump"] ["include"])
        (mainLinker (sharedObjectRun ["a.sdump"] ["include"])) = .ok out ∧
      bazNoHeaderExt.CollectAllExportedHeaders ["include"] = [] ∧
      out.functions = [⟨"baz", "b.h", "void baz()"⟩]) :=
  ⟨⟨_, rfl, rfl, rfl, rfl⟩, ⟨_, rfl, rfl, rfl⟩⟩

/-- C5, amended: in shared-object mode, when the set of headers collected from the export
directories is not empty, every entity of the merged descriptor, of any category, has an
empty source file or one that is in that set. -/
theorem C5_header_filter_in_shared_object_mode (ext : Collaborators) (cl : CommandLine)
    (self : HeaderAbiLinker) (out : TranslationUnit)
    (hmode : cl.use_version_script = false)
    (hne : ext.CollectAllExportedHeaders self.exported_header_dirs_ ≠ [])
    (hrun : LinkAndDump ext cl self = .ok out) :
    (∀ c, ∀ e ∈ out.types c, e.type_info.source_file = "" ∨
      e.type_info.source_file ∈ ext.CollectAllExportedHeaders self.exported_header_dirs_) ∧
    (∀ e ∈ out.functions, e.source_file = "" ∨
      e.source_file ∈ ext.CollectAllExportedHeaders self.exported_header_dirs_) ∧
    (∀ e ∈ out.global_vars, e.source_file = "" ∨
      e.source_file ∈ ext.CollectAllExportedHeaders self.exported_header_dirs_) := by
  obtain ⟨resolved, tus, hres, _, hout, _⟩ := LinkAndDump_ok ext cl self out hrun
  have hH := ResolveVisibility_shared_object ext cl self resolved hmode hres
  have hpass := foldl_LinkDump_pass cl tus
    (resolved, AddElfSymbols resolved TranslationUnit.empty) (AllPass_fresh _ resolved)
  rw [← hout] at hpass
  simp only [hH] at hpass
  obtain ⟨p1, p2, p3⟩ := hpass
  refine ⟨fun c e he => ?_, fun e he => ?_, fun e he => ?_⟩
  · have := p1 c e he
    simp only [headerRejects, GetSourceFile] at this
    tauto
  · have := p2 e he
    simp only [headerRejects, GetSourceFile] at this
    tauto
  · have := p3 e he
    simp only [headerRejects, GetSourceFile] at this
    tauto

/-- C5, amended, at the run with `foo` of `a.h` and `baz` of `b.h`, where the export
directories hold `a.h` and the shared object exports `foo`. -/
theorem C5_header_filter_in_shared_object_mode_witness :
    (sharedObjectRun ["a.sdump"] ["include"]).use_version_script = false ∧
    fooExt.CollectAllExportedHeaders
      (mainLinker (sharedObjectRun ["a.sdump"] ["include"])).exported_header_dirs_ ≠ [] ∧
    LinkAndDump fooExt (sharedObjectRun ["a.sdump"] ["include"])
      (mainLinker (sharedObjectRun ["a.sdump"] ["include"])) =
      .ok { TranslationUnit.empty with
            functions := [⟨"foo", "a.h", "void foo()"⟩], elf_functions := [⟨"foo"⟩] } ∧
    ((∀ c, ∀ e ∈ ({ TranslationUnit.empty with
            functions := [⟨"foo", "a.h", "void foo()"⟩],
            elf_functions := [⟨"foo"⟩] } : TranslationUnit).types c,
        e.type_info.source_file = "" ∨ e.type_info.source_file ∈
          fooExt.CollectAllExportedHeaders
            (mainLinker (sharedObjectRun ["a.sdump"] ["include"])).exported_header_dirs_) ∧
      (∀ e ∈ ({ TranslationUnit.empty with
            functions := [⟨"foo", "a.h", "void foo()"⟩],
            elf_functions := [⟨"foo"⟩] } : TranslationUnit).functions,
        e.source_file = "" ∨ e.source_file ∈
          fooExt.CollectAllExportedHeaders
            (mainLinker (sharedObjectRun ["a.sdump"] ["include"])).exported_header_dirs_) ∧
      (∀ e ∈ ({ TranslationUnit.empty with
            functions := [⟨"foo", "a.h", "void foo()"⟩],
            elf_functions := [⟨"foo"⟩] } : TranslationUnit).global_vars,
        e.source_file = "" ∨ e.source_file ∈
          fooExt.CollectAllExportedHeaders
            (mainLinker (sharedObjectRun ["a.sdump"] ["include"])).exported_header_dirs_)) :=
  ⟨rfl, by decide, rfl,
    C5_header_filter_in_shared_object_mode fooExt (sharedObjectRun ["a.sdump"] ["include"])
      (mainLinker (sharedObjectRun ["a.sdump"] ["include"])) _ rfl (by decide) rfl⟩

/-- C6: when the exported-header set is empty, two input lists that differ only in the
source files of their entities are linked alike: in every category the same positions of
the two inputs are retained. -/
theorem C6_empty_header_set_ignores_source_file (cl : CommandLine) (self : HeaderAbiLinker)
    (tus1 tus2 : List TranslationUnit) (hH : self.exported_headers_ = [])
    (hsame : tus1.map TranslationUnit.eraseSourceFiles =
      tus2.map TranslationUnit.eraseSourceFiles) :
    ∃ r1 r2,
      LinkDumps cl (tus1.map some) (self, AddElfSymbols self TranslationUnit.empty) = .ok r1 ∧
      LinkDumps cl (tus2.map some) (self, AddElfSymbols self TranslationUnit.empty) = .ok r2 ∧
      (∀ c, SamePositions (tus1.flatMap (fun tu => tu.types c))
        (tus2.flatMap (fun tu => tu.types c)) (r1.2.types c) (r2.2.types c)) ∧
      SamePositions (tus1.flatMap (fun tu => tu.functions))
        (tus2.flatMap (fun tu => tu.functions)) r1.2.functions r2.2.functions ∧
      SamePositions (tus1.flatMap (fun tu => tu.global_vars))
        (tus2.flatMap (fun tu => tu.global_vars)) r1.2.global_vars r2.2.global_vars := by
  obtain ⟨_, h2, h3, h4⟩ := foldl_LinkDump_rel cl [] tus1 tus2
    (SimilarTU_of_erase_list tus1 tus2 hsame) self
    (AddElfSymbols self TranslationUnit.empty) (AddElfSymbols self TranslationUnit.empty) hH
  refine ⟨_, _, LinkDumps_ok cl tus1 _, LinkDumps_ok cl tus2 _, fun c => ?_, ?_, ?_⟩
  · have := h2 c
    have hnil : (AddElfSymbols self TranslationUnit.empty).types c = [] := by
      cases c <;> rfl
    rw [hnil] at this
    exact SamePositions_of_SelectedAlike this
  · exact SamePositions_of_SelectedAlike h3
  · exact SamePositions_of_SelectedAlike h4

/-- C6 at two dumps that declare the record type `Rec` in different headers. -/
theorem C6_empty_header_set_ignores_source_file_witness :
    (mainLinker (sharedObjectRun ["a.sdump"] [])).exported_headers_ = [] ∧
    [recDump].map TranslationUnit.eraseSourceFiles =
      [recDumpMoved].map TranslationUnit.eraseSourceFiles ∧
    ∃ r1 r2,
      LinkDumps (sharedObjectRun ["a.sdump"] []) ([recDump].map some)
        (mainLinker (sharedObjectRun ["a.sdump"] []),
         AddElfSymbols (mainLinker (sharedObjectRun ["a.sdump"] []))
           TranslationUnit.empty) = .ok r1 ∧
      LinkDumps (sharedObjectRun ["a.sdump"] []) ([recDumpMoved].map some)
        (mainLinker (sharedObjectRun ["a.sdump"] []),
         AddElfSymbols (mainLinker (sharedObjectRun ["a.sdump"] []))
           TranslationUnit.empty) = .ok r2 ∧
      (∀ c, SamePositions ([recDump].flatMap (fun tu => tu.types c))
        ([recDumpMoved].flatMap (fun tu => tu.types c)) (r1.2.types c) (r2.2.types c)) ∧
      SamePositions ([recDump].flatMap (fun tu => tu.functions))
        ([recDumpMoved].flatMap (fun tu => tu.functions)) r1.2.functions r2.2.functions ∧
      SamePositions ([recDump].flatMap (fun tu => tu.global_vars))
        ([recDumpMoved].flatMap (fun tu => tu.global_vars)) r1.2.global_vars
        r2.2.global_vars :=
  ⟨rfl, by decide,
    C6_empty_header_set_ignores_source_file (sharedObjectRun ["a.sdump"] [])
      (mainLinker (sharedObjectRun ["a.sdump"] [])) [recDump] [recDumpMoved] rfl
      (by decide)⟩

/-- C7: the merged type categories depend on the exported-header set and the inputs
only, not on the symbols, patterns and mode of the symbol filter; and a linkage key that
some input type entity passing the header filter carries is the key of exactly one
retained type entity. -/
theorem C7_types_independent_of_symbol_filter (cl1 cl2 : CommandLine)
    (self1 self2 : HeaderAbiLinker) (tus : List TranslationUnit)
    (hH : self1.exported_headers_ = self2.exported_headers_)
    (h1 : self1.types_set_ = []) (h2 : self2.types_set_ = []) :
    ∃ r1 r2,
      LinkDumps cl1 (tus.map some) (self1, AddElfSymbols self1 TranslationUnit.empty) = .ok r1 ∧
      LinkDumps cl2 (tus.map some) (self2, AddElfSymbols self2 TranslationUnit.empty) = .ok r2 ∧
      (∀ c, r1.2.types c = r2.2.types c) ∧
      (∀ k, (∃ tu ∈ tus, ∃ c, ∃ e ∈ tu.types c,
          ¬ headerRejects self1.exported_headers_ e ∧ GetLinkageName e = k) →
        typeKeyCount k r1.2 = 1) := by
  refine ⟨_, _, LinkDumps_ok cl1 tus _, LinkDumps_ok cl2 tus _, ?_, ?_⟩
  · refine foldl_LinkDump_types_congr cl1 cl2 tus _ _ hH (by rw [h1, h2]) ?_
    intro c
    cases c <;> rfl
  · intro k hk
    obtain ⟨a1, a2⟩ := foldl_LinkDump_count cl1 k tus
      (self1, AddElfSymbols self1 TranslationUnit.empty)
    have hmem : k ∈ (tus.foldl (LinkDump cl1)
        (self1, AddElfSymbols self1 TranslationUnit.empty)).1.types_set_ := a2.2 (Or.inr hk)
    have h0 : typeKeyCount k (AddElfSymbols self1 TranslationUnit.empty) = 0 := by
      simp [typeKeyCount, AddElfSymbols, TranslationUnit.empty, keyCount]
    simp only [h1, inSet_nil, h0, (inSet_eq_one _ _).2 hmem] at a1
    omega

/-- C7 at a record type declared in two dumps, linked in version-script mode and in
shared-object mode. -/
theorem C7_types_independent_of_symbol_filter_witness :
    (resolvedLinker exactExt (versionScriptRun ["a.sdump", "b.sdump"] [])).exported_headers_ =
      (mainLinker (sharedObjectRun ["a.sdump", "b.sdump"] [])).exported_headers_ ∧
    (resolvedLinker exactExt (versionScriptRun ["a.sdump", "b.sdump"] [])).types_set_ = [] ∧
    (mainLinker (sharedObjectRun ["a.sdump", "b.sdump"] [])).types_set_ = [] ∧
    ∃ r1 r2,
      LinkDumps (versionScriptRun ["a.sdump", "b.sdump"] []) ([recDump, recDump].map some)
        (resolvedLinker exactExt (versionScriptRun ["a.sdump", "b.sdump"] []),
         AddElfSymbols (resolvedLinker exactExt (versionScriptRun ["a.sdump", "b.sdump"] []))
           TranslationUnit.empty) = .ok r1 ∧
      LinkDumps (sharedObjectRun ["a.sdump", "b.sdump"] []) ([recDump, recDump].map some)
        (mainLinker (sharedObjectRun ["a.sdump", "b.sdump"] []),
         AddElfSymbols (mainLinker (sharedObjectRun ["a.sdump", "b.sdump"] []))
           TranslationUnit.empty) = .ok r2 ∧
      (∀ c, r1.2.types c = r2.2.types c) ∧
      (∀ k, (∃ tu ∈ [recDump, recDump], ∃ c, ∃ e ∈ tu.types c,
          ¬ headerRejects
            (resolvedLinker exactExt
              (versionScriptRun ["a.sdump", "b.sdump"] [])).exported_headers_ e ∧
          GetLinkageName e = k) →
        typeKeyCount k r1.2 = 1) :=
  ⟨rfl, rfl, rfl,
    C7_types_independent_of_symbol_filter (versionScriptRun ["a.sdump", "b.sdump"] [])
      (sharedObjectRun ["a.sdump", "b.sdump"] [])
      (resolvedLinker exactExt (versionScriptRun ["a.sdump", "b.sdump"] []))
      (mainLinker (sharedObjectRun ["a.sdump", "b.sdump"] [])) [recDump, recDump] rfl rfl rfl⟩

/-- The run of the example of C7: the record type `Rec`, declared in two dumps, is in the
output of a run in version-script mode exactly once. -/
theorem rec_run_output :
    ∃ out, LinkAndDump { exactExt with ParseDump := fun _ => some recDump }
        (versionScriptRun ["a.sdump", "b.sdump"] [])
        (mainLinker (versionScriptRun ["a.sdump", "b.sdump"] [])) = .ok out ∧
      out.record_types = [⟨⟨"Rec", "rec.h"⟩, "struct Rec"⟩] :=
  ⟨_, rfl, rfl⟩

/-- C8: the merged sequence of every category is a subsequence of the concatenation, in
input order, of the sequences of that category in the inputs. -/
theorem C8_merged_is_subsequence_of_inputs (cl : CommandLine) (self : HeaderAbiLinker)
    (tus : List TranslationUnit) :
    ∃ r, LinkDumps cl (tus.map some) (self, AddElfSymbols self TranslationUnit.empty) = .ok r ∧
      (∀ c, List.Sublist (r.2.types c) (tus.flatMap (fun tu => tu.types c))) ∧
      List.Sublist r.2.functions (tus.flatMap (fun tu => tu.functions)) ∧
      List.Sublist r.2.global_vars (tus.flatMap (fun tu => tu.global_vars)) := by
  obtain ⟨_, h2, h3, h4⟩ := foldl_LinkDump_rel cl self.exported_headers_ tus tus
    (SimilarTU_refl _ tus) self
    (AddElfSymbols self TranslationUnit.empty) (AddElfSymbols self TranslationUnit.empty) rfl
  refine ⟨_, LinkDumps_ok cl tus _, fun c => ?_, ?_, ?_⟩
  · obtain ⟨m, _, hm, _⟩ := h2 c
    have hnil : (AddElfSymbols self TranslationUnit.empty).types c = [] := by
      cases c <;> rfl
    rw [hm, hnil, List.nil_append]
    exact select_sublist m _
  · obtain ⟨m, _, hm, _⟩ := h3
    rw [hm]
    exact select_sublist m _
  · obtain ⟨m, _, hm, _⟩ := h4
    rw [hm]
    exact select_sublist m _

/-- C9: in a successful run the exported-function-symbols category of the output is one
entry, holding the name, for each function name that visibility resolution produced, in
the order of the set, and likewise the exported-object-symbols category for the global
variable names; linking a dump leaves both categories as they are. -/
theorem C9_exported_symbols_are_the_resolved_names (ext : Collaborators) (cl : CommandLine)
    (self : HeaderAbiLinker) (out : TranslationUnit)
    (hrun : LinkAndDump ext cl self = .ok out) :
    ∃ resolved, ResolveVisibility ext cl self = .ok resolved ∧
      out.elf_functions = resolved.function_decl_set_.map ElfFunction.mk ∧
      out.elf_objects = resolved.globvar_decl_set_.map ElfObject.mk ∧
      (resolved.function_decl_set_.Nodup →
        ∀ n ∈ resolved.function_decl_set_, out.elf_functions.count ⟨n⟩ = 1) ∧
      (resolved.globvar_decl_set_.Nodup →
        ∀ n ∈ resolved.globvar_decl_set_, out.elf_objects.count ⟨n⟩ = 1) ∧
      (∀ s tu, (LinkDump cl s tu).2.elf_functions = s.2.elf_functions ∧
        (LinkDump cl s tu).2.elf_objects = s.2.elf_objects) := by
  obtain ⟨resolved, tus, hres, _, hout, _⟩ := LinkAndDump_ok ext cl self out hrun
  have hf := foldl_LinkDump_frame cl tus (resolved, AddElfSymbols resolved TranslationUnit.empty)
  have e1 : out.elf_functions = resolved.function_decl_set_.map ElfFunction.mk := by
    rw [hout, hf.2.2.2.2.2.1]
    simp [AddElfSymbols, TranslationUnit.empty]
  have e2 : out.elf_objects = resolved.globvar_decl_set_.map ElfObject.mk := by
    rw [hout, hf.2.2.2.2.2.2]
    simp [AddElfSymbols, TranslationUnit.empty]
  refine ⟨resolved, hres, e1, e2, fun hnd n hn => ?_, fun hnd n hn => ?_, fun s tu => ?_⟩
  · rw [e1, List.count_map_of_injective _ _ (fun a b h => by injection h) n]
    exact List.count_eq_one_of_mem hnd hn
  · rw [e2, List.count_map_of_injective _ _ (fun a b h => by injection h) n]
    exact List.count_eq_one_of_mem hnd hn
  · exact ⟨(LinkDump_frame cl s tu).2.2.2.2.2.1, (LinkDump_frame cl s tu).2.2.2.2.2.2⟩

/-- C9 at the run with `foo` of `a.h` and `baz` of `b.h`, where the shared object exports
`foo`. -/
theorem C9_exported_symbols_are_the_resolved_names_witness :
    ∃ out, LinkAndDump fooExt (sharedObjectRun ["a.sdump"] ["include"])
        (mainLinker (sharedObjectRun ["a.sdump"] ["include"])) = .ok out ∧
      out.elf_functions = [⟨"foo"⟩] ∧
      ∃ resolved, ResolveVisibility fooExt (sharedObjectRun ["a.sdump"] ["include"])
          (mainLinker (sharedObjectRun ["a.sdump"] ["include"])) = .ok resolved ∧
        out.elf_functions = resolved.function_decl_set_.map ElfFunction.mk ∧
        out.elf_objects = resolved.globvar_decl_set_.map ElfObject.mk ∧
        (resolved.function_decl_set_.Nodup →
          ∀ n ∈ resolved.function_decl_set_, out.elf_functions.count ⟨n⟩ = 1) ∧
        (resolved.globvar_decl_set_.Nodup →
          ∀ n ∈ resolved.globvar_decl_set_, out.elf_objects.count ⟨n⟩ = 1) ∧
        (∀ s tu, (LinkDump (sharedObjectRun ["a.sdump"] ["include"]) s tu).2.elf_functions =
            s.2.elf_functions ∧
          (LinkDump (sharedObjectRun ["a.sdump"] ["include"]) s tu).2.elf_objects =
            s.2.elf_objects) :=
  ⟨_, rfl, rfl,
    C9_exported_symbols_are_the_resolved_names fooExt (sharedObjectRun ["a.sdump"] ["include"])
      (mainLinker (sharedObjectRun ["a.sdump"] ["include"])) _ rfl⟩

/-- C10 fails as stated: the matcher searches the symbol for a part between two word
boundaries, so the pattern `foo` accepts the longer symbol `foo.bar`; it accepts nothing
in the empty symbol, where the pattern `*` should; the empty pattern accepts `x`; and a
`.` in a pattern is read as a regular expression, so `a.c` accepts `abc`. -/
theorem C10_counterexample :
    ((CreateRegexMatchExprFromSet ["foo"]).map (regex_search "foo.bar") = some true ∧
      specMatches ["foo"] "foo.bar" = false) ∧
    ((CreateRegexMatchExprFromSet ["*"]).map (regex_search "") = some false ∧
      specMatches ["*"] "" = true) ∧
    ((CreateRegexMatchExprFromSet [""]).map (regex_search "x") = some true ∧
      specMatches [""] "x" = false) ∧
    ((CreateRegexMatchExprFromSet ["a.c"]).map (regex_search "abc") = some true ∧
      specMatches ["a.c"] "abc" = false) := by
  decide

/-- C10, amended: for non-empty glob patterns made of `*` and of characters without a
meaning in regular expressions, and for a non-empty symbol made of letters, digits and
underscores, the matcher is compiled and it matches the symbol exactly when some pattern,
with each `*` read as zero or more arbitrary characters, matches the whole symbol. -/
theorem C10_matcher_on_identifiers (patterns : StrSet) (symbol : String)
    (hp : ∀ p ∈ patterns, p ≠ "" ∧ plainPattern p)
    (hs : symbol ≠ "") (hw : ∀ c ∈ symbol.data, isWordChar c = true) :
    ∃ re, CreateRegexMatchExprFromSet patterns = some re ∧
      regex_search symbol re = specMatches patterns symbol := by
  refine ⟨_, CreateRegexMatchExprFromSet_plain patterns (fun p h => (hp p h).2), ?_⟩
  by_cases hne : patterns = []
  · subst hne
    simp [regex_search, specMatches]
  · have hpd : ∀ p ∈ patterns, p.data ≠ [] := fun p h hd =>
      (hp p h).1 (String.ext hd)
    have hsd : symbol.data ≠ [] := fun hd => hs (String.ext hd)
    have key := patternsNode_search patterns symbol.data hne hpd hsd hw
    rw [Bool.eq_iff_iff]
    simp only [regex_search, hne, if_false, specMatches, List.any_eq_true]
    exact key

/-- C10, amended, at the patterns `qux_*` and `foo` and the symbol `qux_init`. -/
theorem C10_matcher_on_identifiers_witness :
    (∀ p ∈ ["foo", "qux_*"], p ≠ "" ∧ plainPattern p) ∧ "qux_init" ≠ "" ∧
    (∀ c ∈ ("qux_init" : String).data, isWordChar c = true) ∧
    specMatches ["foo", "qux_*"] "qux_init" = true ∧
    ∃ re, CreateRegexMatchExprFromSet ["foo", "qux_*"] = some re ∧
      regex_search "qux_init" re = specMatches ["foo", "qux_*"] "qux_init" :=
  ⟨by decide, by decide, by decide, by decide,
    C10_matcher_on_identifiers ["foo", "qux_*"] "qux_init" (by decide) (by decide)
      (by decide)⟩

/-- C11: in shared-object mode the matcher is the one of an empty pattern set, which
matches nothing, and the merged functions are, in encounter order, the first
header-passing occurrence of each linkage key of the exact function set that the shared
object gave; no function with another key is retained, and the exported function symbols
are the names of that set. -/
theorem C11_shared_object_mode_functions (ext : Collaborators) (cl : CommandLine)
    (out : TranslationUnit) (hmode : cl.use_version_script = false)
    (hpath : cl.version_script ≠ "" ∨ cl.so_file ≠ "")
    (hrun : LinkAndDump ext cl (mainLinker cl) = .ok out) :
    ∃ (E G : StrSet) (tus : List TranslationUnit),
      ext.SoFileParser cl.so_file = some (E, G) ∧
      cl.dump_files.map ext.ParseDump = tus.map some ∧
      (CreateRegexMatchExprFromSet [] = some ⟨none⟩ ∧
        ∀ symbol, regex_search symbol ⟨none⟩ = false) ∧
      out.functions = firstOccurrences []
        ((tus.flatMap (fun tu => tu.functions)).filter (fun e =>
          headerPasses
            (ext.CollectAllExportedHeaders (mainLinker cl).exported_header_dirs_) e &&
          decide (e.linker_set_key ∈ E))) ∧
      (∀ e ∈ out.functions, e.linker_set_key ∈ E) ∧
      out.elf_functions = E.map ElfFunction.mk := by
  obtain ⟨resolved, tus, hres, hparse, hout, _⟩ :=
    LinkAndDump_ok ext cl (mainLinker cl) out hrun
  obtain ⟨E, G, h1, h2, _, h4, _, h6⟩ :=
    ResolveVisibility_so ext cl (mainLinker cl) resolved hmode hres
  obtain ⟨p1, p2, p3, _⟩ := ResolveVisibility_paths ext cl (mainLinker cl) resolved hres
  have hfs := foldl_LinkDump_fnState cl tus
    (resolved, AddElfSymbols resolved TranslationUnit.empty)
  have hf := foldl_LinkDump_frame cl tus (resolved, AddElfSymbols resolved TranslationUnit.empty)
  have hm : fnMode resolved = true := by
    simp only [fnMode, Bool.or_eq_true, decide_eq_true_eq, p1, p2]
    exact hpath
  have hre : resolved.functions_vs_regex_ = ⟨none⟩ := by rw [h4]; rfl
  have hfun : out.functions = (fnState (tus.foldl (LinkDump cl)
      (resolved, AddElfSymbols resolved TranslationUnit.empty))).1 := by rw [hout]; rfl
  have hchar : out.functions = firstOccurrences []
      ((tus.flatMap (fun tu => tu.functions)).filter (fun e =>
        headerPasses
          (ext.CollectAllExportedHeaders (mainLinker cl).exported_header_dirs_) e &&
        decide (e.linker_set_key ∈ E))) := by
    rw [hfun, hfs]
    simp only [hm, hre, fnState, AddElfSymbols, TranslationUnit.empty, h2, h6]
    rw [LinkDecl_exact_first _ ⟨none⟩ (fun k => rfl) E _ [] E _ [] (fun k => by simp)]
    rfl
  refine ⟨E, G, tus, h1, by rw [← hparse, p3]; rfl, ⟨rfl, fun symbol => rfl⟩, hchar,
    ?_, ?_⟩
  · intro e he
    rw [hchar] at he
    have := firstOccurrences_mem _ _ _ he
    simp only [List.mem_filter, Bool.and_eq_true, decide_eq_true_eq] at this
    exact this.2.2
  · rw [hout, hf.2.2.2.2.2.1]
    simp [AddElfSymbols, TranslationUnit.empty, h2]

/-- C11 at the input that declares `foo` in `a.h` and `baz` in `b.h`, with `a.h` the only
exported header and `foo` the only exported function: the merged functions and the
exported function symbols are both `foo` alone. -/
theorem C11_shared_object_mode_functions_witness :
    (sharedObjectRun ["a.sdump"] ["include"]).use_version_script = false ∧
    ((sharedObjectRun ["a.sdump"] ["include"]).version_script ≠ "" ∨
      (sharedObjectRun ["a.sdump"] ["include"]).so_file ≠ "") ∧
    LinkAndDump fooExt (sharedObjectRun ["a.sdump"] ["include"])
      (mainLinker (sharedObjectRun ["a.sdump"] ["include"])) =
      .ok { TranslationUnit.empty with
            functions := [⟨"foo", "a.h", "void foo()"⟩], elf_functions := [⟨"foo"⟩] } ∧
    ∃ (E G : StrSet) (tus : List TranslationUnit),
      fooExt.SoFileParser (sharedObjectRun ["a.sdump"] ["include"]).so_file = some (E, G) ∧
      (sharedObjectRun ["a.sdump"] ["include"]).dump_files.map fooExt.ParseDump =
        tus.map some ∧
      (CreateRegexMatchExprFromSet [] = some ⟨none⟩ ∧
        ∀ symbol, regex_search symbol ⟨none⟩ = false) ∧
      ({ TranslationUnit.empty with
          functions := [⟨"foo", "a.h", "void foo()"⟩],
          elf_functions := [⟨"foo"⟩] } : TranslationUnit).functions =
        firstOccurrences []
          ((tus.flatMap (fun tu => tu.functions)).filter (fun e =>
            headerPasses
              (fooExt.CollectAllExportedHeaders
                (mainLinker (sharedObjectRun ["a.sdump"] ["include"])).exported_header_dirs_)
              e &&
            decide (e.linker_set_key ∈ E))) ∧
      (∀ e ∈ ({ TranslationUnit.empty with
          functions := [⟨"foo", "a.h", "void foo()"⟩],
          elf_functions := [⟨"foo"⟩] } : TranslationUnit).functions,
        e.linker_set_key ∈ E) ∧
      ({ TranslationUnit.empty with
          functions := [⟨"foo", "a.h", "void foo()"⟩],
          elf_functions := [⟨"foo"⟩] } : TranslationUnit).elf_functions =
        E.map ElfFunction.mk :=
  ⟨rfl, by decide, rfl,
    C11_shared_object_mode_functions fooExt (sharedObjectRun ["a.sdump"] ["include"]) _ rfl
      (by decide) rfl⟩

/-- C12: the run reports success exactly when visibility resolution succeeds, every dump
file is parsed and serialization succeeds; a dump file that fails to parse ends the loop
with a failure whatever follows it; a failure before serialization is reported whatever
serialization would do; and the exit status of `main` is 0 exactly when the run
succeeds. -/
theorem C12_success_iff_every_stage_succeeds (ext : Collaborators) (cl : CommandLine)
    (self : HeaderAbiLinker) :
    ((∃ out, LinkAndDump ext cl self = .ok out) ↔
      ∃ (resolved : HeaderAbiLinker) (tus : List TranslationUnit),
        ResolveVisibility ext cl self = .ok resolved ∧
        resolved.dump_files_.map ext.ParseDump = tus.map some ∧
        ext.Print (tus.foldl (LinkDump cl)
          (resolved, AddElfSymbols resolved TranslationUnit.empty)).2 = true) ∧
    (∀ (pre : List TranslationUnit) (rest : List (Option TranslationUnit))
        (s : HeaderAbiLinker × TranslationUnit),
      LinkDumps cl (pre.map some ++ none :: rest) s = .error .linkElements) ∧
    (∀ (e : Failure) (print : TranslationUnit → Bool),
      LinkAndDump ext cl self = .error e → e ≠ .serialization →
        LinkAndDump { ext with Print := print } cl self = .error e) ∧
    (main ext cl = some 0 ↔ ∃ out, LinkAndDump ext cl (mainLinker cl) = .ok out) := by
  refine ⟨⟨?_, ?_⟩, fun pre rest s => LinkDumps_parse_failure cl pre rest s, ?_, ?_⟩
  · rintro ⟨out, hrun⟩
    obtain ⟨resolved, tus, h1, h2, h3, h4⟩ := LinkAndDump_ok ext cl self out hrun
    exact ⟨resolved, tus, h1, h2, h3 ▸ h4⟩
  · rintro ⟨resolved, tus, h1, h2, h3⟩
    exact ⟨_, LinkAndDump_of_stages ext cl self resolved tus h1 h2 h3⟩
  · intro e print hrun hne
    have hres : ResolveVisibility { ext with Print := print } cl self =
        ResolveVisibility ext cl self := rfl
    unfold LinkAndDump at hrun ⊢
    rw [hres]
    cases hr : ResolveVisibility ext cl self with
    | error e' => rw [hr] at hrun; exact hrun
    | ok resolved =>
      rw [hr] at hrun
      simp only at hrun ⊢
      cases hl : LinkDumps cl (resolved.dump_files_.map ext.ParseDump)
          (resolved, AddElfSymbols resolved TranslationUnit.empty) with
      | error e' => rw [hl] at hrun; exact hrun
      | ok s =>
        rw [hl] at hrun
        simp only at hrun
        by_cases hp : ext.Print s.2 = false
        · rw [if_pos hp] at hrun
          injection hrun with he
          exact absurd he.symm hne
        · rw [if_neg hp] at hrun
          exact Except.noConfusion hrun
  · unfold main
    cases hrun : LinkAndDump ext cl (mainLinker cl) with
    | ok out => simp
    | error e => cases e <;> simp

/-- C12 at a run that succeeds, with exit status 0, and at a run whose shared object
cannot be read, which fails whatever serialization would do. -/
theorem C12_success_iff_every_stage_succeeds_witness :
    main fooExt (sharedObjectRun ["a.sdump"] ["include"]) = some 0 ∧
    (LinkAndDump unreadableExt (sharedObjectRun ["a.sdump"] [])
        (mainLinker (sharedObjectRun ["a.sdump"] [])) = .error .soFile ∧
      Failure.soFile ≠ Failure.serialization ∧
      LinkAndDump { unreadableExt with Print := fun _ => false }
        (sharedObjectRun ["a.sdump"] [])
        (mainLinker (sharedObjectRun ["a.sdump"] [])) = .error .soFile) ∧
    main unreadableExt (sharedObjectRun ["a.sdump"] []) = some (-1) :=
  ⟨(C12_success_iff_every_stage_succeeds fooExt (sharedObjectRun ["a.sdump"] ["include"])
      (mainLinker (sharedObjectRun ["a.sdump"] ["include"]))).2.2.2.2 ⟨_, rfl⟩,
    ⟨rfl, by decide,
      (C12_success_iff_every_stage_succeeds unreadableExt (sharedObjectRun ["a.sdump"] [])
        (mainLinker (sharedObjectRun ["a.sdump"] []))).2.2.1 .soFile (fun _ => false) rfl
        (by decide)⟩,
    rfl⟩

/-- C13 fails as stated: the type categories do not have a seen set each.  In a dump
whose record type and enum type both have the key `T`, the enum type is dropped although
no enum type with that key was accepted before. -/
theorem C13_counterexample :
    ∃ r, LinkDumps (plainRun ["a.sdump"]) [some clashDump]
        (mainLinker (plainRun ["a.sdump"]),
         AddElfSymbols (mainLinker (plainRun ["a.sdump"])) TranslationUnit.empty) = .ok r ∧
      r.2.record_types = [⟨⟨"T", "t.h"⟩, "struct T"⟩] ∧
      r.2.enum_types = [] ∧
      firstOccurrences [] (clashDump.enum_types.filter
        (fun e => headerPasses (mainLinker (plainRun ["a.sdump"])).exported_headers_ e)) =
        [⟨⟨"T", "t.h"⟩, "enum T"⟩] :=
  ⟨_, rfl, rfl, rfl, by decide⟩

/-- C13, amended: in plain-dedup mode an entity that passes the header filter is accepted
exactly when its linkage key is neither in the seen set of its group at the start nor the
key of an earlier header-passing entity of the group, where the eight type categories
form one group, in the order in which they are visited, and functions and global
variables one group each. -/
theorem C13_plain_dedup_by_group (cl : CommandLine) (self : HeaderAbiLinker)
    (tus : List TranslationUnit) :
    ∃ r, LinkDumps cl (tus.map some) (self, AddElfSymbols self TranslationUnit.empty) = .ok r ∧
      (∀ c, r.2.types c = ofCategory c (firstOccurrences self.types_set_
        ((tus.flatMap typeStream).filter
          (fun e => headerPasses self.exported_headers_ e)))) ∧
      (self.version_script_ = "" ∧ self.so_file_ = "" →
        r.2.functions = firstOccurrences self.function_decl_set_
          ((tus.flatMap (fun tu => tu.functions)).filter
            (fun e => headerPasses self.exported_headers_ e))) ∧
      (cl.version_script = "" ∧ self.so_file_ = "" →
        r.2.global_vars = firstOccurrences self.globvar_decl_set_
          ((tus.flatMap (fun tu => tu.global_vars)).filter
            (fun e => headerPasses self.exported_headers_ e))) := by
  refine ⟨_, LinkDumps_ok cl tus _, fun c => ?_, fun hm => ?_, fun hm => ?_⟩
  · rw [foldl_LinkDump_types_first cl tus _ self.types_set_ (fun k => Iff.rfl) c]
    have hnil : (AddElfSymbols self TranslationUnit.empty).types c = [] := by
      cases c <;> rfl
    rw [hnil, List.nil_append]
  · have hmode : fnMode self = false := by simp [fnMode, hm.1, hm.2]
    have hfn : (tus.foldl (LinkDump cl)
        (self, AddElfSymbols self TranslationUnit.empty)).2.functions =
        (fnState (tus.foldl (LinkDump cl)
          (self, AddElfSymbols self TranslationUnit.empty))).1 := rfl
    rw [hfn, foldl_LinkDump_fnState]
    simp only [hmode, fnState, AddElfSymbols, TranslationUnit.empty]
    rw [LinkDecl_plain_first _ _ _ _ _ _ self.function_decl_set_ (fun k => Iff.rfl),
      List.nil_append]
  · have hmode : gvMode cl self = false := by simp [gvMode, hm.1, hm.2]
    have hgv : (tus.foldl (LinkDump cl)
        (self, AddElfSymbols self TranslationUnit.empty)).2.global_vars =
        (gvState (tus.foldl (LinkDump cl)
          (self, AddElfSymbols self TranslationUnit.empty))).1 := rfl
    rw [hgv, foldl_LinkDump_gvState]
    simp only [hmode, gvState, AddElfSymbols, TranslationUnit.empty]
    rw [LinkDecl_plain_first _ _ _ _ _ _ self.globvar_decl_set_ (fun k => Iff.rfl),
      List.nil_append]

/-- C13, amended, at a run without version script and shared object over the dump whose
record type and enum type share the key `T`. -/
theorem C13_plain_dedup_by_group_witness :
    ((mainLinker (plainRun ["a.sdump"])).version_script_ = "" ∧
      (mainLinker (plainRun ["a.sdump"])).so_file_ = "") ∧
    ((plainRun ["a.sdump"]).version_script = "" ∧
      (mainLinker (plainRun ["a.sdump"])).so_file_ = "") ∧
    ∃ r, LinkDumps (plainRun ["a.sdump"]) ([clashDump].map some)
        (mainLinker (plainRun ["a.sdump"]),
         AddElfSymbols (mainLinker (plainRun ["a.sdump"])) TranslationUnit.empty) = .ok r ∧
      (∀ c, r.2.types c = ofCategory c
        (firstOccurrences (mainLinker (plainRun ["a.sdump"])).types_set_
          (([clashDump].flatMap typeStream).filter
            (fun e => headerPasses (mainLinker (plainRun ["a.sdump"])).exported_headers_ e)))) ∧
      ((mainLinker (plainRun ["a.sdump"])).version_script_ = "" ∧
          (mainLinker (plainRun ["a.sdump"])).so_file_ = "" →
        r.2.functions = firstOccurrences (mainLinker (plainRun ["a.sdump"])).function_decl_set_
          (([clashDump].flatMap (fun tu => tu.functions)).filter
            (fun e => headerPasses (mainLinker (plainRun ["a.sdump"])).exported_headers_ e))) ∧
      ((plainRun ["a.sdump"]).version_script = "" ∧
          (mainLinker (plainRun ["a.sdump"])).so_file_ = "" →
        r.2.global_vars =
          firstOccurrences (mainLinker (plainRun ["a.sdump"])).globvar_decl_set_
            (([clashDump].flatMap (fun tu => tu.global_vars)).filter
              (fun e =>
                headerPasses (mainLinker (plainRun ["a.sdump"])).exported_headers_ e))) :=
  ⟨by decide, by decide,
    C13_plain_dedup_by_group (plainRun ["a.sdump"]) (mainLinker (plainRun ["a.sdump"]))
      [clashDump]⟩

/-- C14: an entity that the header filter rejects changes nothing: linking a sequence
with it gives the same destination, seen or exact set and matched-record as linking the
sequence without it, so later declarations are decided as if it had never been seen; and
an entity with an empty source file is decided as if there were no header filter. -/
theorem C14_rejected_entity_changes_nothing {T : Type} [Linkable T] (H : StrSet) (re : Regex)
    (b : Bool) (e : T) (pre post dst : List T) (ls ms : StrSet) :
    (H ≠ [] → GetSourceFile e ≠ "" → GetSourceFile e ∉ H →
      LinkDecl H re b [e] dst ls ms = (dst, ls, ms) ∧
      LinkDecl H re b (pre ++ e :: post) dst ls ms = LinkDecl H re b (pre ++ post) dst ls ms) ∧
    (GetSourceFile e = "" →
      LinkDecl H re b [e] dst ls ms = LinkDecl [] re b [e] dst ls ms) := by
  constructor
  · intro h1 h2 h3
    have hr : headerRejects H e := ⟨h1, h2, h3⟩
    refine ⟨?_, LinkDecl_rejected H re b e pre post dst ls ms hr⟩
    rw [LinkDecl_cons, linkStep_rejected H re b e ls ms hr]
    simp [LinkDecl]
  · intro h
    rw [LinkDecl_cons, LinkDecl_cons]
    have e1 : linkStep H re b e ls ms = linkStep [] re b e ls ms := by
      simp [linkStep, headerRejects, h]
    rw [e1]
    simp only [LinkDecl]

/-- C14 at the exported-header set holding `a.h`: `baz` of `b.h` is rejected and the later
`baz` of `a.h` is decided as if it came first; a function without source file is decided
as without the filter. -/
theorem C14_rejected_entity_changes_nothing_witness :
    ((["a.h"] : StrSet) ≠ [] ∧ GetSourceFile bazHidden ≠ "" ∧
      GetSourceFile bazHidden ∉ (["a.h"] : StrSet) ∧
      (LinkDecl ["a.h"] ⟨none⟩ false [bazHidden] [] [] [] = ([], [], []) ∧
        LinkDecl ["a.h"] ⟨none⟩ false ([] ++ bazHidden :: [bazExported]) [] [] [] =
          LinkDecl ["a.h"] ⟨none⟩ false ([] ++ [bazExported]) [] [] [])) ∧
    (GetSourceFile implicitDecl = "" ∧
      LinkDecl ["a.h"] ⟨none⟩ false [implicitDecl] [] [] [] =
        LinkDecl [] ⟨none⟩ false [implicitDecl] [] [] []) :=
  ⟨⟨by decide, by decide, by decide,
      (C14_rejected_entity_changes_nothing ["a.h"] ⟨none⟩ false bazHidden [] [bazExported]
        [] [] []).1 (by decide) (by decide) (by decide)⟩,
    rfl,
    (C14_rejected_entity_changes_nothing ["a.h"] ⟨none⟩ false implicitDecl [] [] [] [] []).2
      rfl⟩

/-- C15: in every run that `main` starts, at every point of the loop over the dump files,
`LinkFunctions` and `LinkGlobalVars` call `LinkDecl` with the same symbol-matching flag:
true exactly when the version-script path or the shared-object path of the command line
is not empty. -/
theorem C15_same_mode_for_functions_and_globals (ext : Collaborators) (cl : CommandLine)
    (resolved : HeaderAbiLinker) (tus : List TranslationUnit)
    (dump_tu linked_tu : TranslationUnit)
    (hres : ResolveVisibility ext cl (mainLinker cl) = .ok resolved) :
    ∃ self acc, tus.foldl (LinkDump cl)
        (resolved, AddElfSymbols resolved TranslationUnit.empty) = (self, acc) ∧
      (decide (self.version_script_ ≠ "") || decide (self.so_file_ ≠ "")) =
        (decide (cl.version_script ≠ "") || decide (self.so_file_ ≠ "")) ∧
      (decide (self.version_script_ ≠ "") || decide (self.so_file_ ≠ "")) =
        decide (cl.version_script ≠ "" ∨ cl.so_file ≠ "") ∧
      (LinkFunctions self dump_tu linked_tu).2.functions =
        (LinkDecl self.exported_headers_ self.functions_vs_regex_
          (decide (cl.version_script ≠ "" ∨ cl.so_file ≠ "")) dump_tu.functions
          linked_tu.functions self.function_decl_set_ self.functions_regex_matched_set).1 ∧
      (LinkGlobalVars cl self dump_tu linked_tu).2.global_vars =
        (LinkDecl self.exported_headers_ self.globvars_vs_regex_
          (decide (cl.version_script ≠ "" ∨ cl.so_file ≠ "")) dump_tu.global_vars
          linked_tu.global_vars self.globvar_decl_set_ self.globvars_regex_matched_set).1 := by
  obtain ⟨p1, p2, _⟩ := ResolveVisibility_paths ext cl (mainLinker cl) resolved hres
  have hf := foldl_LinkDump_frame cl tus (resolved, AddElfSymbols resolved TranslationUnit.empty)
  have hv : (tus.foldl (LinkDump cl)
      (resolved, AddElfSymbols resolved TranslationUnit.empty)).1.version_script_ =
      cl.version_script := by
    rw [hf.2.1, p1]; rfl
  have hs : (tus.foldl (LinkDump cl)
      (resolved, AddElfSymbols resolved TranslationUnit.empty)).1.so_file_ = cl.so_file := by
    rw [hf.2.2.1, p2]; rfl
  refine ⟨_, _, rfl, ?_, ?_, ?_, ?_⟩
  · rw [hv]
  · rw [hv, hs]
    simp only [Bool.decide_or]
  · simp only [LinkFunctions, hv, hs, Bool.decide_or]
  · simp only [LinkGlobalVars, hs, Bool.decide_or]

/-- C15 at the run in shared-object mode over one dump that declares `foo` and `baz`. -/
theorem C15_same_mode_for_functions_and_globals_witness :
    ResolveVisibility fooExt (sharedObjectRun ["a.sdump"] ["include"])
        (mainLinker (sharedObjectRun ["a.sdump"] ["include"])) =
      .ok (resolvedLinker fooExt (sharedObjectRun ["a.sdump"] ["include"])) ∧
    ∃ self acc, [fooBazDump].foldl (LinkDump (sharedObjectRun ["a.sdump"] ["include"]))
        (resolvedLinker fooExt (sharedObjectRun ["a.sdump"] ["include"]),
         AddElfSymbols (resolvedLinker fooExt (sharedObjectRun ["a.sdump"] ["include"]))
           TranslationUnit.empty) = (self, acc) ∧
      (decide (self.version_script_ ≠ "") || decide (self.so_file_ ≠ "")) =
        (decide ((sharedObjectRun ["a.sdump"] ["include"]).version_script ≠ "") ||
          decide (self.so_file_ ≠ "")) ∧
      (decide (self.version_script_ ≠ "") || decide (self.so_file_ ≠ "")) =
        decide ((sharedObjectRun ["a.sdump"] ["include"]).version_script ≠ "" ∨
          (sharedObjectRun ["a.sdump"] ["include"]).so_file ≠ "") ∧
      (LinkFunctions self fooBazDump TranslationUnit.empty).2.functions =
        (LinkDecl self.exported_headers_ self.functions_vs_regex_
          (decide ((sharedObjectRun ["a.sdump"] ["include"]).version_script ≠ "" ∨
            (sharedObjectRun ["a.sdump"] ["include"]).so_file ≠ "")) fooBazDump.functions
          TranslationUnit.empty.functions self.function_decl_set_
          self.functions_regex_matched_set).1 ∧
      (LinkGlobalVars (sharedObjectRun ["a.sdump"] ["include"]) self fooBazDump
          TranslationUnit.empty).2.global_vars =
        (LinkDecl self.exported_headers_ self.globvars_vs_regex_
          (decide ((sharedObjectRun ["a.sdump"] ["include"]).version_script ≠ "" ∨
            (sharedObjectRun ["a.sdump"] ["include"]).so_file ≠ "")) fooBazDump.global_vars
          TranslationUnit.empty.global_vars self.globvar_decl_set_
          self.globvars_regex_matched_set).1 :=
  ⟨rfl, C15_same_mode_for_functions_and_globals fooExt
    (sharedObjectRun ["a.sdump"] ["include"])
    (resolvedLinker fooExt (sharedObjectRun ["a.sdump"] ["include"])) [fooBazDump]
    fooBazDump TranslationUnit.empty rfl⟩

/-- C16: the three passes commute: in each of the six orders `LinkTypes`,
`LinkFunctions` and `LinkGlobalVars` leave the same linker state and accumulator. -/
theorem C16_passes_commute (cl : CommandLine) (dump_tu : TranslationUnit)
    (s : HeaderAbiLinker × TranslationUnit) :
    let t := fun s : HeaderAbiLinker × TranslationUnit => LinkTypes s.1 dump_tu s.2
    let f := fun s : HeaderAbiLinker × TranslationUnit => LinkFunctions s.1 dump_tu s.2
    let g := fun s : HeaderAbiLinker × TranslationUnit => LinkGlobalVars cl s.1 dump_tu s.2
    LinkDump cl s dump_tu = g (f (t s)) ∧
    g (t (f s)) = g (f (t s)) ∧ f (g (t s)) = g (f (t s)) ∧ f (t (g s)) = g (f (t s)) ∧
    t (g (f s)) = g (f (t s)) ∧ t (f (g s)) = g (f (t s)) := by
  intro t f g
  refine ⟨rfl, ?_, ?_, ?_, ?_, ?_⟩ <;>
    simp only [t, f, g, LinkTypes, LinkFunctions, LinkGlobalVars]

/-- C17: the eight type categories share one seen set, so after linking any input list
no linkage key is carried by two retained type entities, of the same or of different
categories. -/
theorem C17_type_keys_unique_across_categories (cl : CommandLine) (self : HeaderAbiLinker)
    (tus : List TranslationUnit) :
    ∃ r, LinkDumps cl (tus.map some) (self, AddElfSymbols self TranslationUnit.empty) = .ok r ∧
      ∀ k, typeKeyCount k r.2 ≤ 1 := by
  refine ⟨_, LinkDumps_ok cl tus _, fun k => ?_⟩
  obtain ⟨a1, _⟩ := foldl_LinkDump_count cl k tus
    (self, AddElfSymbols self TranslationUnit.empty)
  have h0 : typeKeyCount k (AddElfSymbols self TranslationUnit.empty) = 0 := by
    simp [typeKeyCount, AddElfSymbols, TranslationUnit.empty, keyCount]
  have h1 := inSet_le k (tus.foldl (LinkDump cl)
    (self, AddElfSymbols self TranslationUnit.empty)).1.types_set_
  rw [h0] at a1
  omega

/-- C18: under symbol-matching mode and from an empty matched-record, after linking any
input list the exact function set is a subset of the initial one, no name of the
matched-record is in the exact set, and every linkage key is retained in the merged
functions at most twice; the same holds for global variables. -/
theorem C18_exact_and_matched_sets_after_linking (cl : CommandLine) (self : HeaderAbiLinker)
    (tus : List TranslationUnit)
    (hf : self.version_script_ ≠ "" ∨ self.so_file_ ≠ "")
    (hg : cl.version_script ≠ "" ∨ self.so_file_ ≠ "")
    (hfm : self.functions_regex_matched_set = [])
    (hgm : self.globvars_regex_matched_set = []) :
    ∃ r, LinkDumps cl (tus.map some) (self, AddElfSymbols self TranslationUnit.empty) = .ok r ∧
      ((∀ k, k ∈ r.1.function_decl_set_ → k ∈ self.function_decl_set_) ∧
        (∀ k, k ∈ r.1.functions_regex_matched_set → k ∉ r.1.function_decl_set_) ∧
        (∀ k, keyCount k r.2.functions ≤ 2)) ∧
      ((∀ k, k ∈ r.1.globvar_decl_set_ → k ∈ self.globvar_decl_set_) ∧
        (∀ k, k ∈ r.1.globvars_regex_matched_set → k ∉ r.1.globvar_decl_set_) ∧
        (∀ k, keyCount k r.2.global_vars ≤ 2)) := by
  have hf' : fnMode self = true := by
    simp only [fnMode, Bool.or_eq_true, decide_eq_true_eq]
    exact hf
  have hg' : gvMode cl self = true := by
    simp only [gvMode, Bool.or_eq_true, decide_eq_true_eq]
    exact hg
  have h1 : fnState (tus.foldl (LinkDump cl)
      (self, AddElfSymbols self TranslationUnit.empty)) =
      LinkDecl self.exported_headers_ self.functions_vs_regex_ true
        (tus.flatMap (fun tu => tu.functions)) [] self.function_decl_set_ [] := by
    rw [foldl_LinkDump_fnState]
    simp only [fnState, AddElfSymbols, TranslationUnit.empty, hf', hfm]
  have h2 : gvState (tus.foldl (LinkDump cl)
      (self, AddElfSymbols self TranslationUnit.empty)) =
      LinkDecl self.exported_headers_ self.globvars_vs_regex_ true
        (tus.flatMap (fun tu => tu.global_vars)) [] self.globvar_decl_set_ [] := by
    rw [foldl_LinkDump_gvState]
    simp only [gvState, AddElfSymbols, TranslationUnit.empty, hg', hgm]
  have f1 := congrArg (fun x => x.1) h1
  have f2 := congrArg (fun x => x.2.1) h1
  have f3 := congrArg (fun x => x.2.2) h1
  have g1 := congrArg (fun x => x.1) h2
  have g2 := congrArg (fun x => x.2.1) h2
  have g3 := congrArg (fun x => x.2.2) h2
  simp only [fnState, gvState] at f1 f2 f3 g1 g2 g3
  refine ⟨_, LinkDumps_ok cl tus _, ?_, ?_⟩
  · rw [f1, f2, f3]
    exact LinkDecl_symbol_twice _ _ _ _
  · rw [g1, g2, g3]
    exact LinkDecl_symbol_twice _ _ _ _

/-- C18 at the version script that exports `bar` by name and by the pattern `b*`, and two
dumps that declare `bar`. -/
theorem C18_exact_and_matched_sets_after_linking_witness :
    ((resolvedLinker overlapExt
        (versionScriptRun ["a.sdump", "b.sdump"] [])).version_script_ ≠ "" ∨
      (resolvedLinker overlapExt (versionScriptRun ["a.sdump", "b.sdump"] [])).so_file_ ≠ "") ∧
    ((versionScriptRun ["a.sdump", "b.sdump"] []).version_script ≠ "" ∨
      (resolvedLinker overlapExt (versionScriptRun ["a.sdump", "b.sdump"] [])).so_file_ ≠ "") ∧
    (resolvedLinker overlapExt
      (versionScriptRun ["a.sdump", "b.sdump"] [])).functions_regex_matched_set = [] ∧
    (resolvedLinker overlapExt
      (versionScriptRun ["a.sdump", "b.sdump"] [])).globvars_regex_matched_set = [] ∧
    ∃ r, LinkDumps (versionScriptRun ["a.sdump", "b.sdump"] []) ([barDump, barDump].map some)
        (resolvedLinker overlapExt (versionScriptRun ["a.sdump", "b.sdump"] []),
         AddElfSymbols (resolvedLinker overlapExt (versionScriptRun ["a.sdump", "b.sdump"] []))
           TranslationUnit.empty) = .ok r ∧
      ((∀ k, k ∈ r.1.function_decl_set_ →
          k ∈ (resolvedLinker overlapExt
            (versionScriptRun ["a.sdump", "b.sdump"] [])).function_decl_set_) ∧
        (∀ k, k ∈ r.1.functions_regex_matched_set → k ∉ r.1.function_decl_set_) ∧
        (∀ k, keyCount k r.2.functions ≤ 2)) ∧
      ((∀ k, k ∈ r.1.globvar_decl_set_ →
          k ∈ (resolvedLinker overlapExt
            (versionScriptRun ["a.sdump", "b.sdump"] [])).globvar_decl_set_) ∧
        (∀ k, k ∈ r.1.globvars_regex_matched_set → k ∉ r.1.globvar_decl_set_) ∧
        (∀ k, keyCount k r.2.global_vars ≤ 2)) :=
  ⟨by decide, by decide, rfl, rfl,
    C18_exact_and_matched_sets_after_linking (versionScriptRun ["a.sdump", "b.sdump"] [])
      (resolvedLinker overlapExt (versionScriptRun ["a.sdump", "b.sdump"] []))
      [barDump, barDump] (by decide) (by decide) rfl rfl⟩

end AbiLinker
